import Mathlib

/-!
InvoiceGenius: the invoice validator, the invoice arithmetic, the currency format, the
layout of the page, the route that serves it and the check the form runs before it submits.

A shallow embedding of `src/Backend/index.js` and of the function `validateForm` of
`src/Frontend/src/components/InvoiceForm.jsx`.

* The request body is the result of `JSON.parse`, so a request is a `JVal`: a JSON value,
  plus `undefined` for the result of reading a property that is not there.
* A JavaScript number is an IEEE 754 double, `NaN` or an infinity. A finite double is held
  as the exact decimal it is (`Dec`, an integer mantissa and a number of decimal places);
  parsing, `*`, `+` and `-` round their exact result to the nearest double (`numberValue`).
  The sign of zero is not kept.
* An exception (`TypeError`, `RangeError`) is the `Except.error` result.
* The PDF document is the list of the drawing calls made on it (`DrawOp`); what the code
  takes from the clock and from the date library is a parameter of `generateInvoice`.
* The file system is the list of the paths that exist.
-/

namespace InvoiceGenius

/-! ## Numbers -/

/-- A finite number: the exact decimal `m / 10 ^ s`. -/
structure Dec where
  m : ℤ
  s : ℕ
  deriving DecidableEq, Repr

namespace Dec

/-- The rational value of a decimal. -/
def toRat (d : Dec) : ℚ := (d.m : ℚ) / (10 : ℚ) ^ d.s

/-- An integer as a decimal. -/
def ofInt (k : ℤ) : Dec := ⟨k, 0⟩

/-- Strict order of the values, by cross multiplication. -/
def lt (a b : Dec) : Bool := decide (a.m * 10 ^ b.s < b.m * 10 ^ a.s)

def neg (a : Dec) : Dec := ⟨-a.m, a.s⟩

def mul (a b : Dec) : Dec := ⟨a.m * b.m, a.s + b.s⟩

def add (a b : Dec) : Dec := ⟨a.m * 10 ^ b.s + b.m * 10 ^ a.s, a.s + b.s⟩

def sub (a b : Dec) : Dec := add a (neg b)

/-- The decimal `m / 10 ^ s` written with as few decimal places as its value allows. -/
def normalize (m : ℤ) : ℕ → Dec
  | 0 => ⟨m, 0⟩
  | s + 1 => if m % 10 = 0 then normalize (m / 10) s else ⟨m, s + 1⟩

end Dec

/-- A JavaScript Number value (the sign of zero is not kept). -/
inductive JNum where
  | nan
  | posInf
  | negInf
  | fin (d : Dec)
  deriving DecidableEq, Repr

/-! ## Rounding to a double

A finite JavaScript number is an IEEE 754 binary64 value `n * 2 ^ p` with `n < 2 ^ 53` and
`-1074 ≤ p ≤ 971`. Each such value is an exact decimal, so a `Dec` holds it; parsing and
arithmetic compute the exact decimal result and round it with `numberValue`. -/

/-- The pairs `(k, 2 ^ k)` for `k = 1, 2, 4, ...`, largest first, as long as `2 ^ k ≤ n`. -/
def squares : ℕ → ℕ → ℕ → ℕ → List (ℕ × ℕ) → List (ℕ × ℕ)
  | 0, _, _, _, acc => acc
  | fuel + 1, k, t, n, acc =>
    if n < t then acc else squares fuel (2 * k) (t * t) n ((k, t) :: acc)

/-- The sum of the exponents `k` of the table whose power `2 ^ k` can be divided out of
`n`, largest first. -/
def divideOut : List (ℕ × ℕ) → ℕ → ℕ
  | [], _ => 0
  | (k, t) :: rest, n => if t ≤ n then k + divideOut rest (n / t) else divideOut rest n

/-- An estimate of the binary logarithm of `n`, by repeated squaring. It is only a first
guess, which `log2Floor` checks before it uses it. -/
def log2Estimate (n : ℕ) : ℕ := divideOut (squares 64 1 2 n []) n

/-- Whether `2 ^ e ≤ a / b < 2 ^ (e + 1)`, by cross multiplication. -/
def fitsExponent (a b : ℕ) (e : ℤ) : Bool :=
  decide (b <<< e.toNat ≤ a <<< (-e).toNat ∧ a <<< (-e).toNat < 2 * (b <<< e.toNat))

/-- The binary exponent of the positive rational `a / b`: the integer `e` with
`2 ^ e ≤ a / b < 2 ^ (e + 1)`. The estimate is taken when it fits, else the exponent is
found from `Nat.log2`. -/
def log2Floor (a b : ℕ) : ℤ :=
  let g : ℤ := (log2Estimate a : ℤ) - (log2Estimate b : ℤ)
  if fitsExponent a b g then g
  else if fitsExponent a b (g - 1) then g - 1
  else
    let e0 : ℤ := (Nat.log2 a : ℤ) - (Nat.log2 b : ℤ)
    if b <<< e0.toNat ≤ a <<< (-e0).toNat then e0 else e0 - 1

/-- The integer nearest to `num / den`, the even one when two are equally near. -/
def roundHalfEven (num den : ℕ) : ℕ :=
  let q := num / den
  let r := num % den
  if 2 * r < den then q
  else if den < 2 * r then q + 1
  else if q % 2 = 0 then q else q + 1

/-- The exponent of the last binary place of a double of binary exponent `e`: 53
significant bits, and no place below `2 ^ (-1074)`. -/
def lastPlace (e : ℤ) : ℤ := max (e - 52) (-1074)

/-- The last binary place of the double nearest to a decimal that is not zero. -/
def placeOf (d : Dec) : ℤ := lastPlace (log2Floor d.m.natAbs (10 ^ d.s))

/-- The integer `n` for which `n * 2 ^ placeOf d` is nearest to `|d|`. -/
def mantissaOf (d : Dec) : ℕ :=
  roundHalfEven (d.m.natAbs <<< (-placeOf d).toNat) ((10 ^ d.s) <<< (placeOf d).toNat)

/-- The Number value for the real number `d` (IEEE 754 binary64, round to nearest, ties to
even): `n * 2 ^ p` with `p` the last place and `n` the integer nearest to `|d| / 2 ^ p`, or
an infinity when that is `2 ^ 1024` or more. The result is written with as few decimal
places as it has. -/
def numberValue (d : Dec) : JNum :=
  if d.m = 0 then .fin ⟨0, 0⟩
  else if 971 < placeOf d ∨ (placeOf d = 971 ∧ 2 ^ 53 ≤ mantissaOf d) then
    (if d.m < 0 then .negInf else .posInf)
  else
    .fin (Dec.normalize
      (Int.sign d.m * ((mantissaOf d <<< (placeOf d).toNat) * 5 ^ (-placeOf d).toNat : ℕ))
      (-placeOf d).toNat)

namespace JNum

/-- The relational operator `a > b` on numbers: false as soon as one side is `NaN`. -/
def gt : JNum → JNum → Bool
  | nan, _ => false
  | _, nan => false
  | posInf, posInf => false
  | posInf, _ => true
  | negInf, _ => false
  | fin _, posInf => false
  | fin _, negInf => true
  | fin a, fin b => Dec.lt b a

/-- The relational operator `a <= b` on numbers: false as soon as one side is `NaN`,
otherwise the negation of `b < a`. -/
def le : JNum → JNum → Bool
  | nan, _ => false
  | _, nan => false
  | a, b => !gt a b

/-- Whether a number is `NaN`. -/
def isNaN : JNum → Bool
  | nan => true
  | _ => false

/-- The sign of a number that is not `NaN`: `-1`, `0` or `1`. -/
def sign : JNum → ℤ
  | nan => 0
  | posInf => 1
  | negInf => -1
  | fin d => Int.sign d.m

/-- JavaScript `a * b` on numbers: the exact product, rounded to a double. -/
def mul : JNum → JNum → JNum
  | nan, _ => nan
  | _, nan => nan
  | fin a, fin b => numberValue (Dec.mul a b)
  | a, b =>
    if sign a * sign b = 0 then nan
    else if 0 < sign a * sign b then posInf else negInf

/-- JavaScript `a + b` on numbers: the exact sum, rounded to a double. -/
def add : JNum → JNum → JNum
  | nan, _ => nan
  | _, nan => nan
  | fin a, fin b => numberValue (Dec.add a b)
  | posInf, negInf => nan
  | negInf, posInf => nan
  | posInf, _ => posInf
  | negInf, _ => negInf
  | fin _, posInf => posInf
  | fin _, negInf => negInf

/-- Unary minus. -/
def neg : JNum → JNum
  | nan => nan
  | posInf => negInf
  | negInf => posInf
  | fin a => fin (Dec.neg a)

/-- JavaScript `a - b` on numbers. -/
def sub (a b : JNum) : JNum := add a (neg b)

end JNum

/-! ## Values -/

/-- A value of the program: what `JSON.parse` produces, and `undefined`. An object is the
list of its own properties, each key once. -/
inductive JVal where
  | undefined
  | null
  | bool (b : Bool)
  | num (n : JNum)
  | str (s : String)
  | arr (xs : List JVal)
  | obj (kvs : List (String × JVal))

/-- The exceptions the embedded code can throw. -/
inductive JSError where
  | typeError
  | rangeError
  deriving DecidableEq, Repr

/-- The value bound to `key` among the own properties of an object, else `undefined`. -/
def lookup (key : String) : List (String × JVal) → JVal
  | [] => .undefined
  | (k, v) :: rest => if k = key then v else lookup key rest

/-- Whether an object has an own property `key`. -/
def hasKey (key : String) : List (String × JVal) → Bool
  | [] => false
  | (k, _) :: rest => k = key || hasKey key rest

/-- Property read `v[key]` / `v.key`. Reading a property of `undefined` or `null` throws a
`TypeError`. The keys this program reads (`storeName`, `address`, `price`, ...) are neither
own nor inherited properties of a string, number, boolean or array, so there the read is
`undefined`. -/
def getProp (v : JVal) (key : String) : Except JSError JVal :=
  match v with
  | .undefined => .error .typeError
  | .null => .error .typeError
  | .obj kvs => .ok (lookup key kvs)
  | _ => .ok .undefined

/-- ToBoolean: `undefined`, `null`, `false`, `0`, `NaN` and `""` are falsy. -/
def truthy : JVal → Bool
  | .undefined => false
  | .null => false
  | .bool b => b
  | .num .nan => false
  | .num (.fin d) => decide (d.m ≠ 0)
  | .num _ => true
  | .str s => decide (s.data ≠ [])
  | .arr _ => true
  | .obj _ => true

/-! ## Numbers to strings -/

/-- The decimal digits of a natural number, as characters. -/
def natDigits (n : ℕ) : List Char := Nat.toDigits 10 n

/-- Remove the zeros at the end of a digit list. -/
def stripTrailingZeros (ds : List Char) : List Char :=
  (ds.reverse.dropWhile (fun c => c = '0')).reverse

/-- The text Number::toString writes for the digits of `m / 10 ^ s`, `m` positive: with
`ds` the `k` significant digits and `n` the position of the decimal point, plain digits when
`-6 < n ≤ 21`, exponent form otherwise. -/
def posToString (m : ℕ) (s : ℕ) : String :=
  let all := natDigits m
  let ds := stripTrailingZeros all
  let k : ℤ := ds.length
  let n : ℤ := (all.length : ℤ) - s
  if k ≤ n ∧ n ≤ 21 then
    String.mk (ds ++ List.replicate (n - k).toNat '0')
  else if 0 < n ∧ n ≤ 21 then
    String.mk (ds.take n.toNat ++ '.' :: ds.drop n.toNat)
  else if -6 < n ∧ n ≤ 0 then
    String.mk ('0' :: '.' :: (List.replicate (-n).toNat '0' ++ ds))
  else
    let e := n - 1
    let es := (if 0 ≤ e then '+' else '-') :: natDigits e.natAbs
    match ds with
    | [d] => String.mk (d :: 'e' :: es)
    | d :: rest => String.mk (d :: '.' :: (rest ++ 'e' :: es))
    | [] => String.mk ('0' :: 'e' :: es)

/-- The digits Number::toString writes for the positive double `a / 10 ^ s`, whose decimal
expansion has `len` digits: the multiple of a power of ten with the fewest significant
digits `k` that still rounds to this double, and of the two candidates with `k` digits (one
below, one above) the nearer one. The search starts at `k` and takes at most `fuel` steps;
seventeen digits always suffice. -/
def shortestMantissa (a s len : ℕ) : ℕ → ℕ → ℕ
  | 0, _ => a
  | fuel + 1, k =>
    if len ≤ k then a
    else
      let unit := 10 ^ (len - k)
      let lo := a / unit * unit
      let hi := lo + unit
      let okLo := decide (numberValue ⟨lo, s⟩ = numberValue ⟨a, s⟩)
      let okHi := decide (numberValue ⟨hi, s⟩ = numberValue ⟨a, s⟩)
      if okLo && okHi then
        (if a - lo < hi - a then lo
         else if hi - a < a - lo then hi
         else if a / unit % 2 = 0 then lo else hi)
      else if okLo then lo
      else if okHi then hi
      else shortestMantissa a s len fuel (k + 1)

/-- Number::toString for a positive double `a / 10 ^ s`. -/
def posNumToString (a s : ℕ) : String :=
  posToString (shortestMantissa a s (natDigits a).length 17 1) s

/-- Number::toString (radix 10). The digits written are the fewest that read back as the
same double. -/
def numToString : JNum → String
  | .nan => "NaN"
  | .posInf => "Infinity"
  | .negInf => "-Infinity"
  | .fin d =>
    if d.m = 0 then "0"
    else if d.m < 0 then "-" ++ posNumToString d.m.natAbs d.s
    else posNumToString d.m.natAbs d.s

mutual
/-- ToString. An array is joined with commas (`Array.prototype.join`); a plain object is
`[object Object]`, unless it has an own property `toString`, which `JSON.parse` can only
bind to a value that is not callable: then ToPrimitive finds no method and throws. -/
def toStringJS : JVal → Except JSError String
  | .undefined => .ok "undefined"
  | .null => .ok "null"
  | .bool b => .ok (if b then "true" else "false")
  | .num n => .ok (numToString n)
  | .str s => .ok s
  | .arr xs => joinJS xs
  | .obj kvs => if hasKey "toString" kvs then .error .typeError else .ok "[object Object]"
/-- The body of `Array.prototype.join(",")`: `undefined` and `null` elements are written as
the empty string. -/
def joinJS : List JVal → Except JSError String
  | [] => .ok ""
  | x :: rest =>
    match (match x with
      | .undefined => Except.ok ""
      | .null => Except.ok ""
      | v => toStringJS v) with
    | .error e => .error e
    | .ok a =>
      match rest with
      | [] => .ok a
      | _ :: _ =>
        match joinJS rest with
        | .error e => .error e
        | .ok b => .ok (a ++ "," ++ b)
end

/-- The string one array element contributes to `join`. -/
def elemStr (x : JVal) : Except JSError String :=
  match x with
  | .undefined => .ok ""
  | .null => .ok ""
  | v => toStringJS v

/-! ## Strings to numbers -/

/-- StrWhiteSpaceChar: the white space and line terminator code points. -/
def isStrWhiteSpace (c : Char) : Bool :=
  let n := c.toNat
  n = 0x09 || n = 0x0A || n = 0x0B || n = 0x0C || n = 0x0D || n = 0x20 || n = 0xA0 ||
  n = 0x1680 || (0x2000 ≤ n && n ≤ 0x200A) || n = 0x2028 || n = 0x2029 || n = 0x202F ||
  n = 0x205F || n = 0x3000 || n = 0xFEFF

/-- A decimal digit. -/
def isDigit (c : Char) : Bool := 48 ≤ c.toNat && c.toNat ≤ 57

/-- The number written by a list of decimal digits. -/
def digitsVal (ds : List Char) : ℕ := ds.foldl (fun a c => 10 * a + (c.toNat - 48)) 0

/-- The ExponentPart at the head of `cs`: its value and what follows it. An `e` that is
not followed by digits does not belong to the literal: the value is `0` and nothing is
consumed. -/
def parseExponent (cs : List Char) : ℤ × List Char :=
  match cs with
  | [] => (0, cs)
  | c :: rest =>
    if c = 'e' ∨ c = 'E' then
      match rest with
      | '+' :: r =>
        if (r.takeWhile isDigit).isEmpty then (0, cs)
        else ((digitsVal (r.takeWhile isDigit) : ℤ), r.dropWhile isDigit)
      | '-' :: r =>
        if (r.takeWhile isDigit).isEmpty then (0, cs)
        else (-(digitsVal (r.takeWhile isDigit) : ℤ), r.dropWhile isDigit)
      | r =>
        if (r.takeWhile isDigit).isEmpty then (0, cs)
        else ((digitsVal (r.takeWhile isDigit) : ℤ), r.dropWhile isDigit)
    else (0, cs)

/-- The decimal `±(intDs fracDs) × 10 ^ exp`, before it is rounded to a double. -/
def mkDec (neg : Bool) (intDs fracDs : List Char) (exp : ℤ) : Dec :=
  let mant : ℤ := (digitsVal (intDs ++ fracDs) : ℤ)
  let mant := if neg then -mant else mant
  let e : ℤ := exp - (fracDs.length : ℤ)
  if 0 ≤ e then ⟨mant * 10 ^ e.toNat, 0⟩ else ⟨mant, (-e).toNat⟩

/-- The longest prefix of `cs` that is a StrUnsignedDecimalLiteral, evaluated to the double
nearest to the decimal it writes, and what follows it; `NaN` when no prefix is one. -/
def parseUnsigned (neg : Bool) (cs : List Char) : JNum × List Char :=
  if "Infinity".data.isPrefixOf cs then
    ((if neg then .negInf else .posInf), cs.drop 8)
  else
    let intDs := cs.takeWhile isDigit
    match cs.dropWhile isDigit with
    | '.' :: r2 =>
      let fracDs := r2.takeWhile isDigit
      if intDs.isEmpty && fracDs.isEmpty then (.nan, cs)
      else
        let ex := parseExponent (r2.dropWhile isDigit)
        (numberValue (mkDec neg intDs fracDs ex.1), ex.2)
    | r1 =>
      if intDs.isEmpty then (.nan, cs)
      else
        let ex := parseExponent r1
        (numberValue (mkDec neg intDs [] ex.1), ex.2)

/-- The longest prefix of `cs` that is a StrDecimalLiteral (an optional sign, then an
unsigned literal), evaluated, and what follows it. -/
def parseSigned (cs : List Char) : JNum × List Char :=
  match cs with
  | '+' :: r => parseUnsigned false r
  | '-' :: r => parseUnsigned true r
  | r => parseUnsigned false r

/-- The work of `parseFloat` on a string: skip leading white space, then read the longest
decimal literal; what follows the literal is ignored. -/
def parseFloatString (s : String) : JNum :=
  (parseSigned (s.data.dropWhile isStrWhiteSpace)).1

/-- The global `parseFloat(v)`: ToString, then `parseFloatString`. For a Number argument
Number::toString followed by parsing gives the number back, so it is returned as it is. -/
def parseFloat (v : JVal) : Except JSError JNum :=
  match v with
  | .num n => .ok n
  | v =>
    match toStringJS v with
    | .error e => .error e
    | .ok s => .ok (parseFloatString s)

/-- The value of a digit of radix at most 16, if `c` is one. -/
def hexDigitVal (c : Char) : Option ℕ :=
  let n := c.toNat
  if 48 ≤ n ∧ n ≤ 57 then some (n - 48)
  else if 97 ≤ n ∧ n ≤ 102 then some (n - 87)
  else if 65 ≤ n ∧ n ≤ 70 then some (n - 55)
  else none

/-- The value of a non-empty list of digits of the given radix; `none` if a character is
not such a digit. -/
def radixVal (radix : ℕ) (cs : List Char) : Option ℕ :=
  if cs.isEmpty then none
  else cs.foldl (fun acc c =>
    match acc, hexDigitVal c with
    | some a, some v => if v < radix then some (radix * a + v) else none
    | _, _ => none) (some 0)

/-- StringToNumber: white space is trimmed at both ends; the empty string is `0`; the whole
rest must be a decimal literal or a `0x`, `0o` or `0b` integer, else the result is `NaN`. -/
def stringToNumber (s : String) : JNum :=
  let front := s.data.dropWhile isStrWhiteSpace
  let cs := (front.reverse.dropWhile isStrWhiteSpace).reverse
  let nonDecimal (radix : ℕ) (ds : List Char) : JNum :=
    match radixVal radix ds with
    | some v => numberValue (Dec.ofInt v)
    | none => .nan
  match cs with
  | [] => .fin (Dec.ofInt 0)
  | '0' :: 'x' :: ds => nonDecimal 16 ds
  | '0' :: 'X' :: ds => nonDecimal 16 ds
  | '0' :: 'o' :: ds => nonDecimal 8 ds
  | '0' :: 'O' :: ds => nonDecimal 8 ds
  | '0' :: 'b' :: ds => nonDecimal 2 ds
  | '0' :: 'B' :: ds => nonDecimal 2 ds
  | _ =>
    match parseSigned cs with
    | (n, []) => n
    | _ => .nan

/-- ToNumber, as the operator `*` applies it to its operands. An array or object goes
through ToPrimitive, which ends in its ToString. -/
def toNumber (v : JVal) : Except JSError JNum :=
  match v with
  | .undefined => .ok .nan
  | .null => .ok (.fin (Dec.ofInt 0))
  | .bool b => .ok (.fin (Dec.ofInt (if b then 1 else 0)))
  | .num n => .ok n
  | .str s => .ok (stringToNumber s)
  | v =>
    match toStringJS v with
    | .error e => .error e
    | .ok s => .ok (stringToNumber s)

/-- The method call `v.toString()`: a `TypeError` on `undefined` and `null`, else the
ToString of the value (an own `toString` property of an object is not callable). -/
def callToString (v : JVal) : Except JSError String :=
  match v with
  | .undefined => .error .typeError
  | .null => .error .typeError
  | v => toStringJS v

/-! ## Formatters -/

/-- `Number.prototype.toFixed(2)`: Number::toString when the number is not finite or its
absolute value is at least `10 ^ 21`; else the integer `n` nearest to `100 * |x|` (the
larger one on a tie), written with at least three digits and a point before the last
two, after a `-` when `x < 0`. -/
def toFixed2 : JNum → String
  | .nan => "NaN"
  | .posInf => "Infinity"
  | .negInf => "-Infinity"
  | .fin d =>
    if 10 ^ 21 * 10 ^ d.s ≤ d.m.natAbs then numToString (.fin d)
    else
      let n := (2 * 100 * d.m.natAbs + 10 ^ d.s) / (2 * 10 ^ d.s)
      let ds := natDigits n
      let ds := List.replicate (3 - ds.length) '0' ++ ds
      let body := String.mk (ds.take (ds.length - 2) ++ '.' :: ds.drop (ds.length - 2))
      if d.m < 0 then "-" ++ body else body

/-- The three characters that start the template literal of `formatCurrency` in
`src/Backend/index.js` (U+00E2, U+201A, U+00B9). -/
def currencyGlyph : String := "â‚¹"

/-- The function `formatCurrency` of `src/Backend/index.js`. -/
def formatCurrency (amount : JVal) : Except JSError String :=
  match parseFloat amount with
  | .error e => .error e
  | .ok n => .ok (currencyGlyph ++ toFixed2 n)

/-! ## The validator (`validateInvoiceData`) -/

/-- A value of the `required` table: a label, or the labels of the fields of a section. -/
inductive Req where
  | label (text : String)
  | fields (entries : List (String × String))

/-- The `required` table, in the order `Object.entries` enumerates it. -/
def required : List (String × Req) :=
  [ ("storeName", .label "Store name"),
    ("storeDetails", .fields
      [ ("address", "Store address"), ("city", "Store city"),
        ("phone", "Store phone"), ("email", "Store email") ]),
    ("invoiceDetails", .fields
      [ ("invoiceNumber", "Invoice number"), ("orderNumber", "Order number"),
        ("date", "Invoice date"), ("time", "Invoice time") ]),
    ("customer", .fields
      [ ("name", "Customer name"), ("address", "Customer address"),
        ("city", "Customer city"), ("phone", "Customer phone") ]),
    ("deliveryPartner", .fields
      [ ("name", "Delivery partner name"), ("trackingId", "Tracking ID"),
        ("estimatedDelivery", "Estimated delivery date") ]),
    ("paymentMethod", .label "Payment method"),
    ("termsAndConditions", .label "Terms and conditions"),
    ("products", .label "Products") ]

/-- The inner loop over the fields of one section: `if (!data[key][nestedKey]) errors.push(...)`. -/
def checkNested (data : JVal) (key : String) (errors : List String) :
    List (String × String) → Except JSError (List String)
  | [] => .ok errors
  | (nestedKey, nestedValue) :: rest => do
    let sect ← getProp data key
    let v ← getProp sect nestedKey
    if !truthy v then
      checkNested data key (errors ++ ["Missing " ++ nestedValue]) rest
    else
      checkNested data key errors rest

/-- The loop `for (const [key, value] of Object.entries(required))`. -/
def checkRequired (data : JVal) (errors : List String) :
    List (String × Req) → Except JSError (List String)
  | [] => .ok errors
  | (key, .label value) :: rest => do
    let v ← getProp data key
    if !truthy v then
      checkRequired data (errors ++ ["Missing " ++ value]) rest
    else
      checkRequired data errors rest
  | (key, .fields value) :: rest => do
    let v ← getProp data key
    if !truthy v then
      checkRequired data (errors ++ ["Missing " ++ key]) rest
    else do
      let errors ← checkNested data key errors value
      checkRequired data errors rest

/-- The text `Product ${index + 1}: ` that starts every per-product message. -/
def productPrefix (index : ℕ) : String := "Product " ++ toString (index + 1) ++ ": "

/-- The callback of `data.products.forEach`, for the product at position `index`. -/
def checkProduct (errors : List String) (product : JVal) (index : ℕ) :
    Except JSError (List String) := do
  let name ← getProp product "name"
  let errors := if !truthy name then errors ++ [productPrefix index ++ "Missing name"] else errors
  let quantity ← getProp product "quantity"
  let errors :=
    if !truthy quantity then errors ++ [productPrefix index ++ "Missing quantity"] else errors
  let mrp ← getProp product "mrp"
  let errors := if !truthy mrp then errors ++ [productPrefix index ++ "Missing MRP"] else errors
  let price ← getProp product "price"
  let errors := if !truthy price then errors ++ [productPrefix index ++ "Missing price"] else errors
  let price ← getProp product "price"
  let p ← parseFloat price
  let mrp ← getProp product "mrp"
  let m ← parseFloat mrp
  if JNum.gt p m then
    .ok (errors ++ [productPrefix index ++ "Price cannot be greater than MRP"])
  else
    .ok errors

/-- The `forEach` over the products, from position `index` on. -/
def checkProducts (errors : List String) (index : ℕ) :
    List JVal → Except JSError (List String)
  | [] => .ok errors
  | product :: rest => do
    let errors ← checkProduct errors product index
    checkProducts errors (index + 1) rest

/-- The function `validateInvoiceData` of `src/Backend/index.js`. -/
def validateInvoiceData (data : JVal) : Except JSError (List String) := do
  let errors ← checkRequired data [] required
  let products ← getProp data "products"
  match products with
  | .arr (product :: rest) => checkProducts errors 0 (product :: rest)
  | _ => .ok (errors ++ ["At least one product is required"])

/-! ## The browser-side check (`validateForm`) -/

/-- The callback of `formData.products.every` in `validateForm`, followed by the ToBoolean
that `every` applies to its result: the chain
`product.name && product.quantity && product.mrp && product.price &&
parseFloat(product.price) <= parseFloat(product.mrp)` stops at its first falsy operand. -/
def validateFormProduct (product : JVal) : Except JSError Bool := do
  let name ← getProp product "name"
  if !truthy name then .ok false
  else
    let quantity ← getProp product "quantity"
    if !truthy quantity then .ok false
    else
      let mrp ← getProp product "mrp"
      if !truthy mrp then .ok false
      else
        let price ← getProp product "price"
        if !truthy price then .ok false
        else
          let price ← getProp product "price"
          let p ← parseFloat price
          let mrp ← getProp product "mrp"
          let m ← parseFloat mrp
          .ok (JNum.le p m)

/-- The method `Array.prototype.every`: it stops at the first element on which the callback
is falsy, and is true on the empty array. -/
def every (callback : JVal → Except JSError Bool) : List JVal → Except JSError Bool
  | [] => .ok true
  | x :: rest => do
    let r ← callback x
    if !r then .ok false else every callback rest

/-- The function `validateForm` of `src/Frontend/src/components/InvoiceForm.jsx`, with the
component state `formData` as its argument. In `!a || !b` the second operand is read only
when the first is truthy. A `products` value that is not an array has no method `every`,
so the call throws. -/
def validateForm (formData : JVal) : Except JSError Bool := do
  let storeName ← getProp formData "storeName"
  if !truthy storeName then .ok false
  else
    let logo ← getProp formData "logo"
    if !truthy logo then .ok false
    else
      let storeDetails ← getProp formData "storeDetails"
      let address ← getProp storeDetails "address"
      if !truthy address then .ok false
      else
        let storeDetails ← getProp formData "storeDetails"
        let phone ← getProp storeDetails "phone"
        if !truthy phone then .ok false
        else
          let customer ← getProp formData "customer"
          let name ← getProp customer "name"
          if !truthy name then .ok false
          else
            let customer ← getProp formData "customer"
            let phone ← getProp customer "phone"
            if !truthy phone then .ok false
            else
              let paymentMethod ← getProp formData "paymentMethod"
              if !truthy paymentMethod then .ok false
              else
                let termsAndConditions ← getProp formData "termsAndConditions"
                if !truthy termsAndConditions then .ok false
                else
                  let products ← getProp formData "products"
                  match products with
                  | .arr ps => every validateFormProduct ps
                  | _ => .error .typeError

/-! ## The layout (`generateInvoice`) -/

/-- One call that draws on the PDF document. -/
inductive DrawOp where
  /-- The call `doc.image(path, x, y, { width })`. -/
  | image (path : String) (x y width : ℕ)
  /-- The call `doc.text(content, x, y, { width, align })` under the font size and fill colour
  in force. -/
  | text (content : JVal) (x y : ℕ) (fontSize : ℕ) (fillColor : JVal)
      (width : Option ℕ) (align : Option String)
  /-- The helper `drawHorizontalLine(y)`: a stroke of colour `#aaaaaa` and width 1 from
  `(30, y)` to `(565, y)`. -/
  | line (y : ℕ)

/-- The state of the PDF document that the layout reads and writes: the font size and fill
colour in force, and the calls made so far. -/
structure Doc where
  fontSize : ℕ
  fillColor : JVal
  ops : List DrawOp

namespace Doc

def setFontSize (d : Doc) (n : ℕ) : Doc := ⟨n, d.fillColor, d.ops⟩

def setFillColor (d : Doc) (c : JVal) : Doc := ⟨d.fontSize, c, d.ops⟩

/-- The call `doc.text(content, x, y)`. -/
def text (d : Doc) (content : JVal) (x y : ℕ) : Doc :=
  ⟨d.fontSize, d.fillColor, d.ops ++ [.text content x y d.fontSize d.fillColor none none]⟩

/-- The call `doc.text(content, x, y, { width, align })`. -/
def textOpt (d : Doc) (content : JVal) (x y : ℕ) (width : Option ℕ) (align : Option String) :
    Doc :=
  ⟨d.fontSize, d.fillColor, d.ops ++ [.text content x y d.fontSize d.fillColor width align]⟩

def image (d : Doc) (path : String) (x y width : ℕ) : Doc :=
  ⟨d.fontSize, d.fillColor, d.ops ++ [.image path x y width]⟩

def drawHorizontalLine (d : Doc) (y : ℕ) : Doc :=
  ⟨d.fontSize, d.fillColor, d.ops ++ [.line y]⟩

end Doc

/-- The expression `invoiceData.color || '#2c3e50'`. -/
def accentColor (invoiceData : JVal) : Except JSError JVal := do
  let c ← getProp invoiceData "color"
  if truthy c then .ok c else .ok (.str "#2c3e50")

/-- The read `invoiceData[sect][key]`. -/
def getProp2 (invoiceData : JVal) (sect key : String) : Except JSError JVal := do
  let v ← getProp invoiceData sect
  getProp v key

/-- A template literal with one substitution at its end: the text followed by the ToString of
the value. -/
def template (label : String) (v : JVal) : Except JSError JVal := do
  let s ← toStringJS v
  .ok (.str (label ++ s))

def tableTop : ℕ := 280

def tableHeaders : List String :=
  ["Item Details", "Batch/Exp", "Qty", "MRP", "Price", "Amount"]

def columnWidths : List ℕ := [200, 80, 40, 70, 70, 75]

/-- The `tableHeaders.forEach`: header `i` is drawn at the running `xPosition`, which then
advances by `columnWidths[i]`. -/
def drawHeaders (d : Doc) (xPosition : ℕ) (i : ℕ) : List String → Doc × ℕ
  | [] => (d, xPosition)
  | header :: rest =>
    drawHeaders
      (d.textOpt (.str header) xPosition tableTop (columnWidths.get? i) (some "left"))
      (xPosition + (columnWidths.get? i).getD 0) (i + 1) rest

/-- The variables of the loop over the products, and the values the local `itemTotal` took
so far. -/
structure RowState where
  doc : Doc
  y : ℕ
  totalMRP : JNum
  totalAmount : JNum
  itemTotals : List JNum

/-- The drawing calls of one iteration: the six cells of the row at height `y`. The
parameter `formatDate` stands for `format(new Date(value), 'dd/MM/yyyy')` of the date-fns
library, which throws a `RangeError` on a value that is not a date. -/
def drawRow (formatDate : JVal → Except JSError String) (doc : Doc) (y : ℕ) (product : JVal)
    (itemTotal : JNum) : Except JSError Doc := do
  let xPosition := 30
  let doc := (doc.setFontSize 9).setFillColor (.str "#34495e")
  -- Item Details
  let name ← toStringJS (← getProp product "name")
  let brand ← toStringJS (← getProp product "brand")
  let doc := doc.textOpt (.str (name ++ "\n" ++ brand)) xPosition y (columnWidths.get? 0) none
  let xPosition := xPosition + (columnWidths.get? 0).getD 0
  -- Batch/Expiry
  let batch ← toStringJS (← getProp product "batch")
  let expiry ← formatDate (← getProp product "expiry")
  let doc := doc.textOpt (.str (batch ++ "\n" ++ expiry)) xPosition y (columnWidths.get? 1) none
  let xPosition := xPosition + (columnWidths.get? 1).getD 0
  -- Quantity
  let qty ← callToString (← getProp product "quantity")
  let doc := doc.textOpt (.str qty) xPosition y (columnWidths.get? 2) none
  let xPosition := xPosition + (columnWidths.get? 2).getD 0
  -- MRP
  let mrpText ← formatCurrency (← getProp product "mrp")
  let doc := doc.textOpt (.str mrpText) xPosition y (columnWidths.get? 3) none
  let xPosition := xPosition + (columnWidths.get? 3).getD 0
  -- Price
  let priceText ← formatCurrency (← getProp product "price")
  let doc := doc.textOpt (.str priceText) xPosition y (columnWidths.get? 4) none
  let xPosition := xPosition + (columnWidths.get? 4).getD 0
  -- Amount
  let amountText ← formatCurrency (.num itemTotal)
  .ok (doc.textOpt (.str amountText) xPosition y (columnWidths.get? 5) none)

/-- The body of `for (const product of invoiceData.products)`: the three assignments, then
the drawing calls, then `y += 30`. -/
def tableRow (formatDate : JVal → Except JSError String) (st : RowState) (product : JVal) :
    Except JSError RowState := do
  let price ← toNumber (← getProp product "price")
  let quantity ← toNumber (← getProp product "quantity")
  let itemTotal := JNum.mul price quantity
  let mrp ← toNumber (← getProp product "mrp")
  let quantity ← toNumber (← getProp product "quantity")
  let totalMRP := JNum.add st.totalMRP (JNum.mul mrp quantity)
  let totalAmount := JNum.add st.totalAmount itemTotal
  let doc ← drawRow formatDate st.doc st.y product itemTotal
  .ok ⟨doc, st.y + 30, totalMRP, totalAmount, st.itemTotals ++ [itemTotal]⟩

/-- The loop `for (const product of invoiceData.products)`. -/
def tableRows (formatDate : JVal → Except JSError String) (st : RowState) :
    List JVal → Except JSError RowState
  | [] => .ok st
  | product :: rest => do
    let st ← tableRow formatDate st product
    tableRows formatDate st rest

/-- The values a `for ... of` loop takes from `v`: the elements of an array, the characters of
a string; anything else the validator lets through is not iterable (`TypeError`). -/
def iterate (v : JVal) : Except JSError (List JVal) :=
  match v with
  | .arr xs => .ok xs
  | .str s => .ok (s.data.map (fun c => .str (String.singleton c)))
  | _ => .error .typeError

/-- The pieces of a text between its newline characters: `text.split('\n')`. -/
def splitLines : List Char → List (List Char)
  | [] => [[]]
  | c :: rest =>
    if c = '\n' then [] :: splitLines rest
    else
      match splitLines rest with
      | [] => [[c]]
      | line :: lines => (c :: line) :: lines

/-- The `termsLines.forEach`: line `index` is drawn at `y + index * 15`. -/
def drawTerms (d : Doc) (y : ℕ) (index : ℕ) : List (List Char) → Doc
  | [] => d
  | line :: rest =>
    drawTerms (d.textOpt (.str (String.mk line)) 30 (y + index * 15) (some 535) none) y
      (index + 1) rest

/-- The `summaryData.forEach`: row `i` is drawn at `y + i * 20`, the label at `x = 400` and
the value at `x = 490`. -/
def drawSummary (d : Doc) (y : ℕ) (i : ℕ) : List (String × JVal) → Doc
  | [] => d
  | (label, value) :: rest =>
    drawSummary (((d.text (.str label) 400 (y + i * 20)).text value 490 (y + i * 20))) y
      (i + 1) rest

/-- What one run of `generateInvoice` leaves behind: the path it resolves to, the calls made
on the document, and the values of its local variables: each `itemTotal`, and the final
`totalMRP`, `totalAmount` and `totalDiscount`. -/
structure Render where
  outputPath : String
  ops : List DrawOp
  itemTotals : List JNum
  totalMRP : JNum
  totalAmount : JNum
  totalDiscount : JNum

/-- The part of `generateInvoice` before the table rows: logo, store details, invoice
details, customer, delivery partner and the table headers. -/
def drawHeader (formatDate : JVal → Except JSError String) (invoiceData : JVal)
    (logoPath : String) : Except JSError Doc := do
  let doc : Doc := ⟨12, .str "black", []⟩
  -- Add logo
  let doc := doc.image logoPath 30 30 80
  -- Store Details
  let doc := (doc.setFontSize 20).setFillColor (← accentColor invoiceData)
  let doc := doc.text (← getProp invoiceData "storeName") 120 40
  let storeInfoY := 65
  let doc := (doc.setFontSize 10).setFillColor (.str "#34495e")
  let doc := doc.text (← getProp2 invoiceData "storeDetails" "address") 120 storeInfoY
  let doc := doc.text (← getProp2 invoiceData "storeDetails" "city") 120 (storeInfoY + 15)
  let doc := doc.text (← template "Phone: " (← getProp2 invoiceData "storeDetails" "phone"))
    120 (storeInfoY + 30)
  let doc := doc.text (← template "Email: " (← getProp2 invoiceData "storeDetails" "email"))
    120 (storeInfoY + 45)
  -- Invoice Details
  let doc := (doc.setFontSize 16).setFillColor (← accentColor invoiceData)
  let doc := doc.text (.str "TAX INVOICE") 400 30
  let doc := (doc.setFontSize 10).setFillColor (.str "#34495e")
  let doc := doc.text
    (← template "Invoice No: " (← getProp2 invoiceData "invoiceDetails" "invoiceNumber")) 400 55
  let doc := doc.text
    (← template "Order No: " (← getProp2 invoiceData "invoiceDetails" "orderNumber")) 400 70
  let date ← formatDate (← getProp2 invoiceData "invoiceDetails" "date")
  let doc := doc.text (.str ("Date: " ++ date)) 400 85
  let doc := doc.text (← template "Time: " (← getProp2 invoiceData "invoiceDetails" "time")) 400 100
  let doc := doc.drawHorizontalLine 130
  -- Customer Details
  let doc := (doc.setFontSize 12).setFillColor (← accentColor invoiceData)
  let doc := doc.text (.str "Bill To:") 30 150
  let doc := (doc.setFontSize 10).setFillColor (.str "#34495e")
  let doc := doc.text (← getProp2 invoiceData "customer" "name") 30 170
  let doc := doc.text (← getProp2 invoiceData "customer" "address") 30 185
  let doc := doc.text (← getProp2 invoiceData "customer" "city") 30 200
  let doc := doc.text (← template "Phone: " (← getProp2 invoiceData "customer" "phone")) 30 215
  let doc := doc.text (← template "Email: " (← getProp2 invoiceData "customer" "email")) 30 230
  -- Delivery Partner Details
  let doc := (doc.setFontSize 12).setFillColor (← accentColor invoiceData)
  let doc := doc.text (.str "Delivery Details:") 300 150
  let doc := (doc.setFontSize 10).setFillColor (.str "#34495e")
  let doc := doc.text (← template "Partner: " (← getProp2 invoiceData "deliveryPartner" "name"))
    300 170
  let doc := doc.text
    (← template "Tracking ID: " (← getProp2 invoiceData "deliveryPartner" "trackingId")) 300 185
  let doc := doc.text
    (← template "Estimated Delivery: "
      (← getProp2 invoiceData "deliveryPartner" "estimatedDelivery")) 300 200
  -- Products Table: headers
  let doc := (doc.setFontSize 10).setFillColor (← accentColor invoiceData)
  let doc := (drawHeaders doc 30 0 tableHeaders).1
  .ok (doc.drawHorizontalLine 295)

/-- The part of `generateInvoice` after the table rows: the divider, the summary, the terms
and the footer. -/
def drawClosing (generatedOn : String) (invoiceData : JVal) (outputPath : String)
    (st : RowState) : Except JSError Render := do
  let doc := st.doc.drawHorizontalLine (st.y + 10)
  -- Summary
  let y := st.y + 30
  let totalDiscount := JNum.sub st.totalMRP st.totalAmount
  let doc := (doc.setFontSize 10).setFillColor (.str "#34495e")
  let summaryData : List (String × JVal) :=
    [ ("Total MRP:", .str (← formatCurrency (.num st.totalMRP))),
      ("Total Discount:", .str (← formatCurrency (.num totalDiscount))),
      ("Net Amount:", .str (← formatCurrency (.num st.totalAmount))),
      ("Payment Method:", ← getProp invoiceData "paymentMethod") ]
  let doc := drawSummary doc y 0 summaryData
  -- Terms and Conditions
  let y := y + 100
  let doc := (doc.setFontSize 12).setFillColor (← accentColor invoiceData)
  let doc := doc.text (.str "Terms and Conditions:") 30 y
  let y := y + 20
  let doc := (doc.setFontSize 9).setFillColor (.str "#34495e")
  let termsLines ← (match (← getProp invoiceData "termsAndConditions") with
    | .str s => Except.ok (splitLines s.data)
    | _ => Except.error JSError.typeError)
  let doc := drawTerms doc y 0 termsLines
  -- Footer
  let doc := (doc.setFontSize 10).setFillColor (.str "#2c3e50")
  let doc := doc.textOpt (← template "Thank you for choosing " (← getProp invoiceData "storeName"))
    0 780 none (some "center")
  let doc := (doc.setFontSize 8).setFillColor (.str "#666666")
  let doc := doc.textOpt (.str ("Generated on " ++ generatedOn)) 0 795 none (some "center")
  .ok ⟨outputPath, doc.ops, st.itemTotals, st.totalMRP, st.totalAmount, totalDiscount⟩

/-- The function `generateInvoice` of `src/Backend/index.js`. The parameters stand for what
the code takes from outside: `formatDate` for `format(new Date(value), 'dd/MM/yyyy')`, `nowMs`
for `Date.now()` and `generatedOn` for `format(new Date(), 'dd/MM/yyyy HH:mm')`. The PDF
library is taken to accept every call. -/
def generateInvoice (formatDate : JVal → Except JSError String) (nowMs : ℕ)
    (generatedOn : String) (invoiceData : JVal) (logoPath : String) :
    Except JSError Render := do
  let outputPath := "output/Invoice_" ++ toString nowMs ++ ".pdf"
  let doc ← drawHeader formatDate invoiceData logoPath
  -- Table Rows
  let products ← iterate (← getProp invoiceData "products")
  let st ← tableRows formatDate
    ⟨doc, tableTop + 30, .fin (Dec.ofInt 0), .fin (Dec.ofInt 0), []⟩ products
  drawClosing generatedOn invoiceData outputPath st

/-! ## Vocabulary of the statements -/

/-- The value of `v[key]` for use in statements: `undefined` where the read throws. -/
def field (v : JVal) (key : String) : JVal :=
  match getProp v key with
  | .ok x => x
  | .error _ => .undefined

/-- The values `undefined` and `null`. -/
def isNullish : JVal → Bool
  | .undefined => true
  | .null => true
  | _ => false

/-- A field is present: it is there and is not `null`. -/
def present (v : JVal) : Bool := !isNullish v

/-- A field is present and non-empty: it is there, is not `null` and is not the empty
string. -/
def presentNonEmpty : JVal → Bool
  | .undefined => false
  | .null => false
  | .str s => decide (s ≠ "")
  | _ => true

/-- The result of `parseFloat(v)`, `NaN` where the call throws. -/
def parsed (v : JVal) : JNum :=
  match parseFloat v with
  | .ok n => n
  | .error _ => .nan

/-- Whether `parseFloat(v)` throws. -/
def parseFloatThrows (v : JVal) : Bool :=
  match parseFloat v with
  | .ok _ => false
  | .error _ => true

/-- The products on which the per-product callback throws: `undefined` and `null`, and those
whose `price` or `mrp` has no string form. -/
def productThrows (p : JVal) : Bool :=
  isNullish p || parseFloatThrows (field p "price") || parseFloatThrows (field p "mrp")

/-- The requests on which `validateInvoiceData` throws. -/
def validatorThrows (data : JVal) : Bool :=
  isNullish data ||
    match field data "products" with
    | .arr ps => ps.any productThrows
    | _ => false

/-- The messages for the fields of a section that is there, in table order. -/
def nestedErrors (sect : JVal) : List (String × String) → List String
  | [] => []
  | (nestedKey, nestedValue) :: rest =>
    (if truthy (field sect nestedKey) then [] else ["Missing " ++ nestedValue]) ++
      nestedErrors sect rest

/-- The messages for one entry of the table. -/
def entryErrors (data : JVal) : String × Req → List String
  | (key, .label value) => if truthy (field data key) then [] else ["Missing " ++ value]
  | (key, .fields entries) =>
    if truthy (field data key) then nestedErrors (field data key) entries
    else ["Missing " ++ key]

/-- The messages for the top-level and nested fields, in table order. -/
def requiredErrors (data : JVal) : List (String × Req) → List String
  | [] => []
  | entry :: rest => entryErrors data entry ++ requiredErrors data rest

/-- The messages for the product at position `index`. -/
def productErrors (p : JVal) (index : ℕ) : List String :=
  (if truthy (field p "name") then [] else [productPrefix index ++ "Missing name"]) ++
  (if truthy (field p "quantity") then [] else [productPrefix index ++ "Missing quantity"]) ++
  (if truthy (field p "mrp") then [] else [productPrefix index ++ "Missing MRP"]) ++
  (if truthy (field p "price") then [] else [productPrefix index ++ "Missing price"]) ++
  (if JNum.gt (parsed (field p "price")) (parsed (field p "mrp")) then
    [productPrefix index ++ "Price cannot be greater than MRP"] else [])

/-- The messages for the products from position `index` on, in product order. -/
def productsErrors (index : ℕ) : List JVal → List String
  | [] => []
  | p :: rest => productErrors p index ++ productsErrors (index + 1) rest

/-- The messages that depend on the value of `products` alone. -/
def productSection (products : JVal) : List String :=
  match products with
  | .arr (p :: rest) => productsErrors 0 (p :: rest)
  | _ => ["At least one product is required"]

/-- The presence requirements on one product. -/
structure ValidProduct (p : JVal) : Prop where
  name : present (field p "name") = true
  quantity : present (field p "quantity") = true
  mrp : present (field p "mrp") = true
  price : present (field p "price") = true

/-- Every field of section `sect` named in `keys` is present and non-empty. -/
def SectionFilled (data : JVal) (sect : String) (keys : List String) : Prop :=
  ∀ key ∈ keys, presentNonEmpty (field (field data sect) key) = true

/-- A valid request: every required scalar field is present and non-empty, and `products` is
a non-empty array of products that have a name, quantity, mrp and price. -/
structure ValidRequest (data : JVal) : Prop where
  storeName : presentNonEmpty (field data "storeName") = true
  paymentMethod : presentNonEmpty (field data "paymentMethod") = true
  termsAndConditions : presentNonEmpty (field data "termsAndConditions") = true
  storeDetails : SectionFilled data "storeDetails" ["address", "city", "phone", "email"]
  invoiceDetails :
    SectionFilled data "invoiceDetails" ["invoiceNumber", "orderNumber", "date", "time"]
  customer : SectionFilled data "customer" ["name", "address", "city", "phone"]
  deliveryPartner :
    SectionFilled data "deliveryPartner" ["name", "trackingId", "estimatedDelivery"]
  products : ∃ p ps, field data "products" = .arr (p :: ps) ∧ ∀ q ∈ p :: ps, ValidProduct q

/-- The labels of the missing or empty values among `entries`, read from `sect`. -/
def missingIn (sect : JVal) : List (String × String) → List String
  | [] => []
  | (key, label) :: rest =>
    (if presentNonEmpty (field sect key) then [] else [label]) ++ missingIn sect rest

/-- The fields of the four sections of a request, with the names the messages use. -/
def storeDetailsFields : List (String × String) :=
  [("address", "Store address"), ("city", "Store city"), ("phone", "Store phone"),
    ("email", "Store email")]

def invoiceDetailsFields : List (String × String) :=
  [("invoiceNumber", "Invoice number"), ("orderNumber", "Order number"),
    ("date", "Invoice date"), ("time", "Invoice time")]

def customerFields : List (String × String) :=
  [("name", "Customer name"), ("address", "Customer address"), ("city", "Customer city"),
    ("phone", "Customer phone")]

def deliveryPartnerFields : List (String × String) :=
  [("name", "Delivery partner name"), ("trackingId", "Tracking ID"),
    ("estimatedDelivery", "Estimated delivery date")]

/-- Every required field (top-level or nested) that is missing or empty, by the name its
message uses, in schema order. The fields of a section that is absent are all missing. -/
def missingFields (data : JVal) : List String :=
  missingIn data [("storeName", "Store name")] ++
  missingIn (field data "storeDetails") storeDetailsFields ++
  missingIn (field data "invoiceDetails") invoiceDetailsFields ++
  missingIn (field data "customer") customerFields ++
  missingIn (field data "deliveryPartner") deliveryPartnerFields ++
  missingIn data [("paymentMethod", "Payment method"),
    ("termsAndConditions", "Terms and conditions"), ("products", "Products")]

/-- What is missing in one section, as the validator counts it: the section itself, by its
key, when its value is absent (or otherwise falsy), else its missing or empty fields. -/
def missingInSection (data : JVal) (key : String) (entries : List (String × String)) :
    List String :=
  if truthy (field data key) then missingIn (field data key) entries else [key]

/-- The missing fields and absent sections of a request, in schema order. -/
def missingUnits (data : JVal) : List String :=
  missingIn data [("storeName", "Store name")] ++
  missingInSection data "storeDetails" storeDetailsFields ++
  missingInSection data "invoiceDetails" invoiceDetailsFields ++
  missingInSection data "customer" customerFields ++
  missingInSection data "deliveryPartner" deliveryPartnerFields ++
  missingIn data [("paymentMethod", "Payment method"),
    ("termsAndConditions", "Terms and conditions"), ("products", "Products")]

/-- Every required field other than `products` passes the validator's presence test. -/
structure OtherFieldsFilled (data : JVal) : Prop where
  storeName : truthy (field data "storeName") = true
  storeDetails : ∀ e ∈ storeDetailsFields,
    truthy (field (field data "storeDetails") e.1) = true
  invoiceDetails : ∀ e ∈ invoiceDetailsFields,
    truthy (field (field data "invoiceDetails") e.1) = true
  customer : ∀ e ∈ customerFields, truthy (field (field data "customer") e.1) = true
  deliveryPartner : ∀ e ∈ deliveryPartnerFields,
    truthy (field (field data "deliveryPartner") e.1) = true
  paymentMethod : truthy (field data "paymentMethod") = true
  termsAndConditions : truthy (field data "termsAndConditions") = true

/-- The amount `k / 100` written with exactly two digits after the decimal point. -/
def twoPlaces (k : ℤ) : String :=
  (if k < 0 then "-" else "") ++
    String.mk (natDigits (k.natAbs / 100) ++
      ['.', Nat.digitChar (k.natAbs / 10 % 10), Nat.digitChar (k.natAbs % 10)])

/-- The product `p` carries the finite numbers `row = (price, mrp, quantity)`. -/
def HasAmounts (p : JVal) (row : Dec × Dec × Dec) : Prop :=
  field p "price" = .num (.fin row.1) ∧ field p "mrp" = .num (.fin row.2.1) ∧
    field p "quantity" = .num (.fin row.2.2)

/-- A date formatter that accepts every value, for the examples. -/
def sampleFormatDate (_ : JVal) : Except JSError String := .ok "31/01/2027"

/-- The price and the mrp of a product both read as numbers: neither `parseFloat` is
`NaN`. -/
def readsAsNumbers (p : JVal) : Bool :=
  !(parsed (field p "price")).isNaN && !(parsed (field p "mrp")).isNaN

/-! ## Sample requests -/

/-- A number value from an integer. -/
def intVal (k : ℤ) : JVal := .num (.fin (Dec.ofInt k))

/-- The product of the concrete scenario: quantity 2, mrp 50.00, price 45.00. -/
def paracetamol : JVal :=
  .obj [("name", .str "Paracetamol"), ("brand", .str "Acme"), ("batch", .str "B-17"),
    ("expiry", .str "2027-01-31"), ("quantity", intVal 2), ("mrp", intVal 50),
    ("price", intVal 45)]

def sampleStoreDetails : JVal :=
  .obj [("address", .str "12 Main Road"), ("city", .str "Pune"), ("phone", .str "020-555"),
    ("email", .str "store@example.com")]

/-- A request with the given fields first, followed by filled invoice details, customer,
delivery partner, payment method and terms. -/
def requestOf (fields : List (String × JVal)) : JVal :=
  .obj (fields ++
    [("invoiceDetails", .obj [("invoiceNumber", .str "INV-1"), ("orderNumber", .str "ORD-1"),
        ("date", .str "2026-11-05"), ("time", .str "10:30:00")]),
      ("customer", .obj [("name", .str "A. Rao"), ("address", .str "4 Lake View"),
        ("city", .str "Pune"), ("phone", .str "98200")]),
      ("deliveryPartner", .obj [("name", .str "QuickShip"), ("trackingId", .str "TRK-9"),
        ("estimatedDelivery", .str "2026-11-07")]),
      ("paymentMethod", .str "Cash"),
      ("termsAndConditions", .str "No returns.\nKeep the bill.")])

/-- A request that is filled in throughout, with the given products. -/
def sampleRequest (products : List JVal) : JVal :=
  requestOf [("storeName", .str "City Pharmacy"), ("storeDetails", sampleStoreDetails),
    ("products", .arr products)]

/-- A product that lacks a price. -/
def syrupWithoutPrice : JVal :=
  .obj [("name", .str "Syrup"), ("quantity", intVal 1), ("mrp", intVal 5)]

/-- A filled request but for the store details, which are absent. -/
def requestWithoutStoreDetails : JVal :=
  requestOf [("storeName", .str "City Pharmacy"), ("products", .arr [paracetamol])]

/-- A filled request but for the store name, which is empty, and the price of the second
product, which is absent. -/
def requestWithTwoFaults : JVal :=
  requestOf [("storeName", .str ""), ("storeDetails", sampleStoreDetails),
    ("products", .arr [paracetamol, syrupWithoutPrice])]

/-- A state of the form that is filled in throughout, with one product of the given mrp and
price. Every input delivers a string; the selected logo is a `File`, an object with no own
enumerable property. -/
def sampleForm (mrp price : String) : JVal :=
  .obj [("storeName", .str "City Pharmacy"),
    ("storeDetails", sampleStoreDetails),
    ("invoiceDetails", .obj [("invoiceNumber", .str "INV-1"), ("orderNumber", .str "ORD-1"),
      ("date", .str "2026-11-05"), ("time", .str "10:30:00")]),
    ("customer", .obj [("name", .str "A. Rao"), ("address", .str "4 Lake View"),
      ("city", .str "Pune"), ("phone", .str "98200"), ("email", .str "rao@example.com")]),
    ("deliveryPartner", .obj [("name", .str "QuickShip"), ("trackingId", .str "TRK-9"),
      ("estimatedDelivery", .str "2026-11-07")]),
    ("color", .str "#2c3e50"),
    ("logo", .obj []),
    ("products", .arr [.obj [("name", .str "Paracetamol"), ("brand", .str "Acme"),
      ("batch", .str "B-17"), ("expiry", .str "2027-01-31"), ("quantity", .str "2"),
      ("mrp", .str mrp), ("price", .str price)]]),
    ("paymentMethod", .str "Cash"),
    ("termsAndConditions", .str "No returns.")]

/-! ## The plan of a page -/

/-- Where and how a call draws, without what it draws. -/
inductive Frame where
  | image (x y width : ℕ)
  | text (x y : ℕ) (fontSize : ℕ) (fillColor : JVal) (width : Option ℕ) (align : Option String)
  | line (y : ℕ)

/-- The frame of a call. -/
def DrawOp.frame : DrawOp → Frame
  | .image _ x y width => .image x y width
  | .text _ x y fontSize fillColor width align => .text x y fontSize fillColor width align
  | .line y => .line y

/-- The height at which a frame is drawn. -/
def Frame.y : Frame → ℕ
  | .image _ y _ => y
  | .text _ y _ _ _ _ => y
  | .line y => y

/-- The fill colour of a text frame. -/
def Frame.color : Frame → Option JVal
  | .text _ _ _ fillColor _ _ => some fillColor
  | _ => none

/-- The colour of the body text. -/
def bodyColor : JVal := .str "#34495e"

/-- The value of `invoiceData.color || '#2c3e50'` where the read does not throw. -/
def accentOf (invoiceData : JVal) : JVal :=
  if truthy (field invoiceData "color") then field invoiceData "color" else .str "#2c3e50"

/-- The frames of the header: the logo; the store name and four store lines; the title and
four invoice lines; the divider; the customer heading and five lines; the delivery heading and
three lines; the six table headers; the divider under them. -/
def headerFrames (accent : JVal) : List Frame :=
  [ .image 30 30 80,
    .text 120 40 20 accent none none,
    .text 120 65 10 bodyColor none none,
    .text 120 80 10 bodyColor none none,
    .text 120 95 10 bodyColor none none,
    .text 120 110 10 bodyColor none none,
    .text 400 30 16 accent none none,
    .text 400 55 10 bodyColor none none,
    .text 400 70 10 bodyColor none none,
    .text 400 85 10 bodyColor none none,
    .text 400 100 10 bodyColor none none,
    .line 130,
    .text 30 150 12 accent none none,
    .text 30 170 10 bodyColor none none,
    .text 30 185 10 bodyColor none none,
    .text 30 200 10 bodyColor none none,
    .text 30 215 10 bodyColor none none,
    .text 30 230 10 bodyColor none none,
    .text 300 150 12 accent none none,
    .text 300 170 10 bodyColor none none,
    .text 300 185 10 bodyColor none none,
    .text 300 200 10 bodyColor none none,
    .text 30 280 10 accent (some 200) (some "left"),
    .text 230 280 10 accent (some 80) (some "left"),
    .text 310 280 10 accent (some 40) (some "left"),
    .text 350 280 10 accent (some 70) (some "left"),
    .text 420 280 10 accent (some 70) (some "left"),
    .text 490 280 10 accent (some 75) (some "left"),
    .line 295 ]

/-- The frames of the six cells of a row at height `y`. -/
def cellFrames (y : ℕ) : List Frame :=
  [ .text 30 y 9 bodyColor (some 200) none,
    .text 230 y 9 bodyColor (some 80) none,
    .text 310 y 9 bodyColor (some 40) none,
    .text 350 y 9 bodyColor (some 70) none,
    .text 420 y 9 bodyColor (some 70) none,
    .text 490 y 9 bodyColor (some 75) none ]

/-- The frames of `n` rows, the first at height `y`, each 30 below the one before. -/
def rowsFrames (y : ℕ) : ℕ → List Frame
  | 0 => []
  | n + 1 => cellFrames y ++ rowsFrames (y + 30) n

/-- The calls that draw the terms lines from position `index` on: line `index` at
`y + index * 15`. -/
def termsOps (y : ℕ) (index : ℕ) : List (List Char) → List DrawOp
  | [] => []
  | line :: rest =>
    .text (.str (String.mk line)) 30 (y + index * 15) 9 bodyColor (some 535) none ::
      termsOps y (index + 1) rest

/-- The calls of the summary: four rows of a label at `x = 400` and a value at `x = 490`,
20 apart from `y` on. -/
def summaryOps (y : ℕ) (totalMRP totalDiscount netAmount paymentMethod : JVal) : List DrawOp :=
  [ .text (.str "Total MRP:") 400 y 10 bodyColor none none,
    .text totalMRP 490 y 10 bodyColor none none,
    .text (.str "Total Discount:") 400 (y + 20) 10 bodyColor none none,
    .text totalDiscount 490 (y + 20) 10 bodyColor none none,
    .text (.str "Net Amount:") 400 (y + 40) 10 bodyColor none none,
    .text netAmount 490 (y + 40) 10 bodyColor none none,
    .text (.str "Payment Method:") 400 (y + 60) 10 bodyColor none none,
    .text paymentMethod 490 (y + 60) 10 bodyColor none none ]

/-- The two calls of the footer. -/
def footerOps (thanks : JVal) (generatedOn : String) : List DrawOp :=
  [ .text thanks 0 780 10 (.str "#2c3e50") none (some "center"),
    .text (.str ("Generated on " ++ generatedOn)) 0 795 8 (.str "#666666") none
      (some "center") ]

/-- The call that draws the second footer line. -/
def generatedOnOp (generatedOn : String) : DrawOp :=
  .text (.str ("Generated on " ++ generatedOn)) 0 795 8 (.str "#666666") none (some "center")

/-- The render `r` with another output path and another second footer line. -/
def Render.atTime (generatedOn : String) (outputPath : String) (r : Render) : Render :=
  ⟨outputPath, r.ops.dropLast ++ [generatedOnOp generatedOn], r.itemTotals, r.totalMRP,
    r.totalAmount, r.totalDiscount⟩

/-- The frames of the summary: four rows of two, 20 apart from `y` on. -/
def summaryFrames (y : ℕ) : List Frame :=
  [ .text 400 y 10 bodyColor none none, .text 490 y 10 bodyColor none none,
    .text 400 (y + 20) 10 bodyColor none none, .text 490 (y + 20) 10 bodyColor none none,
    .text 400 (y + 40) 10 bodyColor none none, .text 490 (y + 40) 10 bodyColor none none,
    .text 400 (y + 60) 10 bodyColor none none, .text 490 (y + 60) 10 bodyColor none none ]

/-- The frames of `m` terms lines from position `index` on: line `index` at
`y + index * 15`. -/
def termsFrames (y : ℕ) (index : ℕ) : ℕ → List Frame
  | 0 => []
  | m + 1 => .text 30 (y + index * 15) 9 bodyColor (some 535) none :: termsFrames y (index + 1) m

/-- The frames of the two footer lines. -/
def footerFrames : List Frame :=
  [ .text 0 780 10 (.str "#2c3e50") none (some "center"),
    .text 0 795 8 (.str "#666666") none (some "center") ]

/-- The frames after the rows, when the cursor stands at `y`: the divider, the summary, the
terms heading, `m` terms lines and the footer. -/
def closingFrames (accent : JVal) (y : ℕ) (m : ℕ) : List Frame :=
  .line (y + 10) :: (summaryFrames (y + 30) ++
    .text 30 (y + 130) 12 accent none none :: (termsFrames (y + 150) 0 m ++ footerFrames))

/-- The frames of a page with `n` products and `m` terms lines. -/
def layoutFrames (accent : JVal) (n m : ℕ) : List Frame :=
  headerFrames accent ++ (rowsFrames 310 n ++ closingFrames accent (310 + 30 * n) m)

/-- The fill colours of the text calls, in drawing order. -/
def textColours (ops : List DrawOp) : List JVal := ops.filterMap (fun op => op.frame.color)

/-- The render of a run that returns (the empty render when the run throws). -/
def renderOf (x : Except JSError Render) : Render :=
  match x with
  | .ok r => r
  | .error _ => ⟨"", [], [], .nan, .nan, .nan⟩

/-- The scenario's render, at 08:00 on 5 November 2026. -/
def sampleRender : Render :=
  renderOf (generateInvoice sampleFormatDate 1730793600000 "05/11/2026 08:00"
    (sampleRequest [paracetamol]) "uploads/logo.png")

/-- Whether a run returns. -/
def returns {α : Type} (x : Except JSError α) : Bool :=
  match x with
  | .ok _ => true
  | .error _ => false

/-- The fill colours of the text calls of a page with `n` products and `m` terms lines, in
drawing order. -/
def colourPlan (accent : JVal) (n m : ℕ) : List JVal :=
  -- store name, then address, city, phone, email
  accent :: List.replicate 4 bodyColor ++
  -- 'TAX INVOICE', then number, order, date, time
  (accent :: List.replicate 4 bodyColor ++
  -- 'Bill To:', then name, address, city, phone, email
  (accent :: List.replicate 5 bodyColor ++
  -- 'Delivery Details:', then partner, tracking id, estimated delivery
  (accent :: List.replicate 3 bodyColor ++
  -- the six table headers
  (List.replicate 6 accent ++
  -- the six cells of each row
  (List.replicate (6 * n) bodyColor ++
  -- the four labels and values of the summary
  (List.replicate 8 bodyColor ++
  -- 'Terms and Conditions:', then the terms lines
  (accent :: List.replicate m bodyColor ++
  -- 'Thank you for choosing ...', 'Generated on ...'
  [.str "#2c3e50", .str "#666666"])))))))

/-- The calls that draw the headings of a page with `n` products. -/
def headingOps (data : JVal) (n : ℕ) : List DrawOp :=
  [ .text (field data "storeName") 120 40 20 (accentOf data) none none,
    .text (.str "TAX INVOICE") 400 30 16 (accentOf data) none none,
    .text (.str "Bill To:") 30 150 12 (accentOf data) none none,
    .text (.str "Delivery Details:") 300 150 12 (accentOf data) none none,
    .text (.str "Item Details") 30 280 10 (accentOf data) (some 200) (some "left"),
    .text (.str "Batch/Exp") 230 280 10 (accentOf data) (some 80) (some "left"),
    .text (.str "Qty") 310 280 10 (accentOf data) (some 40) (some "left"),
    .text (.str "MRP") 350 280 10 (accentOf data) (some 70) (some "left"),
    .text (.str "Price") 420 280 10 (accentOf data) (some 70) (some "left"),
    .text (.str "Amount") 490 280 10 (accentOf data) (some 75) (some "left"),
    .text (.str "Terms and Conditions:") 30 (440 + 30 * n) 12 (accentOf data) none none ]

/-- Whether a colour is the given hex string. -/
def isColor (hex : String) : JVal → Bool
  | .str s => s == hex
  | _ => false

/-- The horizontal position of a frame. -/
def Frame.x : Frame → ℕ
  | .image x _ _ => x
  | .text x _ _ _ _ _ => x
  | .line _ => 30

/-- The running sums of a list of widths, starting at `x`: the left edge of each column. -/
def columnStarts (x : ℕ) : List ℕ → List ℕ
  | [] => []
  | w :: rest => x :: columnStarts (x + w) rest

/-- The lines put together again, with a newline between two neighbours. -/
def joinLines : List (List Char) → List Char
  | [] => []
  | [line] => line
  | line :: next :: rest => line ++ '\n' :: joinLines (next :: rest)

/-- The call that draws terms line `j` of a page with `n` products. -/
def termsLineOp (n : ℕ) (j : ℕ) (line : List Char) : DrawOp :=
  .text (.str (String.mk line)) 30 (460 + 30 * n + 15 * j) 9 (.str "#34495e") (some 535) none

/-- The heights of the calls of the header band: the logo, the store name and its four
lines, the title and its four lines. -/
def headerYs : List ℕ := [30, 40, 65, 80, 95, 110, 30, 55, 70, 85, 100]

/-- The heights of the calls of the parties band: the customer heading and five lines, the
delivery heading and three lines. -/
def partiesYs : List ℕ := [150, 170, 185, 200, 215, 230, 150, 170, 185, 200]

/-- The heights of the six cells of each of `n` rows. -/
def rowYs (n : ℕ) : List ℕ := (List.range n).flatMap (fun i => List.replicate 6 (310 + 30 * i))

/-- The heights of the label and value of each of the four summary rows. -/
def summaryYs (n : ℕ) : List ℕ :=
  (List.range 4).flatMap (fun k => List.replicate 2 (340 + 30 * n + 20 * k))

/-- The heights of `m` terms lines. -/
def termsYs (n m : ℕ) : List ℕ := (List.range m).map (fun j => 460 + 30 * n + 15 * j)

/-- The heights of all calls of a page with `n` products and `m` terms lines, in drawing
order. -/
def bandYs (n m : ℕ) : List ℕ :=
  headerYs ++ 130 :: (partiesYs ++ (List.replicate 6 280 ++ 295 :: (rowYs n ++
    (320 + 30 * n) :: (summaryYs n ++ (440 + 30 * n) :: (termsYs n m ++ [780, 795])))))

/-- The heights of the calls, in drawing order. -/
def heights (ops : List DrawOp) : List ℕ := ops.map (fun op => op.frame.y)

/-- A filled request with eleven products. -/
def crowdedRequest : JVal := sampleRequest (List.replicate 11 paracetamol)

/-- The product `p` has a numeric price and mrp and a finite quantity: its price reads as
the finite number `row.1` and its mrp as `row.2.1`, both for `parseFloat` (in the validator)
and for `*` (in the layout), and its quantity reads as `row.2.2` for `*`. This holds
for a finite number and for a string that writes one, such as `"45.00"`. -/
def ReadsAmounts (p : JVal) (row : Dec × Dec × Dec) : Prop :=
  toNumber (field p "price") = .ok (.fin row.1) ∧
    parseFloat (field p "price") = .ok (.fin row.1) ∧
    toNumber (field p "mrp") = .ok (.fin row.2.1) ∧
    parseFloat (field p "mrp") = .ok (.fin row.2.1) ∧
    toNumber (field p "quantity") = .ok (.fin row.2.2)

/-! ## The route `/generate-invoice` -/

/-- The name multer's `storage.filename` gives an uploaded logo: `Date.now()`, a dash, the
integer `Math.round(Math.random() * 1E9)`, and the extension of the original name. -/
def uploadFilename (nowMs random : ℕ) (ext : String) : String :=
  toString nowMs ++ "-" ++ toString random ++ ext

/-- The path `generateInvoice` writes to: `path.join('output', 'Invoice_' + Date.now() +
'.pdf')`. -/
def invoicePath (nowMs : ℕ) : String := "output/Invoice_" ++ toString nowMs ++ ".pdf"

/-- What the handler reads from a request: `data` is the result of
`JSON.parse(req.body.data)`, `none` when that throws; `file` is `req.file.path`, `none` when no
logo came with the request (`req.file` is `undefined`). -/
structure Request where
  data : Option JVal
  file : Option String

/-- What was thrown in the `try` block of the handler. -/
inductive Failure where
  /-- The `SyntaxError` of `JSON.parse`. -/
  | syntaxError
  /-- An exception of the embedded code. -/
  | thrown (e : JSError)
  /-- The rejection of `fsPromises.readFile(outputPath)`. -/
  | readFailed

/-- The `details` field of an error response. -/
inductive Details where
  | messages (list : List String)
  | message (cause : Failure)

/-- The response of the handler. -/
inductive Response where
  /-- The JSON body `{ error, details }` under the given status. -/
  | json (status : ℕ) (error : String) (details : Details)
  /-- The bytes read from `path`, sent as `application/pdf`. -/
  | pdf (path : String)

/-- The helper `cleanup(filePath)`: the file is unlinked; a failure of `unlink` is logged and
swallowed. The file system is the list of the paths that exist. -/
def cleanup (filePath : String) (files : List String) : List String :=
  files.filter (fun f => decide (f ≠ filePath))

/-- The effect of `fs.createWriteStream(path)`: the file exists from then on. -/
def createFile (path : String) (files : List String) : List String :=
  if path ∈ files then files else path :: files

/-- What a request leaves behind: the response, the files that exist afterwards, and
whether `generateInvoice` was called. -/
structure Outcome where
  response : Response
  files : List String
  rendered : Bool

/-- The `catch` block of the handler: the logo is cleaned up if there is one, and the
response is a 500. -/
def catchBlock (req : Request) (files : List String) (cause : Failure) (rendered : Bool) :
    Outcome :=
  ⟨.json 500 "Failed to generate invoice" (.message cause),
    (match req.file with
      | some path => cleanup path files
      | none => files),
    rendered⟩

/-- The handler of `app.post('/generate-invoice', ...)`. Besides the parameters of
`generateInvoice`, `readFile path` tells whether `fsPromises.readFile(path)` succeeds. The
output file exists from the first statements of `generateInvoice` on
(`fs.createWriteStream(outputPath)`), also when the layout throws afterwards. -/
def generateInvoiceRoute (formatDate : JVal → Except JSError String) (nowMs : ℕ)
    (generatedOn : String) (readFile : String → Bool) (req : Request) (files : List String) :
    Outcome :=
  match req.data with
  | none => catchBlock req files .syntaxError false
  | some invoiceData =>
    match req.file with
    | none => catchBlock req files (.thrown .typeError) false
    | some logoPath =>
      -- Validate invoice data
      match validateInvoiceData invoiceData with
      | .error e => catchBlock req files (.thrown e) false
      | .ok validationErrors =>
        if validationErrors.length > 0 then
          ⟨.json 400 "Validation failed" (.messages validationErrors), cleanup logoPath files,
            false⟩
        else
          -- Generate PDF
          let files := createFile (invoicePath nowMs) files
          match generateInvoice formatDate nowMs generatedOn invoiceData logoPath with
          | .error e => catchBlock req files (.thrown e) true
          | .ok r =>
            -- Stream the PDF back to client
            if readFile r.outputPath then
              -- Cleanup files
              ⟨.pdf r.outputPath, cleanup r.outputPath (cleanup logoPath files), true⟩
            else catchBlock req files .readFailed true

/-- A date formatter that throws on what is not a string, as date-fns does on
`new Date(undefined)`. -/
def strictFormatDate (v : JVal) : Except JSError String :=
  match v with
  | .str _ => .ok "31/01/2027"
  | _ => .error .rangeError

/-- The product of the scenario as the specification writes it: name, quantity, mrp and price,
no expiry. -/
def bareParacetamol : JVal :=
  .obj [("name", .str "Paracetamol"), ("quantity", intVal 2), ("mrp", intVal 50),
    ("price", intVal 45)]

/-! ## Vocabulary of the arithmetic and of the form -/

/-- The integer `n` is nearest to `y`, and even when `y` lies half-way between two integers. -/
def IsNearest (y : ℚ) (n : ℕ) : Prop :=
  |(n : ℚ) - y| ≤ 1 / 2 ∧ (|(n : ℚ) - y| = 1 / 2 → Even n)

/-- The absolute value of a decimal, as a rational. -/
def Dec.absRat (d : Dec) : ℚ := (d.m.natAbs : ℚ) / ((10 ^ d.s : ℕ) : ℚ)

/-- The value `n * 2 ^ p` of the double nearest to `|d|`, before the test for overflow. -/
def nearestAbs (d : Dec) : ℚ := (mantissaOf d : ℚ) * (2 : ℚ) ^ placeOf d

/-- The item total the layout computes for a row `(price, mrp, quantity)`:
`price * quantity`, rounded to a double. -/
def itemTotalOf (row : Dec × Dec × Dec) : JNum := JNum.mul (.fin row.1) (.fin row.2.2)

/-- The share of a row in the total MRP: `mrp * quantity`, rounded to a double. -/
def mrpTotalOf (row : Dec × Dec × Dec) : JNum := JNum.mul (.fin row.2.1) (.fin row.2.2)

/-- The sum a loop `total += x` builds from `0`, in list order: every addition is rounded to
a double. -/
def runningSum (xs : List JNum) : JNum := xs.foldl JNum.add (.fin (Dec.ofInt 0))

/-- The product `p` multiplies as the finite numbers `row = (price, mrp, quantity)`: these
are what `*` reads from its price, mrp and quantity. -/
def MultipliesAs (p : JVal) (row : Dec × Dec × Dec) : Prop :=
  toNumber (field p "price") = .ok (.fin row.1) ∧
    toNumber (field p "mrp") = .ok (.fin row.2.1) ∧
    toNumber (field p "quantity") = .ok (.fin row.2.2)

/-- A product priced at three paise, half a unit of it: price `0.03`, mrp `0.05` and quantity
`0.5`, as the numbers `JSON.parse` reads. -/
def halfUnit : JVal :=
  .obj [("name", .str "Sachet"), ("brand", .str "Acme"), ("batch", .str "B-17"),
    ("expiry", .str "2027-01-31"), ("quantity", .num (numberValue ⟨5, 1⟩)),
    ("mrp", .num (numberValue ⟨5, 2⟩)), ("price", .num (numberValue ⟨3, 2⟩))]

/-- Three units of a product priced at ten paise: price `0.1`, mrp `0.2` and quantity `3`,
as the numbers `JSON.parse` reads. -/
def threeTenths : JVal :=
  .obj [("name", .str "Strip"), ("brand", .str "Acme"), ("batch", .str "B-18"),
    ("expiry", .str "2027-01-31"), ("quantity", intVal 3),
    ("mrp", .num (numberValue ⟨2, 1⟩)), ("price", .num (numberValue ⟨1, 1⟩))]

/-- A product whose price and mrp are the number `1e308`, ten units of it. -/
def costlyProduct : JVal :=
  .obj [("name", .str "Vaccine"), ("brand", .str "Acme"), ("batch", .str "B-17"),
    ("expiry", .str "2027-01-31"), ("quantity", intVal 10),
    ("mrp", .num (numberValue ⟨10 ^ 308, 0⟩)), ("price", .num (numberValue ⟨10 ^ 308, 0⟩))]

/-- The exponent part of a valid floating-point number of HTML, or nothing: `e` or `E`, an
optional sign, one or more digits. -/
def validExponent (cs : List Char) : Bool :=
  match cs with
  | [] => true
  | c :: rest =>
    (c = 'e' || c = 'E') &&
      (match rest with
        | '+' :: ds => !ds.isEmpty && ds.all isDigit
        | '-' :: ds => !ds.isEmpty && ds.all isDigit
        | ds => !ds.isEmpty && ds.all isDigit)

/-- A valid floating-point number of HTML without its sign: digits, or digits with a
fractional part, or a fractional part alone (a point and one or more digits), then an
optional exponent part. -/
def validUnsigned (cs : List Char) : Bool :=
  match cs.dropWhile isDigit with
  | '.' :: r2 => !(r2.takeWhile isDigit).isEmpty && validExponent (r2.dropWhile isDigit)
  | r1 => !(cs.takeWhile isDigit).isEmpty && validExponent r1

/-- A valid floating-point number of HTML: an optional `-`, then the unsigned number. -/
def validFloat (cs : List Char) : Bool :=
  match cs with
  | '-' :: r => validUnsigned r
  | r => validUnsigned r

/-- A value that an `<input type="number">` holds: the empty string, or a valid
floating-point number (the browser empties the field on anything else). -/
def numberInputValue (v : JVal) : Bool :=
  match v with
  | .str s => s.data.isEmpty || validFloat s.data
  | _ => false

/-- The products of a form state have their price and mrp from the number inputs of the
form (`type="number"` for `price` and `mrp` in `InvoiceForm.jsx`). -/
def NumberInputs (ps : List JVal) : Prop :=
  ∀ p ∈ ps, numberInputValue (field p "price") = true ∧
    numberInputValue (field p "mrp") = true

/-! ## The validator in closed form -/

theorem ok_bind {α β : Type} (a : α) (f : α → Except JSError β) :
    (Except.ok a >>= f) = f a := rfl

theorem error_bind {α β : Type} (e : JSError) (f : α → Except JSError β) :
    (Except.error e >>= f) = Except.error e := rfl

theorem getProp_eq (v : JVal) (key : String) :
    getProp v key = if isNullish v then .error .typeError else .ok (field v key) := by
  cases v <;> rfl

theorem getProp_of_not_nullish {v : JVal} (h : isNullish v = false) (key : String) :
    getProp v key = .ok (field v key) := by
  rw [getProp_eq, h]; rfl

theorem not_nullish_of_truthy {v : JVal} (h : truthy v = true) : isNullish v = false := by
  cases v <;> simp_all [truthy, isNullish]

theorem presentNonEmpty_of_truthy {v : JVal} (h : truthy v = true) :
    presentNonEmpty v = true := by
  cases v <;> simp_all [truthy, presentNonEmpty]
  rename_i s
  intro hs
  apply h
  rw [hs]

theorem present_of_truthy {v : JVal} (h : truthy v = true) : present v = true := by
  simp [present, not_nullish_of_truthy h]

theorem checkNested_eq (data : JVal) (key : String) (hd : isNullish data = false)
    (hs : truthy (field data key) = true) (entries : List (String × String)) :
    ∀ errors, checkNested data key errors entries
      = .ok (errors ++ nestedErrors (field data key) entries) := by
  induction entries with
  | nil => intro errors; simp [checkNested, nestedErrors]
  | cons e rest ih =>
    intro errors
    obtain ⟨nk, nv⟩ := e
    simp only [checkNested, nestedErrors, getProp_of_not_nullish hd,
      getProp_of_not_nullish (not_nullish_of_truthy hs), ok_bind]
    show (if (!truthy (field (field data key) nk)) = true then _ else _) = _
    cases truthy (field (field data key) nk) <;> simp [ih]

theorem checkRequired_eq (data : JVal) (hd : isNullish data = false)
    (entries : List (String × Req)) :
    ∀ errors, checkRequired data errors entries
      = .ok (errors ++ requiredErrors data entries) := by
  induction entries with
  | nil => intro errors; simp [checkRequired, requiredErrors]
  | cons e rest ih =>
    intro errors
    obtain ⟨key, value⟩ := e
    cases value with
    | label value =>
      simp only [checkRequired, requiredErrors, entryErrors, getProp_of_not_nullish hd, ok_bind]
      show (if (!truthy (field data key)) = true then _ else _) = _
      cases truthy (field data key) <;> simp [ih]
    | fields value =>
      simp only [checkRequired, requiredErrors, entryErrors, getProp_of_not_nullish hd, ok_bind]
      show (if (!truthy (field data key)) = true then _ else _) = _
      cases h : truthy (field data key)
      · simp [ih]
      · simp only [Bool.not_true, Bool.false_eq_true, if_false, if_true]
        rw [checkNested_eq data key hd h]
        show checkRequired data _ rest = _
        rw [ih]; simp

theorem joinJS_cons (x : JVal) (rest : List JVal) :
    joinJS (x :: rest) =
      match elemStr x with
      | .error e => .error e
      | .ok a =>
        match rest with
        | [] => .ok a
        | _ :: _ =>
          match joinJS rest with
          | .error e => .error e
          | .ok b => .ok (a ++ "," ++ b) := by
  cases x <;> simp only [joinJS, elemStr]

mutual
theorem toStringJS_error_aux : ∀ (v : JVal) (e : JSError), toStringJS v = .error e →
    e = .typeError
  | .undefined, e, h => by simp [toStringJS] at h
  | .null, e, h => by simp [toStringJS] at h
  | .bool b, e, h => by simp [toStringJS] at h
  | .num n, e, h => by simp [toStringJS] at h
  | .str s, e, h => by simp [toStringJS] at h
  | .arr xs, e, h => by
    rw [toStringJS] at h
    exact joinJS_error_aux xs e h
  | .obj kvs, e, h => by
    rw [toStringJS] at h
    split at h <;> simp at h
    exact h.symm
termination_by v => sizeOf v
theorem joinJS_error_aux : ∀ (xs : List JVal) (e : JSError), joinJS xs = .error e →
    e = .typeError
  | [], e, h => by simp [joinJS] at h
  | x :: rest, e, h => by
    have hx : ∀ e1, toStringJS x = .error e1 → e1 = .typeError := toStringJS_error_aux x
    have hr : ∀ e1, joinJS rest = .error e1 → e1 = .typeError := joinJS_error_aux rest
    have hx2 : ∀ e1, elemStr x = .error e1 → e1 = .typeError := by
      intro e1 h1
      cases x <;> first | (simp [elemStr] at h1; done) | exact hx e1 h1
    rw [joinJS_cons] at h
    cases h1 : elemStr x with
    | error e1 => rw [h1] at h; simp at h; subst h; exact hx2 _ h1
    | ok a =>
      rw [h1] at h
      cases rest with
      | nil => simp at h
      | cons y ys =>
        simp only at h
        cases h2 : joinJS (y :: ys) with
        | error e2 => rw [h2] at h; simp at h; subst h; exact hr _ h2
        | ok b => rw [h2] at h; simp at h
termination_by xs => sizeOf xs
end

theorem toStringJS_error {v : JVal} {e : JSError} (h : toStringJS v = .error e) :
    e = .typeError := toStringJS_error_aux v e h

theorem parseFloat_eq (v : JVal) :
    parseFloat v = if parseFloatThrows v then .error .typeError else .ok (parsed v) := by
  unfold parseFloatThrows parsed
  cases h : parseFloat v with
  | ok n => rfl
  | error e =>
    have : e = .typeError := by
      cases v <;> simp [parseFloat] at h
      all_goals (split at h <;> simp at h; subst h; exact toStringJS_error (by assumption))
    subst this; rfl

theorem checkProduct_eq (errors : List String) (p : JVal) (index : ℕ) :
    checkProduct errors p index
      = if productThrows p then .error .typeError
        else .ok (errors ++ productErrors p index) := by
  cases hp : isNullish p
  · simp only [checkProduct, getProp_of_not_nullish hp, ok_bind, parseFloat_eq, productThrows,
      hp, Bool.false_or]
    cases h1 : parseFloatThrows (field p "price")
    · cases h2 : parseFloatThrows (field p "mrp")
      · simp only [Bool.false_eq_true, if_false, ok_bind, Bool.or_false, productErrors]
        cases truthy (field p "name") <;> cases truthy (field p "quantity") <;>
          cases truthy (field p "mrp") <;> cases truthy (field p "price") <;>
          cases JNum.gt (parsed (field p "price")) (parsed (field p "mrp")) <;> simp
      · simp [error_bind, ok_bind]
    · simp [error_bind, ok_bind]
  · simp only [checkProduct, getProp_eq, hp, productThrows, Bool.true_or, if_true, error_bind]

theorem checkProducts_eq (ps : List JVal) :
    ∀ (errors : List String) (index : ℕ), checkProducts errors index ps
      = if ps.any productThrows then .error .typeError
        else .ok (errors ++ productsErrors index ps) := by
  induction ps with
  | nil => intro errors index; simp [checkProducts, productsErrors]
  | cons p rest ih =>
    intro errors index
    simp only [checkProducts, checkProduct_eq, List.any_cons, productsErrors]
    cases productThrows p
    · simp [ok_bind, ih]
    · simp [error_bind]

/-- The validator in closed form: it throws exactly on the requests of `validatorThrows`, and
otherwise returns the field messages followed by the product messages. -/
theorem validateInvoiceData_eq (data : JVal) :
    validateInvoiceData data
      = if validatorThrows data then .error .typeError
        else .ok (requiredErrors data required ++ productSection (field data "products")) := by
  cases hd : isNullish data
  · simp only [validateInvoiceData, checkRequired_eq data hd, ok_bind, getProp_of_not_nullish hd,
      validatorThrows, hd, Bool.false_or, List.nil_append]
    cases hp : field data "products" with
    | arr ps =>
      cases ps with
      | nil => simp [productSection]
      | cons p rest => simp only [checkProducts_eq, productSection]
    | _ => simp [productSection]
  · have h : checkRequired data [] required = .error .typeError := by
      simp [required, checkRequired, getProp_eq, hd, error_bind]
    simp [validateInvoiceData, h, error_bind, validatorThrows, hd]

/-! ## Claims about the validator -/

theorem entry_label_nil {data : JVal} {key value : String}
    (h : entryErrors data (key, .label value) = []) : truthy (field data key) = true := by
  simp only [entryErrors] at h
  by_contra hc
  simp [hc] at h

theorem nestedErrors_nil {sect : JVal} {entries : List (String × String)}
    (h : nestedErrors sect entries = []) :
    ∀ e ∈ entries, truthy (field sect e.1) = true := by
  induction entries with
  | nil => simp
  | cons e rest ih =>
    obtain ⟨k, l⟩ := e
    simp only [nestedErrors, List.append_eq_nil] at h
    intro e' he'
    rcases List.mem_cons.1 he' with rfl | hmem
    · by_contra hc
      simp [hc] at h
    · exact ih h.2 e' hmem

theorem entry_fields_nil {data : JVal} {key : String} {entries : List (String × String)}
    (h : entryErrors data (key, .fields entries) = []) :
    ∀ e ∈ entries, truthy (field (field data key) e.1) = true := by
  simp only [entryErrors] at h
  by_cases hc : truthy (field data key) = true
  · rw [if_pos hc] at h
    exact nestedErrors_nil h
  · simp [hc] at h

theorem productsErrors_nil {ps : List JVal} :
    ∀ {index : ℕ}, productsErrors index ps = [] →
      ∀ q ∈ ps, truthy (field q "name") = true ∧ truthy (field q "quantity") = true ∧
        truthy (field q "mrp") = true ∧ truthy (field q "price") = true ∧
        JNum.gt (parsed (field q "price")) (parsed (field q "mrp")) = false := by
  induction ps with
  | nil => simp
  | cons p rest ih =>
    intro index h q hq
    simp only [productsErrors, List.append_eq_nil] at h
    rcases List.mem_cons.1 hq with rfl | hmem
    · have h1 := h.1
      simp only [productErrors, List.append_eq_nil] at h1
      obtain ⟨⟨⟨⟨a, b⟩, c⟩, d⟩, e⟩ := h1
      refine ⟨?_, ?_, ?_, ?_, ?_⟩
      · by_contra hc; simp [hc] at a
      · by_contra hc; simp [hc] at b
      · by_contra hc; simp [hc] at c
      · by_contra hc; simp [hc] at d
      · by_contra hc; simp [hc] at e
    · exact ih h.2 q hmem

/-- C1. If `validateInvoiceData` returns the empty list, the request is valid: every
required scalar field is present and non-empty, `products` is a non-empty array, and every
product has a name, quantity, mrp and price. -/
theorem valid_of_no_errors (data : JVal) (h : validateInvoiceData data = .ok []) :
    ValidRequest data := by
  rw [validateInvoiceData_eq] at h
  split at h
  · simp at h
  · have h' : requiredErrors data required ++ productSection (field data "products") = [] := by
      simpa using h
    obtain ⟨hreq, hprod⟩ := List.append_eq_nil.1 h'
    simp only [required, requiredErrors, List.append_eq_nil] at hreq
    obtain ⟨h1, h2, h3, h4, h5, h6, h7, _, _⟩ := hreq
    have s2 := entry_fields_nil h2
    have s3 := entry_fields_nil h3
    have s4 := entry_fields_nil h4
    have s5 := entry_fields_nil h5
    refine ⟨presentNonEmpty_of_truthy (entry_label_nil h1),
      presentNonEmpty_of_truthy (entry_label_nil h6),
      presentNonEmpty_of_truthy (entry_label_nil h7), ?_, ?_, ?_, ?_, ?_⟩
    · intro key hkey
      simp only [List.mem_cons, List.mem_singleton, List.not_mem_nil, or_false] at hkey
      rcases hkey with rfl | rfl | rfl | rfl
      · exact presentNonEmpty_of_truthy (s2 ("address", "Store address") (by simp))
      · exact presentNonEmpty_of_truthy (s2 ("city", "Store city") (by simp))
      · exact presentNonEmpty_of_truthy (s2 ("phone", "Store phone") (by simp))
      · exact presentNonEmpty_of_truthy (s2 ("email", "Store email") (by simp))
    · intro key hkey
      simp only [List.mem_cons, List.mem_singleton, List.not_mem_nil, or_false] at hkey
      rcases hkey with rfl | rfl | rfl | rfl
      · exact presentNonEmpty_of_truthy (s3 ("invoiceNumber", "Invoice number") (by simp))
      · exact presentNonEmpty_of_truthy (s3 ("orderNumber", "Order number") (by simp))
      · exact presentNonEmpty_of_truthy (s3 ("date", "Invoice date") (by simp))
      · exact presentNonEmpty_of_truthy (s3 ("time", "Invoice time") (by simp))
    · intro key hkey
      simp only [List.mem_cons, List.mem_singleton, List.not_mem_nil, or_false] at hkey
      rcases hkey with rfl | rfl | rfl | rfl
      · exact presentNonEmpty_of_truthy (s4 ("name", "Customer name") (by simp))
      · exact presentNonEmpty_of_truthy (s4 ("address", "Customer address") (by simp))
      · exact presentNonEmpty_of_truthy (s4 ("city", "Customer city") (by simp))
      · exact presentNonEmpty_of_truthy (s4 ("phone", "Customer phone") (by simp))
    · intro key hkey
      simp only [List.mem_cons, List.mem_singleton, List.not_mem_nil, or_false] at hkey
      rcases hkey with rfl | rfl | rfl
      · exact presentNonEmpty_of_truthy (s5 ("name", "Delivery partner name") (by simp))
      · exact presentNonEmpty_of_truthy (s5 ("trackingId", "Tracking ID") (by simp))
      · exact presentNonEmpty_of_truthy
          (s5 ("estimatedDelivery", "Estimated delivery date") (by simp))
    · cases hp : field data "products" with
      | arr ps =>
        cases ps with
        | nil => rw [hp] at hprod; simp [productSection] at hprod
        | cons p rest =>
          rw [hp] at hprod
          simp only [productSection] at hprod
          refine ⟨p, rest, rfl, fun q hq => ?_⟩
          obtain ⟨a, b, c, d, _⟩ := productsErrors_nil hprod q hq
          exact ⟨present_of_truthy a, present_of_truthy b, present_of_truthy c,
            present_of_truthy d⟩
      | _ => rw [hp] at hprod; simp [productSection] at hprod

/-- The filled request with the scenario's product is accepted, and so is valid. -/
theorem valid_of_no_errors_witness :
    validateInvoiceData (sampleRequest [paracetamol]) = .ok [] ∧
      ValidRequest (sampleRequest [paracetamol]) :=
  ⟨by rfl, valid_of_no_errors (sampleRequest [paracetamol]) (by rfl)⟩

theorem sublist_missingIn (sect : JVal) (entries : List (String × String)) :
    List.Sublist ((missingIn sect entries).map (fun l => "Missing " ++ l))
      (nestedErrors sect entries) := by
  induction entries with
  | nil => simp [missingIn, nestedErrors]
  | cons e rest ih =>
    obtain ⟨k, l⟩ := e
    simp only [missingIn, nestedErrors, List.map_append]
    apply List.Sublist.append _ ih
    cases h : truthy (field sect k)
    · cases presentNonEmpty (field sect k) <;> simp
    · simp [presentNonEmpty_of_truthy h]

theorem sublist_label (data : JVal) (key label : String) :
    List.Sublist ((missingIn data [(key, label)]).map (fun l => "Missing " ++ l))
      (entryErrors data (key, .label label)) := by
  have h := sublist_missingIn data [(key, label)]
  simpa [nestedErrors, entryErrors] using h

theorem sublist_section (data : JVal) (key : String) (entries : List (String × String)) :
    List.Sublist ((missingInSection data key entries).map (fun l => "Missing " ++ l))
      (entryErrors data (key, .fields entries)) := by
  simp only [missingInSection, entryErrors]
  cases truthy (field data key)
  · simp
  · simpa using sublist_missingIn (field data key) entries

theorem missingIn_append (sect : JVal) (xs ys : List (String × String)) :
    missingIn sect (xs ++ ys) = missingIn sect xs ++ missingIn sect ys := by
  induction xs with
  | nil => simp [missingIn]
  | cons e rest ih =>
    obtain ⟨k, l⟩ := e
    simp [missingIn, ih]

theorem sublist_missingUnits (data : JVal) :
    List.Sublist ((missingUnits data).map (fun l => "Missing " ++ l))
      (requiredErrors data required) := by
  have e : missingIn data [("paymentMethod", "Payment method"),
      ("termsAndConditions", "Terms and conditions"), ("products", "Products")]
      = missingIn data [("paymentMethod", "Payment method")] ++
        (missingIn data [("termsAndConditions", "Terms and conditions")] ++
          missingIn data [("products", "Products")]) := by
    rw [← missingIn_append, ← missingIn_append]; rfl
  simp only [missingUnits, e, required, requiredErrors, List.map_append, List.append_assoc,
    List.append_nil]
  refine List.Sublist.append (sublist_label _ _ _) ?_
  refine List.Sublist.append (sublist_section _ _ _) ?_
  refine List.Sublist.append (sublist_section _ _ _) ?_
  refine List.Sublist.append (sublist_section _ _ _) ?_
  refine List.Sublist.append (sublist_section _ _ _) ?_
  refine List.Sublist.append (sublist_label _ _ _) ?_
  refine List.Sublist.append (sublist_label _ _ _) ?_
  exact sublist_label _ _ _

/-- C2 (as the code has it). On every request on which the validator does not throw, the
returned list names every required field that is missing or empty in a section that is there,
names every absent section once by its key (in place of its fields), and so has at least as
many entries as there are such fields and sections. -/
theorem missing_units_reported (data : JVal) (h : validatorThrows data = false) :
    ∃ errs, validateInvoiceData data = .ok errs ∧
      (∀ u ∈ missingUnits data, "Missing " ++ u ∈ errs) ∧
      (missingUnits data).length ≤ errs.length := by
  refine ⟨_, by rw [validateInvoiceData_eq, h]; rfl, ?_, ?_⟩
  · intro u hu
    apply List.mem_append_left
    exact (sublist_missingUnits data).subset (List.mem_map.2 ⟨u, hu, rfl⟩)
  · have := (sublist_missingUnits data).length_le
    simp only [List.length_map] at this
    simp only [List.length_append]
    omega

/-- The request without store details: one unit is missing, one message is returned. -/
theorem missing_units_reported_witness :
    ∃ errs, validateInvoiceData (requestWithoutStoreDetails) = .ok errs ∧
      (∀ u ∈ missingUnits (requestWithoutStoreDetails),
        "Missing " ++ u ∈ errs) ∧
      (missingUnits (requestWithoutStoreDetails)).length ≤ errs.length :=
  missing_units_reported (requestWithoutStoreDetails) (by rfl)

/-- C2 (as stated) fails: in a request without `storeDetails` four required fields are
missing, and the validator returns the single message `Missing storeDetails`, which names none
of them. -/
theorem absent_section_single_message :
    missingFields (requestWithoutStoreDetails)
        = ["Store address", "Store city", "Store phone", "Store email"] ∧
      validateInvoiceData (requestWithoutStoreDetails)
        = .ok ["Missing storeDetails"] ∧
      ¬ (missingFields (requestWithoutStoreDetails)).length
          ≤ ["Missing storeDetails"].length ∧
      "Missing Store address" ∉ ["Missing storeDetails"] := by
  refine ⟨by rfl, by rfl, by decide, by decide⟩

/-- C3. The validator throws on a `null` request and on a request whose `products` array
holds `null`, while it returns a list on a request that is a string. -/
theorem validator_throws_on_null :
    validateInvoiceData .null = .error .typeError ∧
      validateInvoiceData (sampleRequest [paracetamol, .null]) = .error .typeError ∧
      validateInvoiceData (sampleRequest [.str "x"]) =
        .ok ["Product 1: Missing name", "Product 1: Missing quantity", "Product 1: Missing MRP",
          "Product 1: Missing price"] := by
  refine ⟨by rfl, by rfl, by rfl⟩

theorem productErrors_subset_productsErrors (ps : List JVal) :
    ∀ (k i : ℕ) (p : JVal), ps.get? i = some p →
      ∀ m ∈ productErrors p (k + i), m ∈ productsErrors k ps := by
  induction ps with
  | nil => intro k i p h; simp at h
  | cons q rest ih =>
    intro k i p h m hm
    cases i with
    | zero =>
      simp only [List.get?_cons_zero, Option.some.injEq] at h
      subst h
      simp only [productsErrors]
      exact List.mem_append_left _ (by simpa using hm)
    | succ j =>
      simp only [List.get?_cons_succ] at h
      simp only [productsErrors]
      apply List.mem_append_right
      apply ih (k + 1) j p h
      have : k + 1 + j = k + (j + 1) := by omega
      rw [this]; exact hm

theorem parsed_of_ok {v : JVal} {a : JNum} (h : parseFloat v = .ok a) : parsed v = a := by
  simp [parsed, h]

theorem validatorThrows_products {data : JVal} {ps : List JVal}
    (hps : field data "products" = .arr ps) :
    validatorThrows data = ps.any productThrows := by
  have hd : isNullish data = false := by
    cases data <;> simp_all [field, getProp, isNullish]
  simp [validatorThrows, hd, hps]

theorem productPrefix_append (i : ℕ) (a b : String) (h : ": " ++ a = b) :
    productPrefix i ++ a = "Product " ++ toString (i + 1) ++ b := by
  subst h
  simp [productPrefix, String.append_assoc]

/-- C4. When the product at 0-based position `i` has a price greater than its mrp (both as
`parseFloat` reads them), every list the validator returns contains the message
`Product (i+1): Price cannot be greater than MRP`, whatever else is wrong with the request;
and it does return a list when no product makes it throw. -/
theorem price_above_mrp_reported (data : JVal) (ps : List JVal) (i : ℕ) (p : JVal)
    (a b : JNum) (hps : field data "products" = .arr ps) (hi : ps.get? i = some p)
    (ha : parseFloat (field p "price") = .ok a) (hb : parseFloat (field p "mrp") = .ok b)
    (hgt : JNum.gt a b = true) :
    (∀ errs, validateInvoiceData data = .ok errs →
      "Product " ++ toString (i + 1) ++ ": Price cannot be greater than MRP" ∈ errs) ∧
    ((∀ q ∈ ps, productThrows q = false) →
      ∃ errs, validateInvoiceData data = .ok errs ∧
        "Product " ++ toString (i + 1) ++ ": Price cannot be greater than MRP" ∈ errs) := by
  have hmem : "Product " ++ toString (i + 1) ++ ": Price cannot be greater than MRP"
      ∈ productSection (field data "products") := by
    rw [hps]
    cases ps with
    | nil => simp at hi
    | cons q rest =>
      simp only [productSection]
      apply productErrors_subset_productsErrors (q :: rest) 0 i p hi
      simp only [productErrors, parsed_of_ok ha, parsed_of_ok hb, hgt, if_true, Nat.zero_add]
      apply List.mem_append_right
      rw [productPrefix_append i _ _ rfl]
      simp
  constructor
  · intro errs h
    rw [validateInvoiceData_eq] at h
    split at h
    · simp at h
    · simp only [Except.ok.injEq] at h
      subst h
      exact List.mem_append_right _ hmem
  · intro hall
    have ht : validatorThrows data = false := by
      rw [validatorThrows_products hps]
      simpa using hall
    exact ⟨_, by rw [validateInvoiceData_eq, ht]; rfl, List.mem_append_right _ hmem⟩

/-- A second product with price `"12.5"` and mrp `12` is reported as product 2. -/
theorem price_above_mrp_reported_witness :
    (∀ errs, validateInvoiceData (requestOf [("products",
        .arr [paracetamol, .obj [("price", .str "12.5"), ("mrp", intVal 12)]])]) = .ok errs →
      "Product " ++ toString (1 + 1) ++ ": Price cannot be greater than MRP" ∈ errs) ∧
    ((∀ q ∈ [paracetamol, .obj [("price", .str "12.5"), ("mrp", intVal 12)]],
        productThrows q = false) →
      ∃ errs, validateInvoiceData (requestOf [("products",
        .arr [paracetamol, .obj [("price", .str "12.5"), ("mrp", intVal 12)]])]) = .ok errs ∧
        "Product " ++ toString (1 + 1) ++ ": Price cannot be greater than MRP" ∈ errs) :=
  price_above_mrp_reported
    (requestOf [("products", .arr [paracetamol, .obj [("price", .str "12.5"), ("mrp", intVal 12)]])])
    [paracetamol, .obj [("price", .str "12.5"), ("mrp", intVal 12)]] 1
    (.obj [("price", .str "12.5"), ("mrp", intVal 12)]) (.fin ⟨125, 1⟩) (.fin ⟨12, 0⟩)
    (by rfl) (by rfl) (by rfl) (by rfl) (by rfl)

theorem productPrefix_ne_at_least (i : ℕ) (s : String) :
    "At least one product is required" ≠ productPrefix i ++ s := by
  intro h
  have := congrArg String.data h
  simp [productPrefix] at this

theorem truthy_of_field_truthy {v : JVal} {key : String}
    (h : truthy (field v key) = true) : truthy v = true := by
  cases v <;> simp_all [field, getProp, truthy]

theorem nestedErrors_eq_nil {sect : JVal} :
    ∀ (entries : List (String × String)),
      (∀ e ∈ entries, truthy (field sect e.1) = true) → nestedErrors sect entries = [] := by
  intro entries
  induction entries with
  | nil => intro _; rfl
  | cons e rest ih =>
    intro h
    obtain ⟨k, l⟩ := e
    have h1 := h (k, l) (by simp)
    simp only at h1
    simp only [nestedErrors, h1, if_true, List.nil_append]
    exact ih (fun e he => h e (List.mem_cons_of_mem _ he))

theorem entryErrors_fields_eq_nil {data : JVal} {key : String} (e : String × String)
    (entries : List (String × String))
    (hall : ∀ x ∈ e :: entries, truthy (field (field data key) x.1) = true) :
    entryErrors data (key, .fields (e :: entries)) = [] := by
  have hs : truthy (field data key) = true :=
    truthy_of_field_truthy (hall e (by simp))
  simp only [entryErrors, hs, if_true]
  exact nestedErrors_eq_nil _ hall

theorem requiredErrors_of_filled {data : JVal} (hf : OtherFieldsFilled data) :
    requiredErrors data required
      = if truthy (field data "products") then [] else ["Missing Products"] := by
  simp only [required, requiredErrors,
    entryErrors_fields_eq_nil _ _ hf.storeDetails,
    entryErrors_fields_eq_nil _ _ hf.invoiceDetails,
    entryErrors_fields_eq_nil _ _ hf.customer,
    entryErrors_fields_eq_nil _ _ hf.deliveryPartner]
  simp [entryErrors, hf.storeName, hf.paymentMethod, hf.termsAndConditions]

/-- C5. On a request whose other required fields are all filled and whose `products` is the
empty array, the validator returns exactly one message, `At least one product is required`,
which is not a per-product (`Product i: ...`) message. -/
theorem empty_products_single_error (data : JVal) (hf : OtherFieldsFilled data)
    (hps : field data "products" = .arr []) :
    validateInvoiceData data = .ok ["At least one product is required"] ∧
      ∀ (i : ℕ) (s : String), "At least one product is required" ≠ productPrefix i ++ s := by
  refine ⟨?_, productPrefix_ne_at_least⟩
  have ht : validatorThrows data = false := by
    rw [validatorThrows_products hps]; rfl
  rw [validateInvoiceData_eq, ht, requiredErrors_of_filled hf, hps]
  simp [truthy, productSection]

theorem sampleRequest_filled (products : List JVal) :
    OtherFieldsFilled (sampleRequest products) := by
  constructor
  · rfl
  · intro e he
    simp only [storeDetailsFields, List.mem_cons, List.mem_singleton, List.not_mem_nil,
      or_false] at he
    rcases he with rfl | rfl | rfl | rfl <;> rfl
  · intro e he
    simp only [invoiceDetailsFields, List.mem_cons, List.mem_singleton, List.not_mem_nil,
      or_false] at he
    rcases he with rfl | rfl | rfl | rfl <;> rfl
  · intro e he
    simp only [customerFields, List.mem_cons, List.mem_singleton, List.not_mem_nil,
      or_false] at he
    rcases he with rfl | rfl | rfl | rfl <;> rfl
  · intro e he
    simp only [deliveryPartnerFields, List.mem_cons, List.mem_singleton, List.not_mem_nil,
      or_false] at he
    rcases he with rfl | rfl | rfl <;> rfl
  · rfl
  · rfl

/-- The filled request with no products. -/
theorem empty_products_single_error_witness :
    validateInvoiceData (sampleRequest []) = .ok ["At least one product is required"] ∧
      ∀ (i : ℕ) (s : String), "At least one product is required" ≠ productPrefix i ++ s :=
  empty_products_single_error (sampleRequest []) (sampleRequest_filled []) (by rfl)

/-- C6. The validator never short-circuits: on every request on which it does not throw, the
list it returns is the messages for the top-level and nested fields, in the order of the
`required` table, followed by the messages for the products, in product order; and the product
messages are the same for every other request with the same `products`, whatever fields that
one is missing. -/
theorem no_short_circuit (data : JVal) (h : validatorThrows data = false) :
    validateInvoiceData data
        = .ok (requiredErrors data required ++ productSection (field data "products")) ∧
      ∀ other, validatorThrows other = false →
        field other "products" = field data "products" →
        validateInvoiceData other
          = .ok (requiredErrors other required ++ productSection (field data "products")) := by
  refine ⟨by rw [validateInvoiceData_eq, h]; rfl, fun other ho hsame => ?_⟩
  rw [validateInvoiceData_eq, ho, hsame]; rfl

/-- An empty store name does not hide the missing price of product 2, nor the other way
round. -/
theorem no_short_circuit_witness :
    validateInvoiceData requestWithTwoFaults
        = .ok (["Missing Store name"] ++ ["Product 2: Missing price"]) ∧
      ∀ other, validatorThrows other = false →
        field other "products" = field requestWithTwoFaults "products" →
        validateInvoiceData other
          = .ok (requiredErrors other required ++
              productSection (field requestWithTwoFaults "products")) :=
  no_short_circuit requestWithTwoFaults (by rfl)

theorem mem_productsErrors_of_mem (ps : List JVal) :
    ∀ (k : ℕ) (p : JVal), p ∈ ps → ∃ i, ∀ m ∈ productErrors p i, m ∈ productsErrors k ps := by
  induction ps with
  | nil => intro k p h; simp at h
  | cons q rest ih =>
    intro k p h
    rcases List.mem_cons.1 h with rfl | hmem
    · exact ⟨k, fun m hm => by simp only [productsErrors]; exact List.mem_append_left _ hm⟩
    · obtain ⟨i, hi⟩ := ih (k + 1) p hmem
      exact ⟨i, fun m hm => by
        simp only [productsErrors]; exact List.mem_append_right _ (hi m hm)⟩

theorem productErrors_ne_nil {p : JVal} (i : ℕ)
    (hf : truthy (field p "price") = false ∨ truthy (field p "mrp") = false ∨
      truthy (field p "quantity") = false) : ∃ m, m ∈ productErrors p i := by
  rcases hf with h | h | h
  · exact ⟨productPrefix i ++ "Missing price", by simp [productErrors, h]⟩
  · exact ⟨productPrefix i ++ "Missing MRP", by simp [productErrors, h]⟩
  · exact ⟨productPrefix i ++ "Missing quantity", by simp [productErrors, h]⟩


/-- C7 (as the code has it). When some product's price, mrp or quantity is absent, `null`,
the empty string, `false`, `0` or `NaN` (fails the presence test), every list the validator
returns is non-empty, and it returns one when no product makes it throw. Nothing more is
checked about these values being numbers. -/
theorem falsy_amount_rejected (data : JVal) (ps : List JVal) (p : JVal)
    (hps : field data "products" = .arr ps) (hp : p ∈ ps)
    (hf : truthy (field p "price") = false ∨ truthy (field p "mrp") = false ∨
      truthy (field p "quantity") = false) :
    (∀ errs, validateInvoiceData data = .ok errs → errs ≠ []) ∧
    ((∀ q ∈ ps, productThrows q = false) →
      ∃ errs, validateInvoiceData data = .ok errs ∧ errs ≠ []) := by
  have hne : requiredErrors data required ++ productSection (field data "products") ≠ [] := by
    rw [hps]
    cases ps with
    | nil => simp at hp
    | cons q rest =>
      obtain ⟨i, hi⟩ := mem_productsErrors_of_mem (q :: rest) 0 p hp
      obtain ⟨m, hm⟩ := productErrors_ne_nil i hf
      intro hnil
      have : m ∈ requiredErrors data required ++ productSection (.arr (q :: rest)) :=
        List.mem_append_right _ (hi m hm)
      rw [hnil] at this
      simp at this
  constructor
  · intro errs h
    rw [validateInvoiceData_eq] at h
    split at h
    · simp at h
    · simp only [Except.ok.injEq] at h
      subst h
      exact hne
  · intro hall
    have ht : validatorThrows data = false := by
      rw [validatorThrows_products hps]
      simpa using hall
    exact ⟨_, by rw [validateInvoiceData_eq, ht]; rfl, hne⟩

/-- A product whose quantity is the empty string. -/
theorem falsy_amount_rejected_witness :
    (∀ errs, validateInvoiceData (sampleRequest [.obj [("name", .str "Syrup"),
        ("quantity", .str ""), ("mrp", intVal 5), ("price", intVal 4)]]) = .ok errs →
        errs ≠ []) ∧
    ((∀ q ∈ [JVal.obj [("name", .str "Syrup"), ("quantity", .str ""), ("mrp", intVal 5),
        ("price", intVal 4)]], productThrows q = false) →
      ∃ errs, validateInvoiceData (sampleRequest [.obj [("name", .str "Syrup"),
        ("quantity", .str ""), ("mrp", intVal 5), ("price", intVal 4)]]) = .ok errs ∧
        errs ≠ []) :=
  falsy_amount_rejected
    (sampleRequest [.obj [("name", .str "Syrup"), ("quantity", .str ""), ("mrp", intVal 5),
      ("price", intVal 4)]])
    [.obj [("name", .str "Syrup"), ("quantity", .str ""), ("mrp", intVal 5),
      ("price", intVal 4)]]
    (.obj [("name", .str "Syrup"), ("quantity", .str ""), ("mrp", intVal 5),
      ("price", intVal 4)])
    (by rfl) (by simp) (Or.inr (Or.inr (by rfl)))

/-- C7 (as stated) fails: a product whose quantity and mrp are the string `abc` and whose
price is the string `NaN` raises no error, and `formatCurrency` then receives these values. -/
theorem non_numeric_amount_accepted :
    validateInvoiceData (sampleRequest [.obj [("name", .str "Syrup"), ("quantity", .str "abc"),
        ("mrp", .str "abc"), ("price", .str "NaN")]]) = .ok [] ∧
      parseFloat (.str "abc") = .ok .nan ∧ parseFloat (.str "NaN") = .ok .nan ∧
      formatCurrency (.str "abc") = .ok (currencyGlyph ++ "NaN") := by
  refine ⟨by rfl, by rfl, by rfl, by rfl⟩

theorem Dec.lt_iff (a b : Dec) : Dec.lt a b = true ↔ a.toRat < b.toRat := by
  have ha : (0 : ℚ) < (10 : ℚ) ^ a.s := by positivity
  have hb : (0 : ℚ) < (10 : ℚ) ^ b.s := by positivity
  simp only [Dec.lt, decide_eq_true_eq, Dec.toRat]
  rw [div_lt_div_iff₀ ha hb]
  constructor
  · intro h
    have : ((a.m * 10 ^ b.s : ℤ) : ℚ) < ((b.m * 10 ^ a.s : ℤ) : ℚ) := by exact_mod_cast h
    push_cast at this
    exact this
  · intro h
    have : ((a.m * 10 ^ b.s : ℤ) : ℚ) < ((b.m * 10 ^ a.s : ℤ) : ℚ) := by
      push_cast
      exact h
    exact_mod_cast this

theorem Dec.toRat_ne_zero {d : Dec} (h : d.m ≠ 0) : d.toRat ≠ 0 := by
  have hd : (10 : ℚ) ^ d.s ≠ 0 := by positivity
  simp only [Dec.toRat, ne_eq, div_eq_zero_iff, not_or]
  exact ⟨by exact_mod_cast h, hd⟩

/-- C8 (as the code has it). On a request on which the validator returns the empty list,
every product's quantity, mrp and price pass the presence test, so none of them is the number
zero, and a price and mrp that are finite numbers satisfy price ≤ mrp. Their signs are not
checked. -/
theorem accepted_product_constraints (data : JVal) (ps : List JVal) (p : JVal)
    (h : validateInvoiceData data = .ok []) (hps : field data "products" = .arr ps)
    (hp : p ∈ ps) :
    truthy (field p "quantity") = true ∧ truthy (field p "mrp") = true ∧
      truthy (field p "price") = true ∧
      (∀ q, field p "quantity" = .num (.fin q) → q.toRat ≠ 0) ∧
      (∀ a b, field p "price" = .num (.fin a) → field p "mrp" = .num (.fin b) →
        a.toRat ≠ 0 ∧ b.toRat ≠ 0 ∧ a.toRat ≤ b.toRat) := by
  rw [validateInvoiceData_eq] at h
  split at h
  · simp at h
  · have h' : requiredErrors data required ++ productSection (field data "products") = [] := by
      simpa using h
    obtain ⟨_, hprod⟩ := List.append_eq_nil.1 h'
    rw [hps] at hprod
    cases ps with
    | nil => simp at hp
    | cons q0 rest =>
      simp only [productSection] at hprod
      obtain ⟨_, hq, hm, hpr, hgt⟩ := productsErrors_nil hprod p hp
      refine ⟨hq, hm, hpr, ?_, ?_⟩
      · intro q hqe
        rw [hqe] at hq
        exact Dec.toRat_ne_zero (by simpa [truthy] using hq)
      · intro a b hae hbe
        rw [hae] at hpr
        rw [hbe] at hm
        rw [hae, hbe] at hgt
        refine ⟨Dec.toRat_ne_zero (by simpa [truthy] using hpr),
          Dec.toRat_ne_zero (by simpa [truthy] using hm), ?_⟩
        have : Dec.lt b a = false := by simpa [parsed, parseFloat, JNum.gt] using hgt
        by_contra hc
        rw [not_le] at hc
        rw [(Dec.lt_iff b a).2 hc] at this
        simp at this

/-- The scenario's product in an accepted request. -/
theorem accepted_product_constraints_witness :
    truthy (field paracetamol "quantity") = true ∧ truthy (field paracetamol "mrp") = true ∧
      truthy (field paracetamol "price") = true ∧
      (∀ q, field paracetamol "quantity" = .num (.fin q) → q.toRat ≠ 0) ∧
      (∀ a b, field paracetamol "price" = .num (.fin a) →
        field paracetamol "mrp" = .num (.fin b) →
        a.toRat ≠ 0 ∧ b.toRat ≠ 0 ∧ a.toRat ≤ b.toRat) :=
  accepted_product_constraints (sampleRequest [paracetamol]) [paracetamol] paracetamol
    (by rfl) (by rfl) (by simp)

/-- C8 (as stated) fails: a product with quantity -1, mrp -5 and price -10 is accepted. -/
theorem negative_amounts_accepted :
    validateInvoiceData (sampleRequest [.obj [("name", .str "Syrup"), ("quantity", intVal (-1)),
        ("mrp", intVal (-5)), ("price", intVal (-10))]]) = .ok [] ∧
      (Dec.ofInt (-1)).toRat < 0 ∧ (Dec.ofInt (-5)).toRat < 0 ∧ (Dec.ofInt (-10)).toRat < 0 := by
  refine ⟨by rfl, ?_, ?_, ?_⟩ <;> norm_num [Dec.toRat, Dec.ofInt]

/-! ## Claims about the totals and the currency format -/

theorem Dec.toRat_mul (a b : Dec) : (Dec.mul a b).toRat = a.toRat * b.toRat := by
  simp only [Dec.toRat, Dec.mul]
  push_cast
  rw [pow_add]
  field_simp

theorem Dec.toRat_add (a b : Dec) : (Dec.add a b).toRat = a.toRat + b.toRat := by
  simp only [Dec.toRat, Dec.add]
  push_cast
  rw [pow_add]
  field_simp

theorem Dec.toRat_neg (a : Dec) : (Dec.neg a).toRat = - a.toRat := by
  simp only [Dec.toRat, Dec.neg]
  push_cast
  ring

theorem Dec.toRat_sub (a b : Dec) : (Dec.sub a b).toRat = a.toRat - b.toRat := by
  rw [Dec.sub, Dec.toRat_add, Dec.toRat_neg]; ring

theorem Dec.toRat_ofInt (k : ℤ) : (Dec.ofInt k).toRat = k := by
  simp [Dec.toRat, Dec.ofInt]

theorem bind_eq_ok {α β : Type} (x : Except JSError α) (f : α → Except JSError β) (b : β) :
    (x >>= f) = .ok b ↔ ∃ a, x = .ok a ∧ f a = .ok b := by
  cases x with
  | error e => simp [error_bind]
  | ok a => simp [ok_bind]

theorem drawClosing_totals {generatedOn : String} {data : JVal} {outputPath : String}
    {st : RowState} {r : Render} (h : drawClosing generatedOn data outputPath st = .ok r) :
    r.itemTotals = st.itemTotals ∧ r.totalMRP = st.totalMRP ∧
      r.totalAmount = st.totalAmount ∧
      r.totalDiscount = JNum.sub st.totalMRP st.totalAmount := by
  simp only [drawClosing, bind_eq_ok] at h
  obtain ⟨_, _, _, _, _, _, _, _, _, _, _, _, _, _, _, _, _, _, h⟩ := h
  cases h
  exact ⟨rfl, rfl, rfl, rfl⟩

theorem toDigitsCore_eq (fuel : ℕ) :
    ∀ (n : ℕ) (ds : List Char), n < fuel →
      Nat.toDigitsCore 10 fuel n ds = Nat.toDigitsCore 10 (n + 1) n [] ++ ds := by
  induction fuel using Nat.strong_induction_on with
  | _ fuel ih =>
    intro n ds hn
    cases fuel with
    | zero => omega
    | succ f =>
      by_cases h0 : n / 10 = 0
      · simp [Nat.toDigitsCore, h0]
      · have hlt : n / 10 < n := by omega
        have e1 : Nat.toDigitsCore 10 (f + 1) n ds
            = Nat.toDigitsCore 10 f (n / 10) (Nat.digitChar (n % 10) :: ds) := by
          simp [Nat.toDigitsCore, h0]
        have e2 : Nat.toDigitsCore 10 (n + 1) n []
            = Nat.toDigitsCore 10 n (n / 10) [Nat.digitChar (n % 10)] := by
          simp [Nat.toDigitsCore, h0]
        rw [e1, e2, ih f (by omega) (n / 10) _ (by omega),
          ih n (by omega) (n / 10) _ hlt]
        simp

theorem natDigits_of_lt {n : ℕ} (h : n < 10) : natDigits n = [Nat.digitChar n] := by
  have h0 : n / 10 = 0 := by omega
  have h1 : n % 10 = n := by omega
  simp [natDigits, Nat.toDigits, Nat.toDigitsCore, h0, h1]

theorem natDigits_of_ge {n : ℕ} (h : 10 ≤ n) :
    natDigits n = natDigits (n / 10) ++ [Nat.digitChar (n % 10)] := by
  have h0 : n / 10 ≠ 0 := by omega
  have e2 : Nat.toDigitsCore 10 (n + 1) n []
      = Nat.toDigitsCore 10 n (n / 10) [Nat.digitChar (n % 10)] := by
    simp [Nat.toDigitsCore, h0]
  simp only [natDigits, Nat.toDigits]
  rw [e2, toDigitsCore_eq n (n / 10) _ (by omega)]

theorem natDigits_ne_nil (n : ℕ) : natDigits n ≠ [] := by
  by_cases h : n < 10
  · simp [natDigits_of_lt h]
  · rw [natDigits_of_ge (by omega)]; simp

/-- The digits of `toFixed(2)`: the digits of `n`, filled to three places, with the point
before the last two, are the digits of `n / 100`, the point, and the last two digits. -/
theorem fixed_digits (n : ℕ) :
    (let ds := List.replicate (3 - (natDigits n).length) '0' ++ natDigits n
     ds.take (ds.length - 2) ++ '.' :: ds.drop (ds.length - 2))
      = natDigits (n / 100) ++
          ['.', Nat.digitChar (n / 10 % 10), Nat.digitChar (n % 10)] := by
  by_cases h1 : n < 10
  · have e0 : n / 100 = 0 := by omega
    have e1 : n / 10 % 10 = 0 := by omega
    have e2 : n % 10 = n := by omega
    simp [natDigits_of_lt h1, e0, e1, e2]
    rfl
  · by_cases h2 : n < 100
    · have e0 : n / 100 = 0 := by omega
      have e1 : n / 10 % 10 = n / 10 := by omega
      have hq : n / 10 < 10 := by omega
      rw [natDigits_of_ge (by omega), natDigits_of_lt hq, e0, e1]
      simp
      rfl
    · have e1 : n / 10 / 10 = n / 100 := by omega
      rw [natDigits_of_ge (by omega), natDigits_of_ge (n := n / 10) (by omega), e1]
      have hne := natDigits_ne_nil (n / 100)
      have hlen : 0 < (natDigits (n / 100)).length := List.length_pos.2 hne
      have hrep : 3 - (natDigits (n / 100) ++ [Nat.digitChar (n / 10 % 10)] ++
          [Nat.digitChar (n % 10)]).length = 0 := by
        simp; omega
      simp only [hrep, List.replicate_zero, List.nil_append]
      have hl : (natDigits (n / 100) ++ [Nat.digitChar (n / 10 % 10)] ++
          [Nat.digitChar (n % 10)]).length - 2 = (natDigits (n / 100)).length := by
        simp
      rw [hl]
      simp [List.append_assoc]

/-- C10 (as stated) fails: the amount `10 ^ 21` has no decimal places, and `formatCurrency`
writes it in exponent form: whatever the prefix, the result is not the amount written with two
digits after the decimal point. -/
theorem formatCurrency_exponent_form :
    (Dec.ofInt (10 ^ 21)).toRat = ((10 ^ 23 : ℤ) : ℚ) / 100 ∧
      formatCurrency (.num (.fin (Dec.ofInt (10 ^ 21)))) = .ok (currencyGlyph ++ "1e+21") ∧
      ∀ pre : String,
        formatCurrency (.num (.fin (Dec.ofInt (10 ^ 21)))) ≠ .ok (pre ++ twoPlaces (10 ^ 23)) := by
  have h : formatCurrency (.num (.fin (Dec.ofInt (10 ^ 21))))
      = .ok (currencyGlyph ++ "1e+21") := by rfl
  refine ⟨by norm_num [Dec.toRat, Dec.ofInt], h, fun pre hc => ?_⟩
  rw [h] at hc
  have hd : (currencyGlyph ++ "1e+21").data = (pre ++ twoPlaces (10 ^ 23)).data := by
    injection hc with hc
    rw [hc]
  have hl := congrArg List.getLast? hd
  rw [String.data_append, String.data_append,
    List.getLast?_append_of_ne_nil _ (by decide),
    List.getLast?_append_of_ne_nil _ (by decide)] at hl
  revert hl
  decide

/-- The text `formatCurrency` returns for the amount 90: the prefix is the three characters of
the source, not the rupee sign. -/
theorem formatCurrency_ninety :
    formatCurrency (intVal 90) = .ok "â‚¹90.00" ∧
      formatCurrency (intVal 90) ≠ .ok "₹90.00" := by
  refine ⟨by rfl, ?_⟩
  have h : formatCurrency (intVal 90) = .ok "â‚¹90.00" := by rfl
  rw [h]
  intro hc
  injection hc with hc
  revert hc
  decide

/-! ## Claims about the layout and the route -/

theorem accentColor_eq (data : JVal) (hd : isNullish data = false) :
    accentColor data = .ok (accentOf data) := by
  simp only [accentColor, getProp_of_not_nullish hd, ok_bind, accentOf]
  split <;> rfl

theorem drawHeader_nullish (formatDate : JVal → Except JSError String) (data : JVal)
    (logoPath : String) (hd : isNullish data = true) :
    drawHeader formatDate data logoPath = .error .typeError := by
  simp [drawHeader, accentColor, getProp_eq, hd, error_bind]

theorem drawHeader_frames {formatDate : JVal → Except JSError String} {data : JVal}
    {logoPath : String} {doc : Doc} (h : drawHeader formatDate data logoPath = .ok doc) :
    isNullish data = false ∧ doc.ops.map DrawOp.frame = headerFrames (accentOf data) := by
  cases hd : isNullish data
  · refine ⟨rfl, ?_⟩
    simp only [drawHeader, accentColor_eq data hd, ok_bind, bind_eq_ok] at h
    repeat (obtain ⟨_, _, h⟩ := h)
    simp [Doc.drawHorizontalLine, drawHeaders, tableHeaders, columnWidths, Doc.textOpt, Doc.text,
      Doc.setFillColor, Doc.setFontSize, Doc.image, DrawOp.frame, headerFrames, tableTop, bodyColor]
  · rw [drawHeader_nullish formatDate data logoPath hd] at h
    simp at h

theorem drawRow_ops {formatDate : JVal → Except JSError String} {doc doc1 : Doc} {y : ℕ}
    {product : JVal} {itemTotal : JNum}
    (h : drawRow formatDate doc y product itemTotal = .ok doc1) :
    ∃ cells, doc1.ops = doc.ops ++ cells ∧ cells.map DrawOp.frame = cellFrames y := by
  simp only [drawRow, bind_eq_ok] at h
  repeat (obtain ⟨_, _, h⟩ := h)
  refine ⟨_, by simp only [Doc.textOpt, Doc.setFillColor, Doc.setFontSize,
    List.append_assoc]; rfl, ?_⟩
  simp [columnWidths, DrawOp.frame, cellFrames, bodyColor]

theorem tableRow_ops {formatDate : JVal → Except JSError String} {st st1 : RowState}
    {product : JVal} (h : tableRow formatDate st product = .ok st1) :
    (∃ cells, st1.doc.ops = st.doc.ops ++ cells ∧ cells.map DrawOp.frame = cellFrames st.y) ∧
      st1.y = st.y + 30 := by
  simp only [tableRow, bind_eq_ok] at h
  obtain ⟨_, _, _, _, _, _, _, _, _, _, _, _, _, _, _, _, doc, hd, h⟩ := h
  cases h
  exact ⟨drawRow_ops hd, rfl⟩

theorem tableRows_ops {formatDate : JVal → Except JSError String} :
    ∀ (ps : List JVal) (st st1 : RowState), tableRows formatDate st ps = .ok st1 →
      (∃ rows, st1.doc.ops = st.doc.ops ++ rows ∧
        rows.map DrawOp.frame = rowsFrames st.y ps.length) ∧
        st1.y = st.y + 30 * ps.length := by
  intro ps
  induction ps with
  | nil =>
    intro st st1 h
    simp only [tableRows, Except.ok.injEq] at h
    subst h
    exact ⟨⟨[], by simp, by simp [rowsFrames]⟩, by simp⟩
  | cons p rest ih =>
    intro st st1 h
    simp only [tableRows, bind_eq_ok] at h
    obtain ⟨st2, h2, h⟩ := h
    obtain ⟨⟨cells, c1, c2⟩, y2⟩ := tableRow_ops h2
    obtain ⟨⟨rows, r1, r2⟩, y1⟩ := ih st2 st1 h
    refine ⟨⟨cells ++ rows, ?_, ?_⟩, ?_⟩
    · rw [r1, c1, List.append_assoc]
    · rw [List.map_append, c2, r2, y2]; simp [rowsFrames]
    · rw [y1, y2]; simp; ring

theorem tableRows_frames {formatDate : JVal → Except JSError String}
    (ps : List JVal) (st st1 : RowState) (h : tableRows formatDate st ps = .ok st1) :
    st1.doc.ops.map DrawOp.frame
        = st.doc.ops.map DrawOp.frame ++ rowsFrames st.y ps.length ∧
      st1.y = st.y + 30 * ps.length := by
  obtain ⟨⟨rows, r1, r2⟩, y1⟩ := tableRows_ops ps st st1 h
  exact ⟨by rw [r1, List.map_append, r2], y1⟩

theorem drawTerms_ops (y : ℕ) :
    ∀ (lines : List (List Char)) (d : Doc) (index : ℕ), d.fontSize = 9 →
      d.fillColor = bodyColor →
      (drawTerms d y index lines).ops = d.ops ++ termsOps y index lines := by
  intro lines
  induction lines with
  | nil => intro d index _ _; simp [drawTerms, termsOps]
  | cons line rest ih =>
    intro d index hf hc
    simp only [drawTerms, termsOps]
    rw [ih _ _ (by simpa [Doc.textOpt] using hf) (by simpa [Doc.textOpt] using hc)]
    simp [Doc.textOpt, hf, hc]

theorem drawClosing_ops {generatedOn : String} {data : JVal} {outputPath : String}
    {st : RowState} {r : Render} (h : drawClosing generatedOn data outputPath st = .ok r) :
    ∃ (s : String) (a b c : String) (pm thanks : JVal),
      field data "termsAndConditions" = .str s ∧
      r.ops = st.doc.ops ++ .line (st.y + 10) ::
        (summaryOps (st.y + 30) (.str a) (.str b) (.str c) pm ++
          .text (.str "Terms and Conditions:") 30 (st.y + 130) 12 (accentOf data) none none ::
          (termsOps (st.y + 150) 0 (splitLines s.data) ++ footerOps thanks generatedOn)) := by
  have hd : isNullish data = false := by
    cases hd : isNullish data
    · rfl
    · simp [drawClosing, getProp_eq, hd, error_bind, bind_eq_ok] at h
  simp only [drawClosing, accentColor_eq data hd, getProp_of_not_nullish hd, ok_bind,
    bind_eq_ok] at h
  obtain ⟨a, _, b, _, c, _, lines, hl, thanks, _, h⟩ := h
  cases h
  cases ht : field data "termsAndConditions" with
  | str s =>
    rw [ht] at hl
    simp only [Except.ok.injEq] at hl
    subst hl
    refine ⟨s, a, b, c, field data "paymentMethod", thanks, rfl, ?_⟩
    simp only [Doc.textOpt, Doc.setFillColor, Doc.setFontSize, Doc.text]
    rw [drawTerms_ops _ _ _ _ rfl rfl]
    simp [drawSummary, Doc.text, Doc.setFillColor, Doc.setFontSize, Doc.drawHorizontalLine,
      summaryOps, footerOps, bodyColor]
  | _ => rw [ht] at hl; simp at hl

theorem map_bind {α β γ : Type} (f : β → γ) (x : Except JSError α)
    (k : α → Except JSError β) :
    Except.map f (x >>= k) = x >>= fun a => Except.map f (k a) := by
  cases x <;> rfl

theorem map_ok {β γ : Type} (f : β → γ) (b : β) :
    Except.map f (Except.ok b : Except JSError β) = .ok (f b) := rfl

theorem drawClosing_atTime (g g1 : String) (data : JVal) (p p1 : String) (st : RowState) :
    drawClosing g data p st = (drawClosing g1 data p1 st).map (Render.atTime g p) := by
  simp only [drawClosing, map_bind, map_ok, Render.atTime, Doc.textOpt, generatedOnOp,
    Doc.setFontSize, Doc.setFillColor,
    List.dropLast_concat]

theorem generateInvoice_atTime (formatDate : JVal → Except JSError String) (n n1 : ℕ)
    (g g1 : String) (data : JVal) (logoPath : String) :
    generateInvoice formatDate n g data logoPath
      = (generateInvoice formatDate n1 g1 data logoPath).map
          (Render.atTime g ("output/Invoice_" ++ toString n ++ ".pdf")) := by
  simp only [generateInvoice, map_bind]
  simp only [drawClosing_atTime g g1 data _ ("output/Invoice_" ++ toString n1 ++ ".pdf")]

theorem termsOps_frames (y : ℕ) :
    ∀ (lines : List (List Char)) (index : ℕ),
      (termsOps y index lines).map DrawOp.frame = termsFrames y index lines.length := by
  intro lines
  induction lines with
  | nil => intro index; rfl
  | cons line rest ih => intro index; simp [termsOps, termsFrames, DrawOp.frame, ih]

theorem generateInvoice_parts {formatDate : JVal → Except JSError String} {nowMs : ℕ}
    {generatedOn : String} {data : JVal} {logoPath : String} {r : Render}
    (h : generateInvoice formatDate nowMs generatedOn data logoPath = .ok r) :
    ∃ (doc : Doc) (ps : List JVal) (st : RowState),
      isNullish data = false ∧
      drawHeader formatDate data logoPath = .ok doc ∧
      iterate (field data "products") = .ok ps ∧
      tableRows formatDate ⟨doc, 310, .fin (Dec.ofInt 0), .fin (Dec.ofInt 0), []⟩ ps = .ok st ∧
      drawClosing generatedOn data ("output/Invoice_" ++ toString nowMs ++ ".pdf") st = .ok r := by
  simp only [generateInvoice, bind_eq_ok] at h
  obtain ⟨doc, hdoc, v, hv, ps, hps, st, hst, h⟩ := h
  have hd := (drawHeader_frames hdoc).1
  rw [getProp_of_not_nullish hd] at hv
  cases hv
  exact ⟨doc, ps, st, hd, hdoc, hps, hst, h⟩

/-- The frames of every page that `generateInvoice` returns. -/
theorem generateInvoice_frames {formatDate : JVal → Except JSError String} {nowMs : ℕ}
    {generatedOn : String} {data : JVal} {logoPath : String} {r : Render}
    (h : generateInvoice formatDate nowMs generatedOn data logoPath = .ok r) :
    ∃ (ps : List JVal) (s : String),
      iterate (field data "products") = .ok ps ∧
      field data "termsAndConditions" = .str s ∧
      r.ops.map DrawOp.frame
        = layoutFrames (accentOf data) ps.length (splitLines s.data).length := by
  obtain ⟨doc, ps, st, hd, hdoc, hps, hst, hc⟩ := generateInvoice_parts h
  obtain ⟨s, a, b, c, pm, thanks, hs, hops⟩ := drawClosing_ops hc
  obtain ⟨hf, hy⟩ := tableRows_frames ps _ st hst
  refine ⟨ps, s, hps, hs, ?_⟩
  simp only at hf hy
  rw [hops, List.map_append, hf, (drawHeader_frames hdoc).2, hy]
  simp [layoutFrames, closingFrames, summaryOps, summaryFrames, footerOps, footerFrames,
    DrawOp.frame, termsOps_frames]

theorem exists_of_returns {α : Type} {x : Except JSError α} (h : returns x = true) :
    ∃ a, x = .ok a := by
  cases x with
  | ok a => exact ⟨a, rfl⟩
  | error e => simp [returns] at h

theorem ops_atTime_same (g p g1 p1 : String) (x : Except JSError Render) :
    (x.map (Render.atTime g p)).map (fun r => r.ops.dropLast)
      = (x.map (Render.atTime g1 p1)).map (fun r => r.ops.dropLast) := by
  cases x <;> simp [Except.map, Render.atTime]

theorem ops_atTime_path (g p p1 : String) (x : Except JSError Render) :
    (x.map (Render.atTime g p)).map (fun r => r.ops)
      = (x.map (Render.atTime g p1)).map (fun r => r.ops) := by
  cases x <;> simp [Except.map, Render.atTime]

/-- C11 (as the code has it). Two runs of `generateInvoice` on the same request and logo, at
whatever times, throw the same or emit the same sequence of draw operations up to the last
one; the last one is the footer line `Generated on ...`, whose text is the time of the run to
the minute, so two runs with the same such text emit the same sequence throughout. -/
theorem layout_deterministic (formatDate : JVal → Except JSError String) (n1 n2 : ℕ)
    (g1 g2 : String) (data : JVal) (logoPath : String) :
    (generateInvoice formatDate n1 g1 data logoPath).map (fun r => r.ops.dropLast)
        = (generateInvoice formatDate n2 g2 data logoPath).map (fun r => r.ops.dropLast) ∧
      (generateInvoice formatDate n1 g1 data logoPath).map (fun r => r.ops)
        = (generateInvoice formatDate n2 g1 data logoPath).map (fun r => r.ops) ∧
      ∀ r, generateInvoice formatDate n1 g1 data logoPath = .ok r →
        r.ops.getLast? = some (generatedOnOp g1) := by
  refine ⟨?_, ?_, ?_⟩
  · rw [generateInvoice_atTime formatDate n1 0 g1 "" data logoPath,
      generateInvoice_atTime formatDate n2 0 g2 "" data logoPath]
    exact ops_atTime_same _ _ _ _ _
  · rw [generateInvoice_atTime formatDate n1 0 g1 "" data logoPath,
      generateInvoice_atTime formatDate n2 0 g1 "" data logoPath]
    exact ops_atTime_path _ _ _ _
  · intro r h
    rw [generateInvoice_atTime formatDate n1 0 g1 "" data logoPath] at h
    cases hx : generateInvoice formatDate 0 "" data logoPath with
    | error e => rw [hx] at h; simp [Except.map] at h
    | ok r0 =>
      rw [hx] at h
      simp only [Except.map, Except.ok.injEq] at h
      subst h
      simp [Render.atTime]

/-- The scenario at 08:00 and at 08:01: the same operations up to the last one, the same
throughout for the same minute, and the last one is the line of 08:00. -/
theorem layout_deterministic_witness :
    (generateInvoice sampleFormatDate 1730793600000 "05/11/2026 08:00"
          (sampleRequest [paracetamol]) "uploads/logo.png").map (fun r => r.ops.dropLast)
        = (generateInvoice sampleFormatDate 1730793660000 "05/11/2026 08:01"
          (sampleRequest [paracetamol]) "uploads/logo.png").map (fun r => r.ops.dropLast) ∧
      (generateInvoice sampleFormatDate 1730793600000 "05/11/2026 08:00"
          (sampleRequest [paracetamol]) "uploads/logo.png").map (fun r => r.ops)
        = (generateInvoice sampleFormatDate 1730793660000 "05/11/2026 08:00"
          (sampleRequest [paracetamol]) "uploads/logo.png").map (fun r => r.ops) ∧
      ∀ r, generateInvoice sampleFormatDate 1730793600000 "05/11/2026 08:00"
          (sampleRequest [paracetamol]) "uploads/logo.png" = .ok r →
        r.ops.getLast? = some (generatedOnOp "05/11/2026 08:00") :=
  layout_deterministic sampleFormatDate 1730793600000 1730793660000 "05/11/2026 08:00"
    "05/11/2026 08:01" (sampleRequest [paracetamol]) "uploads/logo.png"

/-- C11 (as stated) fails: the scenario rendered at 08:00 and again at 08:01 returns both
times, and the two sequences of draw operations differ (in the text of the last footer
line). -/
theorem footer_depends_on_time :
    returns (generateInvoice sampleFormatDate 1730793600000 "05/11/2026 08:00"
        (sampleRequest [paracetamol]) "uploads/logo.png") = true ∧
      returns (generateInvoice sampleFormatDate 1730793660000 "05/11/2026 08:01"
        (sampleRequest [paracetamol]) "uploads/logo.png") = true ∧
      (generateInvoice sampleFormatDate 1730793600000 "05/11/2026 08:00"
          (sampleRequest [paracetamol]) "uploads/logo.png").map (fun r => r.ops)
        ≠ (generateInvoice sampleFormatDate 1730793660000 "05/11/2026 08:01"
          (sampleRequest [paracetamol]) "uploads/logo.png").map (fun r => r.ops) := by
  have h1 : returns (generateInvoice sampleFormatDate 1730793600000 "05/11/2026 08:00"
      (sampleRequest [paracetamol]) "uploads/logo.png") = true := by rfl
  have h2 : returns (generateInvoice sampleFormatDate 1730793660000 "05/11/2026 08:01"
      (sampleRequest [paracetamol]) "uploads/logo.png") = true := by rfl
  refine ⟨h1, h2, ?_⟩
  obtain ⟨r1, e1⟩ := exists_of_returns h1
  obtain ⟨r2, e2⟩ := exists_of_returns h2
  have l1 : r1.ops.getLast? = some (generatedOnOp "05/11/2026 08:00") := by
    rw [generateInvoice_atTime sampleFormatDate _ 0 _ "" _ _] at e1
    cases hx : generateInvoice sampleFormatDate 0 "" (sampleRequest [paracetamol])
        "uploads/logo.png" with
    | error e => rw [hx] at e1; simp [Except.map] at e1
    | ok r0 =>
      rw [hx] at e1
      simp only [Except.map, Except.ok.injEq] at e1
      subst e1
      simp [Render.atTime]
  have l2 : r2.ops.getLast? = some (generatedOnOp "05/11/2026 08:01") := by
    rw [generateInvoice_atTime sampleFormatDate _ 0 _ "" _ _] at e2
    cases hx : generateInvoice sampleFormatDate 0 "" (sampleRequest [paracetamol])
        "uploads/logo.png" with
    | error e => rw [hx] at e2; simp [Except.map] at e2
    | ok r0 =>
      rw [hx] at e2
      simp only [Except.map, Except.ok.injEq] at e2
      subst e2
      simp [Render.atTime]
  rw [e1, e2]
  intro hc
  simp only [Except.map, Except.ok.injEq] at hc
  rw [hc, l2] at l1
  simp only [generatedOnOp, Option.some.injEq, DrawOp.text.injEq, JVal.str.injEq] at l1
  have := l1.1
  revert this
  decide

/-- C12. For every request whose data the handler passes to `validateInvoiceData` (the data
parses and a logo file came with it) and gets a non-empty list for, the response is the 400
error `Validation failed` whose details are exactly that list, `generateInvoice` is not
called, and the logo is cleaned up. -/
theorem validation_failure_response (formatDate : JVal → Except JSError String) (nowMs : ℕ)
    (generatedOn : String) (readFile : String → Bool) (req : Request) (files : List String)
    (data : JVal) (logoPath : String) (errs : List String)
    (hd : req.data = some data) (hf : req.file = some logoPath)
    (hv : validateInvoiceData data = .ok errs) (hne : errs ≠ []) :
    (generateInvoiceRoute formatDate nowMs generatedOn readFile req files).response
        = .json 400 "Validation failed" (.messages errs) ∧
      (generateInvoiceRoute formatDate nowMs generatedOn readFile req files).rendered = false ∧
      (generateInvoiceRoute formatDate nowMs generatedOn readFile req files).files
        = cleanup logoPath files := by
  have hlen : errs.length > 0 := List.length_pos.2 hne
  simp [generateInvoiceRoute, hd, hf, hv, hlen]

/-- A request with a logo and without products. -/
theorem validation_failure_response_witness :
    (generateInvoiceRoute sampleFormatDate 1730793600000 "05/11/2026 08:00" (fun _ => true)
        ⟨some (sampleRequest []), some "uploads/1730793599000-7.png"⟩
        ["uploads/1730793599000-7.png"]).response
        = .json 400 "Validation failed" (.messages ["At least one product is required"]) ∧
      (generateInvoiceRoute sampleFormatDate 1730793600000 "05/11/2026 08:00" (fun _ => true)
        ⟨some (sampleRequest []), some "uploads/1730793599000-7.png"⟩
        ["uploads/1730793599000-7.png"]).rendered = false ∧
      (generateInvoiceRoute sampleFormatDate 1730793600000 "05/11/2026 08:00" (fun _ => true)
        ⟨some (sampleRequest []), some "uploads/1730793599000-7.png"⟩
        ["uploads/1730793599000-7.png"]).files
        = cleanup "uploads/1730793599000-7.png" ["uploads/1730793599000-7.png"] :=
  validation_failure_response sampleFormatDate 1730793600000 "05/11/2026 08:00" (fun _ => true)
    ⟨some (sampleRequest []), some "uploads/1730793599000-7.png"⟩
    ["uploads/1730793599000-7.png"] (sampleRequest []) "uploads/1730793599000-7.png"
    ["At least one product is required"] rfl rfl (by rfl) (by simp)

/-- A request without a logo file never reaches the validator: the handler reads
`req.file.path` first, that read throws, and the answer is a 500, whatever the data. -/
theorem no_logo_response :
    validateInvoiceData (sampleRequest []) = .ok ["At least one product is required"] ∧
      (generateInvoiceRoute sampleFormatDate 1730793600000 "05/11/2026 08:00" (fun _ => true)
        ⟨some (sampleRequest []), none⟩ []).response
        = .json 500 "Failed to generate invoice" (.message (.thrown .typeError)) := by
  exact ⟨by rfl, by rfl⟩

/-- C13. A request that passes the validator and whose product has no expiry date: the
layout throws on the date after the output file was opened; the handler answers 500 and cleans
up the logo, and the output file stays behind. The success path leaves neither file. -/
theorem output_file_left_behind :
    validateInvoiceData (sampleRequest [bareParacetamol]) = .ok [] ∧
      generateInvoice strictFormatDate 1730793600000 "05/11/2026 08:00"
        (sampleRequest [bareParacetamol]) "uploads/1730793599000-7.png"
        = .error .rangeError ∧
      (generateInvoiceRoute strictFormatDate 1730793600000 "05/11/2026 08:00" (fun _ => true)
        ⟨some (sampleRequest [bareParacetamol]), some "uploads/1730793599000-7.png"⟩
        ["uploads/1730793599000-7.png"]).files = ["output/Invoice_1730793600000.pdf"] ∧
      (generateInvoiceRoute strictFormatDate 1730793600000 "05/11/2026 08:00" (fun _ => true)
        ⟨some (sampleRequest [paracetamol]), some "uploads/1730793599000-7.png"⟩
        ["uploads/1730793599000-7.png"]).files = [] := by
  refine ⟨by rfl, by rfl, by rfl, by rfl⟩

/-- C14. Two renders of different invoices that read the same `Date.now()` write to the same
output path, whereas two uploads at the same millisecond with different random draws get
different names. -/
theorem same_millisecond_same_output :
    (generateInvoice sampleFormatDate 1730793600000 "05/11/2026 08:00"
        (sampleRequest [paracetamol]) "uploads/1730793599000-7.png").map (fun r => r.outputPath)
        = .ok "output/Invoice_1730793600000.pdf" ∧
      (generateInvoice sampleFormatDate 1730793600000 "05/11/2026 08:00"
        (sampleRequest [paracetamol, paracetamol]) "uploads/1730793599000-8.png").map
          (fun r => r.outputPath)
        = .ok "output/Invoice_1730793600000.pdf" ∧
      uploadFilename 1730793599000 7 ".png" ≠ uploadFilename 1730793599000 8 ".png" := by
  refine ⟨by rfl, by rfl, by decide⟩

theorem drawHeader_headings {formatDate : JVal → Except JSError String} {data : JVal}
    {logoPath : String} {doc : Doc} (h : drawHeader formatDate data logoPath = .ok doc) :
    ∀ op ∈ (headingOps data 0).take 10, op ∈ doc.ops := by
  have hd := (drawHeader_frames h).1
  simp only [drawHeader, accentColor_eq data hd, getProp_of_not_nullish hd, ok_bind,
    bind_eq_ok] at h
  repeat (obtain ⟨_, _, h⟩ := h)
  intro op hop
  simp only [headingOps, List.take, List.mem_cons, List.mem_singleton, List.not_mem_nil,
    or_false] at hop
  rcases hop with rfl | rfl | rfl | rfl | rfl | rfl | rfl | rfl | rfl | rfl <;>
    simp [Doc.drawHorizontalLine, drawHeaders, tableHeaders, columnWidths, Doc.textOpt,
      Doc.text, Doc.setFillColor, Doc.setFontSize, Doc.image, tableTop]

theorem rowsFrames_colors (n : ℕ) :
    ∀ y, (rowsFrames y n).filterMap Frame.color = List.replicate (6 * n) bodyColor := by
  induction n with
  | zero => intro y; rfl
  | succ k ih =>
    intro y
    have e : 6 * (k + 1) = 6 + 6 * k := by ring
    simp only [rowsFrames, List.filterMap_append, ih, e, List.replicate_add]
    rfl

theorem termsFrames_colors (m : ℕ) :
    ∀ y index, (termsFrames y index m).filterMap Frame.color = List.replicate m bodyColor := by
  induction m with
  | zero => intro y index; rfl
  | succ k ih =>
    intro y index
    simp [termsFrames, List.filterMap_cons, Frame.color, ih, List.replicate_succ]

theorem layoutFrames_colors (accent : JVal) (n m : ℕ) :
    (layoutFrames accent n m).filterMap Frame.color = colourPlan accent n m := by
  simp only [layoutFrames, closingFrames, List.filterMap_append, List.filterMap_cons,
    rowsFrames_colors, termsFrames_colors, colourPlan]
  rfl

/-- C15 (as the code has it). On every page that `generateInvoice` returns, the fill colours
of the text calls are, in drawing order, those of `colourPlan`: the headings (store name,
`TAX INVOICE`, `Bill To:`, `Delivery Details:`, the table headers, `Terms and Conditions:`) in
the accent colour, which is `request.color` when that is there and `#2c3e50` otherwise; the
body text in `#34495e`, the first footer line in `#2c3e50` and the second in `#666666`,
whatever `request.color` is. -/
theorem heading_colours (formatDate : JVal → Except JSError String) (nowMs : ℕ)
    (generatedOn : String) (data : JVal) (logoPath : String) (r : Render) (ps : List JVal)
    (s : String) (h : generateInvoice formatDate nowMs generatedOn data logoPath = .ok r)
    (hps : field data "products" = .arr ps) (hs : field data "termsAndConditions" = .str s) :
    textColours r.ops
        = colourPlan (accentOf data) ps.length (splitLines s.data).length ∧
      (∀ op ∈ headingOps data ps.length, op ∈ r.ops) ∧
      (truthy (field data "color") = false → accentOf data = .str "#2c3e50") ∧
      (truthy (field data "color") = true → accentOf data = field data "color") := by
  obtain ⟨ps1, s1, hps1, hs1, hfr⟩ := generateInvoice_frames h
  rw [hps] at hps1
  simp only [iterate, Except.ok.injEq] at hps1
  subst hps1
  rw [hs] at hs1
  simp only [JVal.str.injEq] at hs1
  subst hs1
  refine ⟨?_, ?_, ?_, ?_⟩
  · rw [← layoutFrames_colors, ← hfr, List.filterMap_map]
    rfl
  · obtain ⟨doc, ps2, st, hd, hdoc, hps2, hst, hc⟩ := generateInvoice_parts h
    rw [hps] at hps2
    simp only [iterate, Except.ok.injEq] at hps2
    subst hps2
    obtain ⟨⟨rows, r1, _⟩, y1⟩ := tableRows_ops _ _ st hst
    obtain ⟨s2, a, b, c, pm, thanks, _, hops⟩ := drawClosing_ops hc
    simp only at r1 y1
    intro op hop
    have hsplit : op ∈ (headingOps data 0).take 10 ∨
        op = .text (.str "Terms and Conditions:") 30 (440 + 30 * ps.length) 12
          (accentOf data) none none := by
      simp only [headingOps, List.mem_cons, List.mem_singleton, List.not_mem_nil,
        or_false, List.take] at hop ⊢
      tauto
    rcases hsplit with h10 | rfl
    · rw [hops, r1]
      exact List.mem_append_left _ (List.mem_append_left _ (drawHeader_headings hdoc op h10))
    · rw [hops, y1]
      apply List.mem_append_right
      have e : 310 + 30 * ps.length + 130 = 440 + 30 * ps.length := by ring
      simp [e]
  · intro hc; simp [accentOf, hc]
  · intro hc; simp [accentOf, hc]

/-- The scenario, which has no `color`: the headings are drawn in `#2c3e50`. -/
theorem heading_colours_witness :
    textColours sampleRender.ops = colourPlan (.str "#2c3e50") 1 2 ∧
      (∀ op ∈ headingOps (sampleRequest [paracetamol]) 1, op ∈ sampleRender.ops) ∧
      (truthy (field (sampleRequest [paracetamol]) "color") = false →
        accentOf (sampleRequest [paracetamol]) = .str "#2c3e50") ∧
      (truthy (field (sampleRequest [paracetamol]) "color") = true →
        accentOf (sampleRequest [paracetamol]) = field (sampleRequest [paracetamol]) "color") :=
  heading_colours sampleFormatDate 1730793600000 "05/11/2026 08:00"
    (sampleRequest [paracetamol]) "uploads/logo.png" sampleRender
    [paracetamol] "No returns.\nKeep the bill." (by rfl) (by rfl) (by rfl)

/-- C15 (as stated) fails: the scenario has no `color`, and not every text of its page is
drawn in `#2c3e50` (the body text is drawn in `#34495e`, the last line in `#666666`). -/
theorem body_text_other_colour :
    truthy (field (sampleRequest [paracetamol]) "color") = false ∧
      (generateInvoice sampleFormatDate 1730793600000 "05/11/2026 08:00"
        (sampleRequest [paracetamol]) "uploads/logo.png").map
          (fun r => (textColours r.ops).all (isColor "#2c3e50")) = .ok false ∧
      (generateInvoice sampleFormatDate 1730793600000 "05/11/2026 08:00"
        (sampleRequest [paracetamol]) "uploads/logo.png").map
          (fun r => (textColours r.ops).any (isColor "#34495e")) = .ok true := by
  refine ⟨by rfl, by rfl, by rfl⟩

theorem rowsFrames_eq (n : ℕ) :
    ∀ y, rowsFrames y n = (List.range n).flatMap (fun i => cellFrames (y + 30 * i)) := by
  induction n with
  | zero => intro y; rfl
  | succ k ih =>
    intro y
    rw [rowsFrames, ih, List.range_succ_eq_map, List.flatMap_cons, List.flatMap_map]
    simp only [Nat.mul_zero, Nat.add_zero]
    congr 1
    apply List.flatMap_congr
    intro i _
    congr 1
    simp only [Nat.succ_eq_add_one]
    omega

/-- C16. On every page that `generateInvoice` returns for `N` products, the calls after those
of the header are the six cells of product `i` at `y = 310 + 30 * i`, for `i = 0, ..., N - 1`
in order, and then the divider at `y = 320 + 30 * N`; the cells stand at
`x = 30, 230, 310, 350, 420, 490`, the running sums of the column widths, which total
`535 = 595 - 2 * 30`. -/
theorem row_positions (formatDate : JVal → Except JSError String) (nowMs : ℕ)
    (generatedOn : String) (data : JVal) (logoPath : String) (r : Render) (ps : List JVal)
    (h : generateInvoice formatDate nowMs generatedOn data logoPath = .ok r)
    (hps : field data "products" = .arr ps) :
    (∃ rest, r.ops.map DrawOp.frame
        = headerFrames (accentOf data) ++
          ((List.range ps.length).flatMap (fun i => cellFrames (310 + 30 * i)) ++
            .line (320 + 30 * ps.length) :: rest)) ∧
      (∀ y, (cellFrames y).map Frame.y = List.replicate 6 y) ∧
      (∀ y, (cellFrames y).map Frame.x = [30, 230, 310, 350, 420, 490]) ∧
      columnStarts 30 columnWidths = [30, 230, 310, 350, 420, 490] ∧
      columnWidths.sum = 535 ∧ 535 = 595 - 2 * 30 := by
  obtain ⟨ps1, s1, hps1, hs1, hfr⟩ := generateInvoice_frames h
  rw [hps] at hps1
  simp only [iterate, Except.ok.injEq] at hps1
  subst hps1
  refine ⟨⟨summaryFrames (310 + 30 * ps.length + 30) ++
      .text 30 (310 + 30 * ps.length + 130) 12 (accentOf data) none none ::
        (termsFrames (310 + 30 * ps.length + 150) 0 (splitLines s1.data).length ++
          footerFrames), ?_⟩, fun y => rfl, fun y => rfl, rfl, rfl, rfl⟩
  rw [hfr, layoutFrames, rowsFrames_eq, closingFrames]
  have e : 310 + 30 * ps.length + 10 = 320 + 30 * ps.length := by ring
  rw [e]

/-- The scenario: one product, its cells at `y = 310`, the divider at `y = 350`. -/
theorem row_positions_witness :
    (∃ rest, sampleRender.ops.map DrawOp.frame
        = headerFrames (.str "#2c3e50") ++
          ((List.range 1).flatMap (fun i => cellFrames (310 + 30 * i)) ++
            .line (320 + 30 * 1) :: rest)) ∧
      (∀ y, (cellFrames y).map Frame.y = List.replicate 6 y) ∧
      (∀ y, (cellFrames y).map Frame.x = [30, 230, 310, 350, 420, 490]) ∧
      columnStarts 30 columnWidths = [30, 230, 310, 350, 420, 490] ∧
      columnWidths.sum = 535 ∧ 535 = 595 - 2 * 30 :=
  row_positions sampleFormatDate 1730793600000 "05/11/2026 08:00"
    (sampleRequest [paracetamol]) "uploads/logo.png" sampleRender [paracetamol]
    (by rfl) (by rfl)

theorem splitLines_ne_nil (cs : List Char) : splitLines cs ≠ [] := by
  cases cs with
  | nil => simp [splitLines]
  | cons c rest =>
    simp only [splitLines]
    split
    · simp
    · split <;> simp

theorem joinLines_splitLines (cs : List Char) : joinLines (splitLines cs) = cs := by
  induction cs with
  | nil => rfl
  | cons c rest ih =>
    simp only [splitLines]
    split
    · rename_i hc
      cases hs : splitLines rest with
      | nil => exact absurd hs (splitLines_ne_nil rest)
      | cons l ls =>
        rw [hs] at ih
        simp only [joinLines, List.nil_append, ih, hc]
    · cases hs : splitLines rest with
      | nil => exact absurd hs (splitLines_ne_nil rest)
      | cons l ls =>
        rw [hs] at ih
        simp only
        cases ls with
        | nil =>
          simp only [joinLines] at ih ⊢
          rw [ih]
        | cons l2 ls2 =>
          simp only [joinLines] at ih ⊢
          rw [← ih]
          simp

theorem length_splitLines (cs : List Char) :
    (splitLines cs).length = cs.count '\n' + 1 := by
  induction cs with
  | nil => rfl
  | cons c rest ih =>
    simp only [splitLines]
    split
    · rename_i hc
      simp [ih, hc]
    · rename_i hc
      have hc' : ¬ ('\n' = c) := fun e => hc e.symm
      cases hs : splitLines rest with
      | nil => exact absurd hs (splitLines_ne_nil rest)
      | cons l ls =>
        rw [hs] at ih
        simp only [List.length_cons] at ih ⊢
        rw [ih, List.count_cons_of_ne hc']

theorem termsOps_enum (n : ℕ) :
    ∀ (lines : List (List Char)) (index : ℕ),
      termsOps (310 + 30 * n + 150) index lines
        = (lines.enumFrom index).map (fun jl => termsLineOp n jl.1 jl.2) := by
  intro lines
  induction lines with
  | nil => intro index; rfl
  | cons line rest ih =>
    intro index
    simp only [termsOps, List.enumFrom_cons, List.map_cons, ih, termsLineOp, bodyColor]
    congr 2
    ring

/-- The end of every page that `generateInvoice` returns: the terms lines, then the footer. -/
theorem generateInvoice_tail {formatDate : JVal → Except JSError String} {nowMs : ℕ}
    {generatedOn : String} {data : JVal} {logoPath : String} {r : Render} {ps : List JVal}
    {s : String} (h : generateInvoice formatDate nowMs generatedOn data logoPath = .ok r)
    (hps : field data "products" = .arr ps) (hs : field data "termsAndConditions" = .str s) :
    ∃ before thanks, r.ops = before ++
      ((splitLines s.data).enum.map (fun jl => termsLineOp ps.length jl.1 jl.2) ++
        footerOps thanks generatedOn) := by
  obtain ⟨doc, ps2, st, hd, hdoc, hps2, hst, hc⟩ := generateInvoice_parts h
  rw [hps] at hps2
  simp only [iterate, Except.ok.injEq] at hps2
  subst hps2
  obtain ⟨_, y1⟩ := tableRows_ops _ _ st hst
  obtain ⟨s2, a, b, c, pm, thanks, hs2, hops⟩ := drawClosing_ops hc
  rw [hs] at hs2
  simp only [JVal.str.injEq] at hs2
  subst hs2
  simp only at y1
  rw [y1, termsOps_enum] at hops
  refine ⟨st.doc.ops ++ .line (310 + 30 * ps.length + 10) ::
      (summaryOps (310 + 30 * ps.length + 30) (.str a) (.str b) (.str c) pm ++
        [.text (.str "Terms and Conditions:") 30 (310 + 30 * ps.length + 130) 12
          (accentOf data) none none]), thanks, ?_⟩
  rw [hops, List.enum]
  simp [List.append_assoc]

/-- C17. On every page that `generateInvoice` returns for `N` products and terms text `s`,
the terms lines are the pieces of `s` between its newline characters, which put together
again with newlines give `s` (one more line than `s` has newlines, empty lines kept); line `j`
is drawn at `x = 30`, `y = 460 + 30 * N + 15 * j`, in the original order, right before the two
footer lines. -/
theorem terms_lines (formatDate : JVal → Except JSError String) (nowMs : ℕ)
    (generatedOn : String) (data : JVal) (logoPath : String) (r : Render) (ps : List JVal)
    (s : String) (h : generateInvoice formatDate nowMs generatedOn data logoPath = .ok r)
    (hps : field data "products" = .arr ps) (hs : field data "termsAndConditions" = .str s) :
    (∃ before thanks, r.ops = before ++
        ((splitLines s.data).enum.map (fun jl => termsLineOp ps.length jl.1 jl.2) ++
          footerOps thanks generatedOn)) ∧
      joinLines (splitLines s.data) = s.data ∧
      (splitLines s.data).length = s.data.count '\n' + 1 :=
  ⟨generateInvoice_tail h hps hs, joinLines_splitLines _, length_splitLines _⟩

/-- The scenario: the two terms lines at `y = 490` and `y = 505`. -/
theorem terms_lines_witness :
    (∃ before thanks, sampleRender.ops = before ++
        ([termsLineOp 1 0 "No returns.".data, termsLineOp 1 1 "Keep the bill.".data] ++
          footerOps thanks "05/11/2026 08:00")) ∧
      joinLines ["No returns.".data, "Keep the bill.".data]
        = "No returns.\nKeep the bill.".data ∧
      [ "No returns.".data, "Keep the bill.".data ].length
        = "No returns.\nKeep the bill.".data.count '\n' + 1 :=
  terms_lines sampleFormatDate 1730793600000 "05/11/2026 08:00"
    (sampleRequest [paracetamol]) "uploads/logo.png" sampleRender [paracetamol]
    "No returns.\nKeep the bill." (by rfl) (by rfl) (by rfl)

theorem rowsFrames_ys (n : ℕ) :
    ∀ y, (rowsFrames y n).map Frame.y
      = (List.range n).flatMap (fun i => List.replicate 6 (y + 30 * i)) := by
  induction n with
  | zero => intro y; rfl
  | succ k ih =>
    intro y
    rw [rowsFrames, List.map_append, ih, List.range_succ_eq_map, List.flatMap_cons,
      List.flatMap_map]
    simp only [Nat.mul_zero, Nat.add_zero]
    congr 1
    apply List.flatMap_congr
    intro i _
    congr 1
    simp only [Nat.succ_eq_add_one]
    omega

theorem termsFrames_ys (m : ℕ) :
    ∀ y index, (termsFrames y index m).map Frame.y
      = (List.range m).map (fun j => y + 15 * (index + j)) := by
  induction m with
  | zero => intro y index; rfl
  | succ k ih =>
    intro y index
    rw [termsFrames, List.map_cons, ih, List.range_succ_eq_map, List.map_cons, List.map_map]
    congr 1
    · simp only [Frame.y]; ring
    · apply List.map_congr_left
      intro j _
      simp only [Function.comp, Nat.succ_eq_add_one]
      ring

theorem layoutFrames_ys (accent : JVal) (n m : ℕ) :
    (layoutFrames accent n m).map Frame.y = bandYs n m := by
  simp only [layoutFrames, closingFrames, List.map_append, List.map_cons, rowsFrames_ys,
    termsFrames_ys, bandYs, rowYs, termsYs, Frame.y]
  have e1 : 310 + 30 * n + 10 = 320 + 30 * n := by ring
  have e2 : 310 + 30 * n + 130 = 440 + 30 * n := by ring
  have e3 : ∀ j, 310 + 30 * n + 150 + 15 * (0 + j) = 460 + 30 * n + 15 * j := by
    intro j; ring
  have e4 : List.map Frame.y (summaryFrames (310 + 30 * n + 30)) = summaryYs n := by
    have r4 : List.range 4 = [0, 1, 2, 3] := by decide
    simp only [summaryFrames, summaryYs, r4, List.flatMap_cons, List.flatMap_nil,
      List.replicate, List.map_cons, List.map_nil, Frame.y, List.cons_append, List.nil_append,
      List.append_nil]
    have a0 : 310 + 30 * n + 30 = 340 + 30 * n + 20 * 0 := by ring
    have a1 : 310 + 30 * n + 30 + 20 = 340 + 30 * n + 20 * 1 := by ring
    have a2 : 310 + 30 * n + 30 + 40 = 340 + 30 * n + 20 * 2 := by ring
    have a3 : 310 + 30 * n + 30 + 60 = 340 + 30 * n + 20 * 3 := by ring
    rw [a1, a2, a3, a0]
  rw [e1, e2, e4]
  simp only [e3]
  rfl

/-- C18 (as the code has it). On every page that `generateInvoice` returns for `N` products
and `M` terms lines the heights of the calls are, in drawing order, those of `bandYs N M`,
which depend on `N` and `M` alone, and the bands follow each other strictly: header lines
(at most 110) < divider 130 < parties band (150 to 230) < table header 280 < divider 295 <
every product row < divider `320 + 30 * N` < the four summary rows < terms heading
`440 + 30 * N` < every terms line. -/
theorem band_order (formatDate : JVal → Except JSError String) (nowMs : ℕ)
    (generatedOn : String) (data : JVal) (logoPath : String) (r : Render) (ps : List JVal)
    (s : String) (h : generateInvoice formatDate nowMs generatedOn data logoPath = .ok r)
    (hps : field data "products" = .arr ps) (hs : field data "termsAndConditions" = .str s) :
    heights r.ops = bandYs ps.length (splitLines s.data).length ∧
      (∀ y ∈ headerYs, y ≤ 110 ∧ y < 130) ∧
      (∀ y ∈ partiesYs, 130 < y ∧ 150 ≤ y ∧ y ≤ 230 ∧ y < 280) ∧
      280 < 295 ∧
      (∀ y ∈ rowYs ps.length, 295 < y ∧ y < 320 + 30 * ps.length) ∧
      (∀ y ∈ summaryYs ps.length, 320 + 30 * ps.length < y ∧ y < 440 + 30 * ps.length) ∧
      (∀ y ∈ termsYs ps.length (splitLines s.data).length, 440 + 30 * ps.length < y) := by
  obtain ⟨ps1, s1, hps1, hs1, hfr⟩ := generateInvoice_frames h
  rw [hps] at hps1
  simp only [iterate, Except.ok.injEq] at hps1
  subst hps1
  rw [hs] at hs1
  simp only [JVal.str.injEq] at hs1
  subst hs1
  refine ⟨?_, by decide, by decide, by decide, ?_, ?_, ?_⟩
  · rw [← layoutFrames_ys (accentOf data), ← hfr, heights, List.map_map]
    rfl
  · intro y hy
    simp only [rowYs, List.mem_flatMap, List.mem_range, List.mem_replicate] at hy
    obtain ⟨i, hi, _, rfl⟩ := hy
    omega
  · intro y hy
    simp only [summaryYs, List.mem_flatMap, List.mem_range, List.mem_replicate] at hy
    obtain ⟨k, hk, _, rfl⟩ := hy
    omega
  · intro y hy
    simp only [termsYs, List.mem_map, List.mem_range] at hy
    obtain ⟨j, _, rfl⟩ := hy
    omega

/-- The scenario: one product, two terms lines. -/
theorem band_order_witness :
    heights sampleRender.ops = bandYs 1 2 ∧
      (∀ y ∈ headerYs, y ≤ 110 ∧ y < 130) ∧
      (∀ y ∈ partiesYs, 130 < y ∧ 150 ≤ y ∧ y ≤ 230 ∧ y < 280) ∧
      280 < 295 ∧
      (∀ y ∈ rowYs 1, 295 < y ∧ y < 320 + 30 * 1) ∧
      (∀ y ∈ summaryYs 1, 320 + 30 * 1 < y ∧ y < 440 + 30 * 1) ∧
      (∀ y ∈ termsYs 1 2, 440 + 30 * 1 < y) :=
  band_order sampleFormatDate 1730793600000 "05/11/2026 08:00"
    (sampleRequest [paracetamol]) "uploads/logo.png" sampleRender [paracetamol]
    "No returns.\nKeep the bill." (by rfl) (by rfl) (by rfl)

/-- C18 (as stated) fails: on the scenario's page the calls before the divider at 130 are
not all at a height of at most 100: the store's email line is drawn at 110. -/
theorem header_line_below_100 :
    (heights sampleRender.ops).take 12 = [30, 40, 65, 80, 95, 110, 30, 55, 70, 85, 100, 130] ∧
      ¬ ∀ y ∈ (heights sampleRender.ops).take 11, y ≤ 100 := by
  have h : (heights sampleRender.ops).take 12
      = [30, 40, 65, 80, 95, 110, 30, 55, 70, 85, 100, 130] := by rfl
  have h11 : (heights sampleRender.ops).take 11
      = [30, 40, 65, 80, 95, 110, 30, 55, 70, 85, 100] := by rfl
  refine ⟨h, ?_⟩
  rw [h11]
  decide

/-- C19. On every page that `generateInvoice` returns, the last two calls are the footer
lines, drawn at `y = 780` and `y = 795`; and the request with eleven products, which the
validator accepts, gets a page whose first terms line is drawn at `y = 790`, at or below the
first footer line. -/
theorem footer_overlap (formatDate : JVal → Except JSError String) (nowMs : ℕ)
    (generatedOn : String) (data : JVal) (logoPath : String) (r : Render)
    (h : generateInvoice formatDate nowMs generatedOn data logoPath = .ok r) :
    (∃ before thanks, r.ops = before ++ footerOps thanks generatedOn ∧
        heights (footerOps thanks generatedOn) = [780, 795]) ∧
      validateInvoiceData crowdedRequest = .ok [] ∧
      ∃ page, generateInvoice sampleFormatDate 1730793600000 "05/11/2026 08:00"
          crowdedRequest "uploads/logo.png" = .ok page ∧
        termsLineOp 11 0 "No returns.".data ∈ page.ops ∧
        780 ≤ (termsLineOp 11 0 "No returns.".data).frame.y := by
  refine ⟨?_, by rfl, ?_⟩
  · obtain ⟨doc, ps, st, hd, hdoc, hps, hst, hc⟩ := generateInvoice_parts h
    obtain ⟨s, a, b, c, pm, thanks, hs, hops⟩ := drawClosing_ops hc
    refine ⟨st.doc.ops ++ .line (st.y + 10) ::
        (summaryOps (st.y + 30) (.str a) (.str b) (.str c) pm ++
          .text (.str "Terms and Conditions:") 30 (st.y + 130) 12 (accentOf data) none none ::
            termsOps (st.y + 150) 0 (splitLines s.data)), thanks, ?_, rfl⟩
    rw [hops]
    simp [List.append_assoc]
  · have hret : returns (generateInvoice sampleFormatDate 1730793600000 "05/11/2026 08:00"
        crowdedRequest "uploads/logo.png") = true := by rfl
    obtain ⟨page, hp⟩ := exists_of_returns hret
    refine ⟨page, hp, ?_, by decide⟩
    have hps : field crowdedRequest "products" = .arr (List.replicate 11 paracetamol) := by rfl
    have hs : field crowdedRequest "termsAndConditions"
        = .str "No returns.\nKeep the bill." := by rfl
    obtain ⟨before, thanks, hops⟩ := generateInvoice_tail hp hps hs
    rw [hops]
    apply List.mem_append_right
    apply List.mem_append_left
    have hl : splitLines "No returns.\nKeep the bill.".data
        = ["No returns.".data, "Keep the bill.".data] := by rfl
    rw [hl]
    simp [List.enum, List.enumFrom]

/-- The scenario's page ends with the two footer lines. -/
theorem footer_overlap_witness :
    (∃ before thanks, sampleRender.ops = before ++ footerOps thanks "05/11/2026 08:00" ∧
        heights (footerOps thanks "05/11/2026 08:00") = [780, 795]) ∧
      validateInvoiceData crowdedRequest = .ok [] ∧
      ∃ page, generateInvoice sampleFormatDate 1730793600000 "05/11/2026 08:00"
          crowdedRequest "uploads/logo.png" = .ok page ∧
        termsLineOp 11 0 "No returns.".data ∈ page.ops ∧
        780 ≤ (termsLineOp 11 0 "No returns.".data).frame.y :=
  footer_overlap sampleFormatDate 1730793600000 "05/11/2026 08:00"
    (sampleRequest [paracetamol]) "uploads/logo.png" sampleRender (by rfl)

theorem not_nullish_of_toNumber_fin {p : JVal} {key : String} {d : Dec}
    (h : toNumber (field p key) = .ok (.fin d)) : isNullish p = false := by
  cases p <;> first | rfl | (simp [field, getProp, toNumber] at h)

theorem rows_bounded {ps : List JVal} {rows : List (Dec × Dec × Dec)}
    (hrows : List.Forall₂ ReadsAmounts ps rows)
    (hok : ∀ p ∈ ps, JNum.gt (parsed (field p "price")) (parsed (field p "mrp")) = false) :
    ∀ row ∈ rows, row.1.toRat ≤ row.2.1.toRat := by
  induction hrows with
  | nil => intro row hrow; simp at hrow
  | @cons p row ps1 rows1 hhead _ ih =>
    intro row1 hrow1
    rcases List.mem_cons.1 hrow1 with rfl | hmem
    · have hgt := hok p (by simp)
      obtain ⟨_, ha, _, hb, _⟩ := hhead
      rw [parsed_of_ok ha, parsed_of_ok hb] at hgt
      simp only [JNum.gt] at hgt
      by_contra hc
      rw [not_le] at hc
      rw [(Dec.lt_iff _ _).2 hc] at hgt
      simp at hgt
    · exact ih (fun q hq => hok q (List.mem_cons_of_mem _ hq)) row1 hmem

/-! ## Claims about amounts that are zero -/

theorem Dec.m_eq_zero_of_toRat {d : Dec} (h : d.toRat = 0) : d.m = 0 := by
  by_contra hne
  exact Dec.toRat_ne_zero hne h

theorem truthy_zero {d : Dec} (h : d.toRat = 0) : truthy (.num (.fin d)) = false := by
  simp [truthy, Dec.m_eq_zero_of_toRat h]

/-- C21. When the price (respectively the mrp, the quantity) of the product at 0-based
position `i` is the number 0, every list the validator returns is non-empty and contains
`Product (i+1): Missing price` (respectively `Missing MRP`, `Missing quantity`), whatever the
other fields of the product are; and the validator does return a list when no product makes
it throw. -/
theorem zero_amount_reported (data : JVal) (ps : List JVal) (i : ℕ) (p : JVal)
    (key label : String) (d : Dec)
    (hkey : (key, label) ∈
      [("price", "Missing price"), ("mrp", "Missing MRP"), ("quantity", "Missing quantity")])
    (hps : field data "products" = .arr ps) (hi : ps.get? i = some p)
    (hnum : field p key = .num (.fin d)) (hzero : d.toRat = 0) :
    (∀ errs, validateInvoiceData data = .ok errs →
      errs ≠ [] ∧ "Product " ++ toString (i + 1) ++ ": " ++ label ∈ errs) ∧
    ((∀ q ∈ ps, productThrows q = false) →
      ∃ errs, validateInvoiceData data = .ok errs ∧
        errs ≠ [] ∧ "Product " ++ toString (i + 1) ++ ": " ++ label ∈ errs) := by
  have hfalsy : truthy (field p key) = false := by rw [hnum]; exact truthy_zero hzero
  have hmem : "Product " ++ toString (i + 1) ++ ": " ++ label
      ∈ productSection (field data "products") := by
    rw [hps]
    cases ps with
    | nil => simp at hi
    | cons q rest =>
      simp only [productSection]
      apply productErrors_subset_productsErrors (q :: rest) 0 i p hi
      simp only [List.mem_cons, Prod.mk.injEq, List.mem_singleton, List.not_mem_nil,
        or_false] at hkey
      rcases hkey with ⟨hk, hl⟩ | ⟨hk, hl⟩ | ⟨hk, hl⟩ <;> subst hk <;> subst hl <;>
        simp [productErrors, hfalsy, productPrefix, String.append_assoc]
  have hall : ∀ errs, errs = requiredErrors data required ++ productSection (field data "products") →
      errs ≠ [] ∧ "Product " ++ toString (i + 1) ++ ": " ++ label ∈ errs := by
    intro errs h
    subst h
    have := List.mem_append_right (requiredErrors data required) hmem
    exact ⟨List.ne_nil_of_mem this, this⟩
  constructor
  · intro errs h
    rw [validateInvoiceData_eq] at h
    split at h
    · simp at h
    · simp only [Except.ok.injEq] at h
      exact hall errs h.symm
  · intro hthrow
    have ht : validatorThrows data = false := by
      rw [validatorThrows_products hps]
      simpa using hthrow
    exact ⟨_, by rw [validateInvoiceData_eq, ht]; rfl, hall _ rfl⟩

/-- A remedy of price 0 and mrp 50 in second position is reported as
`Product 2: Missing price`, although its price is below its mrp. -/
theorem zero_amount_reported_witness :
    (∀ errs, validateInvoiceData (sampleRequest [paracetamol, .obj [("name", .str "Sample"),
        ("quantity", intVal 1), ("mrp", intVal 50), ("price", intVal 0)]]) = .ok errs →
      errs ≠ [] ∧ "Product " ++ toString (1 + 1) ++ ": " ++ "Missing price" ∈ errs) ∧
    ((∀ q ∈ [paracetamol, .obj [("name", .str "Sample"),
        ("quantity", intVal 1), ("mrp", intVal 50), ("price", intVal 0)]],
        productThrows q = false) →
      ∃ errs, validateInvoiceData (sampleRequest [paracetamol, .obj [("name", .str "Sample"),
        ("quantity", intVal 1), ("mrp", intVal 50), ("price", intVal 0)]]) = .ok errs ∧
        errs ≠ [] ∧ "Product " ++ toString (1 + 1) ++ ": " ++ "Missing price" ∈ errs) :=
  zero_amount_reported
    (sampleRequest [paracetamol, .obj [("name", .str "Sample"),
        ("quantity", intVal 1), ("mrp", intVal 50), ("price", intVal 0)]])
    [paracetamol, .obj [("name", .str "Sample"),
        ("quantity", intVal 1), ("mrp", intVal 50), ("price", intVal 0)]] 1
    (.obj [("name", .str "Sample"),
        ("quantity", intVal 1), ("mrp", intVal 50), ("price", intVal 0)])
    "price" "Missing price" (Dec.ofInt 0)
    (by simp) (by rfl) (by rfl) (by rfl) (by simp [Dec.toRat, Dec.ofInt])

/-! ## The browser-side check on accepted products -/

theorem JNum.le_of_not_gt {a b : JNum} (h : JNum.gt a b = false) :
    JNum.le a b = (!a.isNaN && !b.isNaN) := by
  cases a <;> cases b <;> simp_all [JNum.le, JNum.isNaN]

theorem validateFormProduct_eq {q : JVal}
    (hname : truthy (field q "name") = true) (hquantity : truthy (field q "quantity") = true)
    (hmrp : truthy (field q "mrp") = true) (hprice : truthy (field q "price") = true)
    (hthrow : productThrows q = false) :
    validateFormProduct q =
      .ok (JNum.le (parsed (field q "price")) (parsed (field q "mrp"))) := by
  have hq : isNullish q = false := not_nullish_of_truthy (truthy_of_field_truthy hname)
  simp only [productThrows, hq, Bool.false_or, Bool.or_eq_false_iff] at hthrow
  simp [validateFormProduct, getProp_of_not_nullish hq, ok_bind, hname, hquantity, hmrp,
    hprice, parseFloat_eq, hthrow.1, hthrow.2]

theorem every_validateFormProduct :
    ∀ ps : List JVal,
      (∀ q ∈ ps, truthy (field q "name") = true ∧ truthy (field q "quantity") = true ∧
        truthy (field q "mrp") = true ∧ truthy (field q "price") = true ∧
        JNum.gt (parsed (field q "price")) (parsed (field q "mrp")) = false) →
      (∀ q ∈ ps, productThrows q = false) →
      every validateFormProduct ps = .ok (ps.all readsAsNumbers) := by
  intro ps
  induction ps with
  | nil => intro _ _; rfl
  | cons p rest ih =>
    intro h hthrow
    obtain ⟨a, b, c, d, e⟩ := h p (List.mem_cons_self _ _)
    have hrest := ih (fun q hq => h q (List.mem_cons_of_mem _ hq))
      (fun q hq => hthrow q (List.mem_cons_of_mem _ hq))
    simp only [every, validateFormProduct_eq a b c d (hthrow p (List.mem_cons_self _ _)),
      ok_bind, JNum.le_of_not_gt e, hrest, List.all_cons, readsAsNumbers]
    cases (!(parsed (field p "price")).isNaN && !(parsed (field p "mrp")).isNaN) <;> simp

/-! ## Rounding to a double: order and error -/

theorem two_zpow (e : ℤ) : (2 : ℚ) ^ e = (2 : ℚ) ^ e.toNat / (2 : ℚ) ^ (-e).toNat := by
  rcases le_total 0 e with h | h
  · have h1 : (-e).toNat = 0 := by omega
    have h2 : (e.toNat : ℤ) = e := Int.toNat_of_nonneg h
    rw [h1, pow_zero, div_one, ← zpow_natCast, h2]
  · have h1 : e.toNat = 0 := by omega
    have h2 : ((-e).toNat : ℤ) = -e := Int.toNat_of_nonneg (by omega)
    have h3 : e = -((-e).toNat : ℤ) := by omega
    rw [h1, pow_zero, one_div, ← zpow_natCast, ← zpow_neg, h2, neg_neg]

theorem shift_ratio (a b : ℕ) (hb : 0 < b) (e : ℤ) :
    ((a <<< (-e).toNat : ℕ) : ℚ) / ((b <<< e.toNat : ℕ) : ℚ) = (a : ℚ) / b / (2 : ℚ) ^ e := by
  have hb' : (b : ℚ) ≠ 0 := by exact_mod_cast hb.ne'
  rw [two_zpow, Nat.shiftLeft_eq, Nat.shiftLeft_eq]
  push_cast
  field_simp

theorem fitsExponent_spec {a b : ℕ} (hb : 0 < b) {e : ℤ} (h : fitsExponent a b e = true) :
    (2 : ℚ) ^ e ≤ (a : ℚ) / b ∧ (a : ℚ) / b < (2 : ℚ) ^ (e + 1) := by
  simp only [fitsExponent, decide_eq_true_eq] at h
  obtain ⟨h1, h2⟩ := h
  have hbq : (0 : ℚ) < b := by exact_mod_cast hb
  have hL : (0 : ℚ) < ((b <<< e.toNat : ℕ) : ℚ) := by
    rw [Nat.shiftLeft_eq]; push_cast; positivity
  have h1q : ((b <<< e.toNat : ℕ) : ℚ) ≤ ((a <<< (-e).toNat : ℕ) : ℚ) := by exact_mod_cast h1
  have h2q : ((a <<< (-e).toNat : ℕ) : ℚ) < 2 * ((b <<< e.toNat : ℕ) : ℚ) := by exact_mod_cast h2
  have hr := shift_ratio a b hb e
  have hpos : (0 : ℚ) < (2 : ℚ) ^ e := by positivity
  have k1 : (1 : ℚ) ≤ (a : ℚ) / b / (2 : ℚ) ^ e := by
    rw [← hr, le_div_iff₀ hL]; linarith
  have k2 : (a : ℚ) / b / (2 : ℚ) ^ e < 2 := by
    rw [← hr, div_lt_iff₀ hL]; linarith
  constructor
  · rw [le_div_iff₀ hpos] at k1; linarith
  · rw [div_lt_iff₀ hpos] at k2
    rw [zpow_add_one₀ (by norm_num)]; linarith


theorem log2_bounds {n : ℕ} (hn : 0 < n) :
    (2 : ℚ) ^ (Nat.log2 n : ℤ) ≤ n ∧ (n : ℚ) < (2 : ℚ) ^ ((Nat.log2 n : ℤ) + 1) := by
  constructor
  · rw [zpow_natCast]
    exact_mod_cast Nat.log2_self_le hn.ne'
  · have h : n < 2 ^ (Nat.log2 n + 1) := Nat.lt_log2_self
    have e : ((Nat.log2 n : ℤ) + 1) = ((Nat.log2 n + 1 : ℕ) : ℤ) := by push_cast; rfl
    rw [e, zpow_natCast]
    exact_mod_cast h

theorem log2Floor_spec {a b : ℕ} (ha : 0 < a) (hb : 0 < b) :
    (2 : ℚ) ^ log2Floor a b ≤ (a : ℚ) / b ∧ (a : ℚ) / b < (2 : ℚ) ^ (log2Floor a b + 1) := by
  unfold log2Floor
  simp only
  split
  · rename_i h; exact fitsExponent_spec hb h
  · split
    · rename_i h; exact fitsExponent_spec hb h
    · have haq : (0 : ℚ) < a := by exact_mod_cast ha
      have hbq : (0 : ℚ) < b := by exact_mod_cast hb
      obtain ⟨a1, a2⟩ := log2_bounds ha
      obtain ⟨b1, b2⟩ := log2_bounds hb
      have hL : (0 : ℚ) <
          (((b <<< ((Nat.log2 a : ℤ) - (Nat.log2 b : ℤ)).toNat : ℕ)) : ℚ) := by
        rw [Nat.shiftLeft_eq]; push_cast; positivity
      have hr := shift_ratio a b hb ((Nat.log2 a : ℤ) - (Nat.log2 b : ℤ))
      have hpos : (0 : ℚ) < (2 : ℚ) ^ ((Nat.log2 a : ℤ) - (Nat.log2 b : ℤ)) := by positivity
      have hpa : (0 : ℚ) < (2 : ℚ) ^ (Nat.log2 a : ℤ) := by positivity
      have hpb : (0 : ℚ) < (2 : ℚ) ^ (Nat.log2 b : ℤ) := by positivity
      have e1 : (2 : ℚ) ^ ((Nat.log2 a : ℤ) - (Nat.log2 b : ℤ))
          = (2 : ℚ) ^ (Nat.log2 a : ℤ) / (2 : ℚ) ^ (Nat.log2 b : ℤ) :=
        zpow_sub₀ (by norm_num) _ _
      have a2' : (a : ℚ) < 2 * (2 : ℚ) ^ (Nat.log2 a : ℤ) := by
        rw [zpow_add_one₀ (by norm_num)] at a2; linarith
      have b2' : (b : ℚ) < 2 * (2 : ℚ) ^ (Nat.log2 b : ℤ) := by
        rw [zpow_add_one₀ (by norm_num)] at b2; linarith
      split
      · rename_i hT
        have hTq : (((b <<< ((Nat.log2 a : ℤ) - (Nat.log2 b : ℤ)).toNat : ℕ)) : ℚ)
            ≤ (((a <<< (-((Nat.log2 a : ℤ) - (Nat.log2 b : ℤ))).toNat : ℕ)) : ℚ) := by
          exact_mod_cast hT
        have k1 : (1 : ℚ) ≤ (a : ℚ) / b / (2 : ℚ) ^ ((Nat.log2 a : ℤ) - (Nat.log2 b : ℤ)) := by
          rw [← hr, le_div_iff₀ hL]; linarith
        constructor
        · rw [le_div_iff₀ hpos] at k1; linarith
        · rw [zpow_add_one₀ (by norm_num), e1, div_lt_iff₀ hbq, div_mul_eq_mul_div,
            div_mul_eq_mul_div, lt_div_iff₀ hpb]
          nlinarith
      · rename_i hT
        have hTq : (((a <<< (-((Nat.log2 a : ℤ) - (Nat.log2 b : ℤ))).toNat : ℕ)) : ℚ)
            < (((b <<< ((Nat.log2 a : ℤ) - (Nat.log2 b : ℤ)).toNat : ℕ)) : ℚ) := by
          exact_mod_cast not_le.1 hT
        have k1 : (a : ℚ) / b / (2 : ℚ) ^ ((Nat.log2 a : ℤ) - (Nat.log2 b : ℤ)) < 1 := by
          rw [← hr, div_lt_iff₀ hL]; linarith
        rw [div_lt_iff₀ hpos] at k1
        constructor
        · rw [zpow_sub_one₀ (by norm_num), e1, le_div_iff₀ hbq]
          rw [div_mul_eq_mul_div, div_mul_eq_mul_div, div_le_iff₀ (by positivity)]
          have := mul_le_mul a1 b2'.le hbq.le haq.le
          linarith
        · rw [sub_add_cancel]; linarith


theorem roundHalfEven_nearest (num den : ℕ) (hden : 0 < den) :
    IsNearest ((num : ℚ) / den) (roundHalfEven num den) := by
  have hd : (0 : ℚ) < den := by exact_mod_cast hden
  have hnum : (num : ℚ) = (den : ℚ) * ((num / den : ℕ) : ℚ) + ((num % den : ℕ) : ℚ) := by
    exact_mod_cast (Nat.div_add_mod num den).symm
  have hr : ((num % den : ℕ) : ℚ) < den := by exact_mod_cast Nat.mod_lt num hden
  have hr0 : (0 : ℚ) ≤ ((num % den : ℕ) : ℚ) := by positivity
  have hy : (num : ℚ) / den = ((num / den : ℕ) : ℚ) + ((num % den : ℕ) : ℚ) / den := by
    rw [hnum]; field_simp; ring
  unfold roundHalfEven IsNearest
  simp only
  rw [hy]
  split
  · rename_i h
    have hq : 2 * ((num % den : ℕ) : ℚ) < den := by exact_mod_cast h
    have e : ((num / den : ℕ) : ℚ) - (((num / den : ℕ) : ℚ) + ((num % den : ℕ) : ℚ) / den)
        = -(((num % den : ℕ) : ℚ) / den) := by ring
    have hlt : ((num % den : ℕ) : ℚ) / den < 1 / 2 := by
      rw [div_lt_iff₀ hd]; linarith
    have hge : 0 ≤ ((num % den : ℕ) : ℚ) / den := by positivity
    rw [e, abs_neg, abs_of_nonneg hge]
    exact ⟨hlt.le, fun h => absurd h hlt.ne⟩
  · split
    · rename_i _ h
      have hq : (den : ℚ) < 2 * ((num % den : ℕ) : ℚ) := by exact_mod_cast h
      have e : (((num / den + 1 : ℕ)) : ℚ)
          - (((num / den : ℕ) : ℚ) + ((num % den : ℕ) : ℚ) / den)
          = 1 - ((num % den : ℕ) : ℚ) / den := by push_cast; ring
      have hgt : 1 / 2 < ((num % den : ℕ) : ℚ) / den := by
        rw [lt_div_iff₀ hd]; linarith
      have hle : ((num % den : ℕ) : ℚ) / den < 1 := by
        rw [div_lt_iff₀ hd]; linarith
      rw [e, abs_of_nonneg (by linarith)]
      exact ⟨by linarith, fun h => absurd h (by linarith)⟩
    · rename_i h1 h2
      have heq : 2 * (num % den) = den := by omega
      have hq : 2 * ((num % den : ℕ) : ℚ) = den := by exact_mod_cast heq
      have hhalf : ((num % den : ℕ) : ℚ) / den = 1 / 2 := by
        rw [div_eq_iff hd.ne']; linarith
      split
      · rename_i hev
        have e : ((num / den : ℕ) : ℚ) - (((num / den : ℕ) : ℚ) + ((num % den : ℕ) : ℚ) / den)
            = -(1 / 2) := by rw [hhalf]; ring
        rw [e, abs_neg, abs_of_nonneg (by norm_num)]
        exact ⟨le_refl _, fun _ => Nat.even_iff.2 hev⟩
      · rename_i hodd
        have e : (((num / den + 1 : ℕ)) : ℚ)
            - (((num / den : ℕ) : ℚ) + ((num % den : ℕ) : ℚ) / den) = 1 / 2 := by
          rw [hhalf]; push_cast; ring
        rw [e, abs_of_nonneg (by norm_num)]
        refine ⟨le_refl _, fun _ => ?_⟩
        rw [Nat.even_iff]; omega

theorem IsNearest.mono {y1 y2 : ℚ} {n1 n2 : ℕ} (h1 : IsNearest y1 n1) (h2 : IsNearest y2 n2)
    (hy : y1 ≤ y2) : n1 ≤ n2 := by
  by_contra hc
  have hlt : n2 + 1 ≤ n1 := by omega
  have hq : (n2 : ℚ) + 1 ≤ n1 := by exact_mod_cast hlt
  obtain ⟨a1, t1⟩ := h1
  obtain ⟨a2, t2⟩ := h2
  have b1 := abs_le.1 a1
  have b2 := abs_le.1 a2
  have e1 : (n1 : ℚ) - y1 = 1 / 2 := by linarith
  have e2 : (n2 : ℚ) - y2 = -(1 / 2) := by linarith
  have ev1 : Even n1 := t1 (by rw [e1]; norm_num)
  have ev2 : Even n2 := t2 (by rw [e2]; norm_num)
  have hn : (n1 : ℚ) = n2 + 1 := by linarith
  have hn' : n1 = n2 + 1 := by exact_mod_cast hn
  rw [Nat.even_iff] at ev1 ev2
  omega

theorem IsNearest.of_int {k n : ℕ} (h : IsNearest (k : ℚ) n) : n = k := by
  obtain ⟨a1, _⟩ := h
  have b := abs_le.1 a1
  have h1 : (n : ℚ) < k + 1 := by linarith
  have h2 : (k : ℚ) < n + 1 := by linarith
  have h1' : n < k + 1 := by exact_mod_cast h1
  have h2' : k < n + 1 := by exact_mod_cast h2
  omega

theorem IsNearest.le_of_le {y : ℚ} {n k : ℕ} (h : IsNearest y n) (hy : y ≤ k) : n ≤ k := by
  have b := abs_le.1 h.1
  have h1 : (n : ℚ) < k + 1 := by linarith
  have h1' : n < k + 1 := by exact_mod_cast h1
  omega

theorem IsNearest.ge_of_ge {y : ℚ} {n k : ℕ} (h : IsNearest y n) (hy : (k : ℚ) ≤ y) :
    k ≤ n := by
  have b := abs_le.1 h.1
  have h1 : (k : ℚ) < n + 1 := by linarith
  have h1' : k < n + 1 := by exact_mod_cast h1
  omega


theorem Dec.absRat_eq (d : Dec) : d.absRat = |d.toRat| := by
  simp only [Dec.absRat, Dec.toRat, abs_div, Nat.cast_pow, Nat.cast_ofNat]
  rw [abs_of_pos (by positivity : (0 : ℚ) < 10 ^ d.s), Nat.cast_natAbs, Int.cast_abs]

theorem Dec.absRat_pos {d : Dec} (h : d.m ≠ 0) : 0 < d.absRat := by
  have : 0 < d.m.natAbs := Int.natAbs_pos.2 h
  have hq : (0 : ℚ) < d.m.natAbs := by exact_mod_cast this
  unfold Dec.absRat
  positivity

theorem Dec.normalize_toRat (s : ℕ) : ∀ m : ℤ, (Dec.normalize m s).toRat = (m : ℚ) / 10 ^ s := by
  induction s with
  | zero => intro m; simp [Dec.normalize, Dec.toRat]
  | succ s ih =>
    intro m
    simp only [Dec.normalize]
    split
    · rename_i h
      rw [ih]
      have hm : m = 10 * (m / 10) := by omega
      have hq : (m : ℚ) = 10 * ((m / 10 : ℤ) : ℚ) := by exact_mod_cast hm
      rw [hq, pow_succ]
      field_simp
      ring
    · simp [Dec.toRat]

theorem mantissaOf_nearest (d : Dec) :
    IsNearest (d.absRat / (2 : ℚ) ^ placeOf d) (mantissaOf d) := by
  have hb : 0 < 10 ^ d.s := by positivity
  have h := roundHalfEven_nearest (d.m.natAbs <<< (-placeOf d).toNat)
    ((10 ^ d.s) <<< (placeOf d).toNat) (by rw [Nat.shiftLeft_eq]; positivity)
  rw [shift_ratio _ _ hb] at h
  exact h

theorem placeOf_bounds {d : Dec} (h : d.m ≠ 0) :
    -1074 ≤ placeOf d ∧ d.absRat < (2 : ℚ) ^ (placeOf d + 53) ∧
      (-1074 < placeOf d → (2 : ℚ) ^ (placeOf d + 52) ≤ d.absRat) := by
  have ha : 0 < d.m.natAbs := Int.natAbs_pos.2 h
  have hb : 0 < 10 ^ d.s := by positivity
  obtain ⟨h1, h2⟩ := log2Floor_spec ha hb
  have hp : placeOf d = max (log2Floor d.m.natAbs (10 ^ d.s) - 52) (-1074) := rfl
  refine ⟨by rw [hp]; exact le_max_right _ _, ?_, ?_⟩
  · have : log2Floor d.m.natAbs (10 ^ d.s) + 1 ≤ placeOf d + 53 := by
      have := le_max_left (log2Floor d.m.natAbs (10 ^ d.s) - 52) (-1074)
      rw [hp]; omega
    exact lt_of_lt_of_le h2 (zpow_le_zpow_right₀ (by norm_num) this)
  · intro hgt
    have : placeOf d = log2Floor d.m.natAbs (10 ^ d.s) - 52 := by
      rw [hp] at hgt ⊢
      rcases max_cases (log2Floor d.m.natAbs (10 ^ d.s) - 52) (-1074) with ⟨e, _⟩ | ⟨e, _⟩
      · exact e
      · rw [e] at hgt; omega
    have e : placeOf d + 52 = log2Floor d.m.natAbs (10 ^ d.s) := by omega
    rw [e]
    exact h1

theorem nearestAbs_mono {d1 d2 : Dec} (h1 : d1.m ≠ 0) (h2 : d2.m ≠ 0)
    (h : d1.absRat ≤ d2.absRat) : nearestAbs d1 ≤ nearestAbs d2 := by
  obtain ⟨l1, u1, g1⟩ := placeOf_bounds h1
  obtain ⟨l2, u2, g2⟩ := placeOf_bounds h2
  have n1 := mantissaOf_nearest d1
  have n2 := mantissaOf_nearest d2
  have hp1 : (0 : ℚ) < (2 : ℚ) ^ placeOf d1 := by positivity
  have hp2 : (0 : ℚ) < (2 : ℚ) ^ placeOf d2 := by positivity
  unfold nearestAbs
  rcases lt_trichotomy (placeOf d1) (placeOf d2) with hlt | heq | hgt
  · -- the mantissa of d1 is at most 2^53, that of d2 at least 2^52
    have hy1 : d1.absRat / (2 : ℚ) ^ placeOf d1 ≤ ((2 ^ 53 : ℕ) : ℚ) := by
      rw [div_le_iff₀ hp1]
      have : (2 : ℚ) ^ (placeOf d1 + 53) = ((2 ^ 53 : ℕ) : ℚ) * (2 : ℚ) ^ placeOf d1 := by
        rw [zpow_add₀ (by norm_num)]; push_cast; ring
      linarith
    have hy2 : ((2 ^ 52 : ℕ) : ℚ) ≤ d2.absRat / (2 : ℚ) ^ placeOf d2 := by
      rw [le_div_iff₀ hp2]
      have : (2 : ℚ) ^ (placeOf d2 + 52) = ((2 ^ 52 : ℕ) : ℚ) * (2 : ℚ) ^ placeOf d2 := by
        rw [zpow_add₀ (by norm_num)]; push_cast; ring
      have := g2 (by omega)
      linarith
    have m1 : (mantissaOf d1 : ℚ) ≤ ((2 ^ 53 : ℕ) : ℚ) := by
      exact_mod_cast n1.le_of_le hy1
    have m2 : ((2 ^ 52 : ℕ) : ℚ) ≤ (mantissaOf d2 : ℚ) := by
      exact_mod_cast n2.ge_of_ge hy2
    have hstep : (2 : ℚ) ^ (placeOf d1 + 1) ≤ (2 : ℚ) ^ placeOf d2 :=
      zpow_le_zpow_right₀ (by norm_num) (by omega)
    rw [zpow_add_one₀ (by norm_num)] at hstep
    calc (mantissaOf d1 : ℚ) * (2 : ℚ) ^ placeOf d1
        ≤ ((2 ^ 53 : ℕ) : ℚ) * (2 : ℚ) ^ placeOf d1 :=
          mul_le_mul_of_nonneg_right m1 hp1.le
      _ = ((2 ^ 52 : ℕ) : ℚ) * ((2 : ℚ) ^ placeOf d1 * 2) := by push_cast; ring
      _ ≤ ((2 ^ 52 : ℕ) : ℚ) * (2 : ℚ) ^ placeOf d2 :=
          mul_le_mul_of_nonneg_left hstep (by positivity)
      _ ≤ (mantissaOf d2 : ℚ) * (2 : ℚ) ^ placeOf d2 :=
          mul_le_mul_of_nonneg_right m2 hp2.le
  · rw [heq] at n1 ⊢
    have hy : d1.absRat / (2 : ℚ) ^ placeOf d2 ≤ d2.absRat / (2 : ℚ) ^ placeOf d2 :=
      div_le_div_of_nonneg_right h hp2.le
    have : (mantissaOf d1 : ℚ) ≤ (mantissaOf d2 : ℚ) := by exact_mod_cast n1.mono n2 hy
    exact mul_le_mul_of_nonneg_right this hp2.le
  · -- impossible: the larger number has the larger binary exponent
    exfalso
    have := g1 (by omega)
    have hstep : (2 : ℚ) ^ (placeOf d2 + 53) ≤ (2 : ℚ) ^ (placeOf d1 + 52) :=
      zpow_le_zpow_right₀ (by norm_num) (by omega)
    linarith


theorem Dec.toRat_zero : (⟨0, 0⟩ : Dec).toRat = 0 := by simp [Dec.toRat]

theorem numberValue_zero {d : Dec} (h : d.m = 0) : numberValue d = .fin ⟨0, 0⟩ := by
  simp [numberValue, h]

theorem numberValue_fin {d v : Dec} (h : d.m ≠ 0) (hv : numberValue d = .fin v) :
    v.toRat = (Int.sign d.m : ℚ) * nearestAbs d := by
  simp only [numberValue, h, if_false] at hv
  split at hv
  · split at hv <;> simp at hv
  · simp only [JNum.fin.injEq] at hv
    rw [← hv, Dec.normalize_toRat, nearestAbs, two_zpow (placeOf d), Nat.shiftLeft_eq]
    have h10 : (10 : ℚ) ^ (-placeOf d).toNat
        = (2 : ℚ) ^ (-placeOf d).toNat * (5 : ℚ) ^ (-placeOf d).toNat := by
      rw [← mul_pow]; norm_num
    rcases le_total 0 (placeOf d) with hp | hp
    · have h1 : (-placeOf d).toNat = 0 := by omega
      rw [h1]
      push_cast
      simp
    · have h1 : (placeOf d).toNat = 0 := by omega
      rw [h10, h1]
      push_cast
      field_simp
      ring

theorem nearestAbs_nonneg (d : Dec) : 0 ≤ nearestAbs d := by
  unfold nearestAbs; positivity

theorem Dec.toRat_eq_sign_mul (d : Dec) : d.toRat = (Int.sign d.m : ℚ) * d.absRat := by
  rw [Dec.absRat, Dec.toRat]
  have hab : (d.m.natAbs : ℚ) = |(d.m : ℚ)| := by rw [Nat.cast_natAbs, Int.cast_abs]
  have : (d.m : ℚ) = (Int.sign d.m : ℚ) * (d.m.natAbs : ℚ) := by
    rw [hab]
    rcases lt_trichotomy d.m 0 with hn | hz | hp
    · rw [Int.sign_eq_neg_one_of_neg hn, abs_of_neg (by exact_mod_cast hn)]
      push_cast; ring
    · rw [hz]; simp
    · rw [Int.sign_eq_one_of_pos hp, abs_of_pos (by exact_mod_cast hp)]
      push_cast; ring
  push_cast
  rw [mul_div_assoc', ← this]

theorem Dec.m_pos_iff (d : Dec) : 0 < d.m ↔ 0 < d.toRat := by
  have hp : (0 : ℚ) < 10 ^ d.s := by positivity
  rw [Dec.toRat, div_pos_iff_of_pos_right hp]
  exact Int.cast_pos.symm

theorem Dec.m_neg_iff (d : Dec) : d.m < 0 ↔ d.toRat < 0 := by
  have hp : (0 : ℚ) < 10 ^ d.s := by positivity
  rw [Dec.toRat, div_neg_iff]
  constructor
  · intro h; exact Or.inr ⟨by exact_mod_cast h, hp⟩
  · rintro (⟨_, h⟩ | ⟨h, _⟩)
    · linarith
    · exact_mod_cast h

/-- Rounding to a double keeps the order: when both results are finite, the nearest double
of the smaller decimal is at most that of the larger one. -/
theorem numberValue_mono {d1 d2 v1 v2 : Dec} (h : d1.toRat ≤ d2.toRat)
    (h1 : numberValue d1 = .fin v1) (h2 : numberValue d2 = .fin v2) :
    v1.toRat ≤ v2.toRat := by
  rcases lt_trichotomy d1.m 0 with n1 | z1 | p1
  · have hv1 := numberValue_fin n1.ne h1
    rw [Int.sign_eq_neg_one_of_neg n1] at hv1
    rcases lt_trichotomy d2.m 0 with n2 | z2 | p2
    · have hv2 := numberValue_fin n2.ne h2
      rw [Int.sign_eq_neg_one_of_neg n2] at hv2
      have e1 := Dec.toRat_eq_sign_mul d1
      have e2 := Dec.toRat_eq_sign_mul d2
      rw [Int.sign_eq_neg_one_of_neg n1] at e1
      rw [Int.sign_eq_neg_one_of_neg n2] at e2
      have : d2.absRat ≤ d1.absRat := by
        push_cast at e1 e2; linarith
      have := nearestAbs_mono n2.ne n1.ne this
      push_cast at hv1 hv2
      linarith
    · rw [numberValue_zero z2] at h2
      simp only [JNum.fin.injEq] at h2
      rw [← h2, Dec.toRat_zero]
      have := nearestAbs_nonneg d1
      push_cast at hv1
      linarith
    · have hv2 := numberValue_fin p2.ne' h2
      rw [Int.sign_eq_one_of_pos p2] at hv2
      have := nearestAbs_nonneg d1
      have := nearestAbs_nonneg d2
      push_cast at hv1 hv2
      linarith
  · rw [numberValue_zero z1] at h1
    simp only [JNum.fin.injEq] at h1
    rw [← h1, Dec.toRat_zero]
    have hd1 : d1.toRat = 0 := by simp [Dec.toRat, z1]
    rw [hd1] at h
    rcases eq_or_lt_of_le h with he | hl
    · have : d2.m = 0 := by
        by_contra hne
        rcases lt_or_gt_of_ne hne with hn | hp
        · have := (Dec.m_neg_iff d2).1 hn; linarith
        · have := (Dec.m_pos_iff d2).1 hp; linarith
      rw [numberValue_zero this] at h2
      simp only [JNum.fin.injEq] at h2
      rw [← h2, Dec.toRat_zero]
    · have p2 := (Dec.m_pos_iff d2).2 hl
      have hv2 := numberValue_fin p2.ne' h2
      rw [Int.sign_eq_one_of_pos p2] at hv2
      have := nearestAbs_nonneg d2
      push_cast at hv2
      linarith
  · have hv1 := numberValue_fin p1.ne' h1
    rw [Int.sign_eq_one_of_pos p1] at hv1
    have hd1 := (Dec.m_pos_iff d1).1 p1
    have p2 : 0 < d2.m := (Dec.m_pos_iff d2).2 (lt_of_lt_of_le hd1 h)
    have hv2 := numberValue_fin p2.ne' h2
    rw [Int.sign_eq_one_of_pos p2] at hv2
    have e1 := Dec.toRat_eq_sign_mul d1
    have e2 := Dec.toRat_eq_sign_mul d2
    rw [Int.sign_eq_one_of_pos p1] at e1
    rw [Int.sign_eq_one_of_pos p2] at e2
    have : d1.absRat ≤ d2.absRat := by
      push_cast at e1 e2; linarith
    have := nearestAbs_mono p1.ne' p2.ne' this
    push_cast at hv1 hv2
    linarith

/-- The distance from a decimal to its nearest double is at most half a unit of the last
place. -/
theorem numberValue_error {d v : Dec} (h : d.m ≠ 0) (hv : numberValue d = .fin v) :
    |v.toRat - d.toRat| ≤ (2 : ℚ) ^ placeOf d / 2 := by
  rw [numberValue_fin h hv, Dec.toRat_eq_sign_mul d, ← mul_sub, abs_mul]
  have hs : |((Int.sign d.m : ℤ) : ℚ)| = 1 := by
    rcases lt_or_gt_of_ne h with hn | hp
    · rw [Int.sign_eq_neg_one_of_neg hn]; norm_num
    · rw [Int.sign_eq_one_of_pos hp]; norm_num
  rw [hs, one_mul]
  have hp : (0 : ℚ) < (2 : ℚ) ^ placeOf d := by positivity
  have hn := (mantissaOf_nearest d).1
  have e : nearestAbs d - d.absRat
      = ((mantissaOf d : ℚ) - d.absRat / (2 : ℚ) ^ placeOf d) * (2 : ℚ) ^ placeOf d := by
    unfold nearestAbs; field_simp
  rw [e, abs_mul, abs_of_pos hp]
  calc |(mantissaOf d : ℚ) - d.absRat / (2 : ℚ) ^ placeOf d| * (2 : ℚ) ^ placeOf d
      ≤ 1 / 2 * (2 : ℚ) ^ placeOf d := mul_le_mul_of_nonneg_right hn hp.le
    _ = (2 : ℚ) ^ placeOf d / 2 := by ring

/-! ## Claims about the currency format, with rounding -/

theorem placeOf_le_of_lt {d : Dec} (h : d.m ≠ 0) {t : ℤ} (ht : -1074 ≤ t - 53)
    (hlt : d.absRat < (2 : ℚ) ^ t) : placeOf d ≤ t - 53 := by
  obtain ⟨_, _, g⟩ := placeOf_bounds h
  by_contra hc
  rw [not_le] at hc
  have h1 := g (by omega)
  have h2 : (2 : ℚ) ^ t ≤ (2 : ℚ) ^ (placeOf d + 52) :=
    zpow_le_zpow_right₀ (by norm_num) (by omega)
  linarith

theorem numberValue_fin_of_small {d : Dec} (h : d.m ≠ 0) (hp : placeOf d < 971) :
    ∃ v, numberValue d = .fin v := by
  simp only [numberValue, h, if_false]
  rw [if_neg (by omega)]
  exact ⟨_, rfl⟩

/-- The text of `toFixed(2)` for a number that lies less than half a cent from `k / 100`
and has the sign of `k`. -/
theorem toFixed2_near (v : Dec) (k : ℤ) (hnear : |v.toRat - (k : ℚ) / 100| < 1 / 200)
    (hsign : v.m < 0 ↔ k < 0) (hlt : k.natAbs < 10 ^ 23) :
    toFixed2 (.fin v) = twoPlaces k := by
  have hT : (0 : ℚ) < (10 : ℚ) ^ v.s := by positivity
  have hTn : 0 < 10 ^ v.s := by positivity
  -- the absolute values
  have habs : |(v.m.natAbs : ℚ) / (10 : ℚ) ^ v.s - (k.natAbs : ℚ) / 100| < 1 / 200 := by
    have e1 : (v.m.natAbs : ℚ) / (10 : ℚ) ^ v.s = |v.toRat| := by
      rw [Dec.toRat, abs_div, abs_of_pos hT, Nat.cast_natAbs, Int.cast_abs]
    have e2 : (k.natAbs : ℚ) / 100 = |(k : ℚ) / 100| := by
      rw [abs_div, Nat.cast_natAbs, Int.cast_abs]; norm_num
    rw [e1, e2]
    exact lt_of_le_of_lt (abs_abs_sub_abs_le_abs_sub _ _) hnear
  obtain ⟨l1, l2⟩ := abs_lt.1 habs
  have hA : (v.m.natAbs : ℚ) = (v.m.natAbs : ℚ) / (10 : ℚ) ^ v.s * (10 : ℚ) ^ v.s := by
    field_simp
  have q1 : (k.natAbs : ℚ) * (2 * (10 : ℚ) ^ v.s)
      ≤ 2 * 100 * (v.m.natAbs : ℚ) + (10 : ℚ) ^ v.s := by
    rw [hA]; nlinarith
  have q2 : 2 * 100 * (v.m.natAbs : ℚ) + (10 : ℚ) ^ v.s
      < ((k.natAbs : ℚ) + 1) * (2 * (10 : ℚ) ^ v.s) := by
    rw [hA]; nlinarith
  have q3 : (v.m.natAbs : ℚ) < (10 : ℚ) ^ 21 * (10 : ℚ) ^ v.s := by
    have hk : (k.natAbs : ℚ) + 1 ≤ 10 ^ 23 := by
      have : k.natAbs + 1 ≤ 10 ^ 23 := by omega
      exact_mod_cast this
    rw [hA]
    apply mul_lt_mul_of_pos_right _ hT
    linarith
  have n1 : k.natAbs * (2 * 10 ^ v.s) ≤ 2 * 100 * v.m.natAbs + 10 ^ v.s := by
    exact_mod_cast q1
  have n2 : 2 * 100 * v.m.natAbs + 10 ^ v.s < (k.natAbs + 1) * (2 * 10 ^ v.s) := by
    exact_mod_cast q2
  have n3 : ¬ 10 ^ 21 * 10 ^ v.s ≤ v.m.natAbs := by
    have : v.m.natAbs < 10 ^ 21 * 10 ^ v.s := by exact_mod_cast q3
    omega
  have hn : (2 * 100 * v.m.natAbs + 10 ^ v.s) / (2 * 10 ^ v.s) = k.natAbs :=
    Nat.div_eq_of_lt_le n1 n2
  simp only [toFixed2, n3, if_false, hn, twoPlaces]
  have hfd := fixed_digits k.natAbs
  simp only at hfd
  rw [hfd]
  by_cases hneg : k < 0
  · simp [hsign.2 hneg, hneg]
  · have : ¬ v.m < 0 := fun h => hneg (hsign.1 h)
    simp [this, hneg]

/-- C10 (as the code has it). For every amount `k / 100` with at most two decimal places and
an absolute value below `2 ^ 46`, given as the number nearest to it or as a string that
`parseFloat` reads as that number, `formatCurrency` returns the currency prefix of the
source followed by the amount written with exactly two digits after the decimal point. -/
theorem formatCurrency_two_places (amount : JVal) (k : ℤ)
    (hamt : parseFloat amount = .ok (numberValue ⟨k, 2⟩)) (hlt : k.natAbs < 100 * 2 ^ 46) :
    formatCurrency amount = .ok (currencyGlyph ++ twoPlaces k) := by
  simp only [formatCurrency, hamt]
  congr 2
  by_cases hk : k = 0
  · subst hk; rfl
  · have hm : (⟨k, 2⟩ : Dec).m ≠ 0 := hk
    have hx : (⟨k, 2⟩ : Dec).absRat < (2 : ℚ) ^ (46 : ℤ) := by
      simp only [Dec.absRat]
      have : (k.natAbs : ℚ) < 100 * 2 ^ 46 := by exact_mod_cast hlt
      rw [div_lt_iff₀ (by positivity)]
      norm_num at this ⊢
      linarith
    have hp : placeOf ⟨k, 2⟩ ≤ -7 := placeOf_le_of_lt hm (by norm_num) hx
    obtain ⟨v, hv⟩ := numberValue_fin_of_small hm (by omega)
    rw [hv]
    have herr := numberValue_error hm hv
    have hpow : (2 : ℚ) ^ placeOf ⟨k, 2⟩ ≤ (2 : ℚ) ^ (-7 : ℤ) :=
      zpow_le_zpow_right₀ (by norm_num) hp
    have hd : (⟨k, 2⟩ : Dec).toRat = (k : ℚ) / 100 := by
      simp [Dec.toRat]; norm_num
    rw [hd] at herr
    have hnear : |v.toRat - (k : ℚ) / 100| < 1 / 200 := by
      have h7 : (2 : ℚ) ^ (-7 : ℤ) = 1 / 128 := by norm_num
      rw [h7] at hpow
      linarith
    have hk100 : (1 : ℚ) / 100 ≤ |(k : ℚ) / 100| := by
      rw [abs_div, abs_of_pos (by norm_num : (0 : ℚ) < 100)]
      have : (1 : ℚ) ≤ |(k : ℚ)| := by
        have h1 : 1 ≤ |k| := Int.one_le_abs hk
        exact_mod_cast h1
      linarith
    obtain ⟨l1, l2⟩ := abs_lt.1 hnear
    have hsign : v.m < 0 ↔ k < 0 := by
      rw [Dec.m_neg_iff]
      constructor
      · intro hneg
        by_contra hc
        have hk0 : (0 : ℚ) ≤ (k : ℚ) / 100 := by
          have : (0 : ℚ) ≤ (k : ℚ) := by exact_mod_cast (not_lt.1 hc)
          positivity
        rw [abs_of_nonneg hk0] at hk100
        linarith
      · intro hneg
        have hk0 : (k : ℚ) / 100 < 0 := by
          have : (k : ℚ) < 0 := by exact_mod_cast hneg
          linarith
        rw [abs_of_neg hk0] at hk100
        linarith
    exact toFixed2_near v k hnear hsign (by omega)

/-- The amounts 90, 100 and 10, and the string `90.00`, are written `90.00`, `100.00`,
`10.00` and `90.00` after the prefix. -/
theorem formatCurrency_two_places_witness :
    formatCurrency (intVal 90) = .ok (currencyGlyph ++ "90.00") ∧
      formatCurrency (intVal 100) = .ok (currencyGlyph ++ "100.00") ∧
      formatCurrency (intVal 10) = .ok (currencyGlyph ++ "10.00") ∧
      formatCurrency (.str "90.00") = .ok (currencyGlyph ++ "90.00") :=
  ⟨formatCurrency_two_places (intVal 90) 9000 (by rfl) (by norm_num),
    formatCurrency_two_places (intVal 100) 10000 (by rfl) (by norm_num),
    formatCurrency_two_places (intVal 10) 1000 (by rfl) (by norm_num),
    formatCurrency_two_places (.str "90.00") 9000 (by rfl) (by norm_num)⟩

/-- From `2 ^ 46` on the nearest double can lie more than half a cent away: the amount
`70368744177664.01` is read as `70368744177664.015625` and written with `.02`. -/
theorem formatCurrency_beyond_bound :
    parseFloat (.str "70368744177664.01") = .ok (.fin ⟨70368744177664015625, 6⟩) ∧
      formatCurrency (.str "70368744177664.01") = .ok (currencyGlyph ++ "70368744177664.02") ∧
      formatCurrency (.str "123456789012345678.91")
        = .ok (currencyGlyph ++ "123456789012345680.00") := by
  refine ⟨by rfl, by rfl, by rfl⟩

set_option exponentiation.threshold 600 in
set_option maxRecDepth 4000 in
/-- Beyond the range of a double every decimal reads as `Infinity`: the price `1e500` is not
greater than the mrp `1e400` for the validator, which returns no errors. -/
theorem beyond_double_range_accepted :
    parseFloat (.str "1e500") = .ok .posInf ∧ parseFloat (.str "1e400") = .ok .posInf ∧
      validateInvoiceData (sampleRequest [.obj [("name", .str "Vaccine"),
        ("quantity", intVal 1), ("mrp", .str "1e400"), ("price", .str "1e500")]]) = .ok [] := by
  refine ⟨by rfl, by rfl, by rfl⟩

/-! ## Claims about the totals, with rounding -/

theorem multipliesAs_of_hasAmounts {p : JVal} {row : Dec × Dec × Dec} (h : HasAmounts p row) :
    MultipliesAs p row := by
  obtain ⟨h1, h2, h3⟩ := h
  exact ⟨by rw [h1]; rfl, by rw [h2]; rfl, by rw [h3]; rfl⟩

theorem tableRow_amounts {formatDate : JVal → Except JSError String} {st st1 : RowState}
    {p : JVal} {row : Dec × Dec × Dec} (hp : MultipliesAs p row)
    (h : tableRow formatDate st p = .ok st1) :
    st1.totalMRP = JNum.add st.totalMRP (mrpTotalOf row) ∧
      st1.totalAmount = JNum.add st.totalAmount (itemTotalOf row) ∧
      st1.itemTotals = st.itemTotals ++ [itemTotalOf row] := by
  obtain ⟨h1, h2, h3⟩ := hp
  have hn := not_nullish_of_toNumber_fin h1
  simp only [tableRow, getProp_of_not_nullish hn, h1, h2, h3, ok_bind, bind_eq_ok] at h
  obtain ⟨doc, _, h⟩ := h
  simp only [Except.ok.injEq] at h
  subst h
  exact ⟨rfl, rfl, rfl⟩

theorem tableRows_amounts {formatDate : JVal → Except JSError String} :
    ∀ (ps : List JVal) (rows : List (Dec × Dec × Dec)) (st st1 : RowState),
      List.Forall₂ MultipliesAs ps rows → tableRows formatDate st ps = .ok st1 →
      st1.totalMRP = (rows.map mrpTotalOf).foldl JNum.add st.totalMRP ∧
        st1.totalAmount = (rows.map itemTotalOf).foldl JNum.add st.totalAmount ∧
        st1.itemTotals = st.itemTotals ++ rows.map itemTotalOf := by
  intro ps
  induction ps with
  | nil =>
    intro rows st st1 hrows h
    cases hrows
    simp only [tableRows, Except.ok.injEq] at h
    subst h
    simp
  | cons p rest ih =>
    intro rows st st1 hrows h
    cases hrows with
    | cons hrow hrest =>
      rename_i row rows1
      simp only [tableRows, bind_eq_ok] at h
      obtain ⟨st2, hrw, h⟩ := h
      obtain ⟨e1, e2, e3⟩ := tableRow_amounts hrow hrw
      obtain ⟨r1, r2, r3⟩ := ih rows1 st2 st1 hrest h
      refine ⟨?_, ?_, ?_⟩
      · rw [r1, e1]; rfl
      · rw [r2, e2]; rfl
      · rw [r3, e3]; simp

theorem generateInvoice_totals {formatDate : JVal → Except JSError String} {nowMs : ℕ}
    {generatedOn : String} {data : JVal} {logoPath : String} {ps : List JVal}
    {rows : List (Dec × Dec × Dec)} {r : Render}
    (hps : field data "products" = .arr ps) (hrows : List.Forall₂ MultipliesAs ps rows)
    (hr : generateInvoice formatDate nowMs generatedOn data logoPath = .ok r) :
    r.itemTotals = rows.map itemTotalOf ∧
      r.totalAmount = runningSum (rows.map itemTotalOf) ∧
      r.totalMRP = runningSum (rows.map mrpTotalOf) ∧
      r.totalDiscount = JNum.sub r.totalMRP r.totalAmount := by
  obtain ⟨doc, ps2, st, hd, hdoc, hps2, hst, hc⟩ := generateInvoice_parts hr
  rw [hps] at hps2
  simp only [iterate, Except.ok.injEq] at hps2
  subst hps2
  obtain ⟨c1, c2, c3, c4⟩ := drawClosing_totals hc
  obtain ⟨r1, r2, r3⟩ := tableRows_amounts _ rows _ st hrows hst
  simp only [List.nil_append] at r3
  refine ⟨by rw [c1, r3], by rw [c3, r2]; rfl, by rw [c2, r1]; rfl, by rw [c4, c2, c3]⟩

/-- C9 (as the code has it). When the products carry finite numbers as price, mrp and
quantity, every run of `generateInvoice` that returns has computed for each product the item
total `price * quantity` rounded to a double, and ends with `totalAmount` the running sum of
the item totals and `totalMRP` the running sum of the rounded `mrp * quantity`, every addition
rounded, and with `totalDiscount` the rounded `totalMRP - totalAmount`. -/
theorem invoice_totals (formatDate : JVal → Except JSError String) (nowMs : ℕ)
    (generatedOn : String) (data : JVal) (logoPath : String) (ps : List JVal)
    (rows : List (Dec × Dec × Dec)) (r : Render)
    (hps : field data "products" = .arr ps) (hrows : List.Forall₂ HasAmounts ps rows)
    (hr : generateInvoice formatDate nowMs generatedOn data logoPath = .ok r) :
    r.itemTotals = rows.map itemTotalOf ∧
      r.totalAmount = runningSum (rows.map itemTotalOf) ∧
      r.totalMRP = runningSum (rows.map mrpTotalOf) ∧
      r.totalDiscount = JNum.sub r.totalMRP r.totalAmount :=
  generateInvoice_totals hps (hrows.imp (fun _ _ h => multipliesAs_of_hasAmounts h)) hr

/-- The scenario: quantity 2, mrp 50, price 45 give item total 90, total amount 90, total MRP
100 and discount 10; no operation rounds. -/
theorem invoice_totals_witness :
    (sampleRender.itemTotals = [(Dec.ofInt 45, Dec.ofInt 50, Dec.ofInt 2)].map itemTotalOf ∧
      sampleRender.totalAmount
        = runningSum ([(Dec.ofInt 45, Dec.ofInt 50, Dec.ofInt 2)].map itemTotalOf) ∧
      sampleRender.totalMRP
        = runningSum ([(Dec.ofInt 45, Dec.ofInt 50, Dec.ofInt 2)].map mrpTotalOf) ∧
      sampleRender.totalDiscount = JNum.sub sampleRender.totalMRP sampleRender.totalAmount) ∧
      sampleRender.itemTotals = [.fin (Dec.ofInt 90)] ∧
      sampleRender.totalAmount = .fin (Dec.ofInt 90) ∧
      sampleRender.totalMRP = .fin (Dec.ofInt 100) ∧
      sampleRender.totalDiscount = .fin (Dec.ofInt 10) :=
  ⟨invoice_totals sampleFormatDate 1730793600000 "05/11/2026 08:00"
      (sampleRequest [paracetamol]) "uploads/logo.png" [paracetamol]
      [(Dec.ofInt 45, Dec.ofInt 50, Dec.ofInt 2)] sampleRender
      (by rfl) (List.Forall₂.cons ⟨rfl, rfl, rfl⟩ List.Forall₂.nil) (by rfl),
    by rfl, by rfl, by rfl, by rfl⟩

/-- C9 (as stated) fails, on a request the validator accepts. For price `0.03` and quantity
`0.5` the item total the layout computes lies below `0.03 × 0.5 = 0.015` and is written
`0.01`. For price `0.1` and quantity `3` the multiplication itself rounds: the item total is
above the product of the two numbers, and above `0.1 × 3 = 0.3`. The total amount is not
`0.015 + 0.3`. -/
theorem item_totals_rounded :
    validateInvoiceData (sampleRequest [halfUnit, threeTenths]) = .ok [] ∧
      List.Forall₂ HasAmounts [halfUnit, threeTenths]
        [(⟨299999999999999988897769753748434595763683319091796875, 55⟩,
            ⟨5000000000000000277555756156289135105907917022705078125, 56⟩, ⟨5, 1⟩),
          (⟨1000000000000000055511151231257827021181583404541015625, 55⟩,
            ⟨200000000000000011102230246251565404236316680908203125, 54⟩, Dec.ofInt 3)] ∧
      returns (generateInvoice sampleFormatDate 1730793600000 "05/11/2026 08:00"
        (sampleRequest [halfUnit, threeTenths]) "uploads/logo.png") = true ∧
      (renderOf (generateInvoice sampleFormatDate 1730793600000 "05/11/2026 08:00"
        (sampleRequest [halfUnit, threeTenths]) "uploads/logo.png")).itemTotals
        = [.fin ⟨1499999999999999944488848768742172978818416595458984375, 56⟩,
            .fin ⟨3000000000000000444089209850062616169452667236328125, 52⟩] ∧
      (renderOf (generateInvoice sampleFormatDate 1730793600000 "05/11/2026 08:00"
        (sampleRequest [halfUnit, threeTenths]) "uploads/logo.png")).totalAmount
        = .fin ⟨31500000000000005773159728050814010202884674072265625, 53⟩ ∧
      (⟨1499999999999999944488848768742172978818416595458984375, 56⟩ : Dec).toRat
        < (3 : ℚ) / 100 * (5 / 10) ∧
      formatCurrency (.num (.fin ⟨1499999999999999944488848768742172978818416595458984375, 56⟩))
        = .ok (currencyGlyph ++ "0.01") ∧
      (⟨1000000000000000055511151231257827021181583404541015625, 55⟩ : Dec).toRat * 3
        < (⟨3000000000000000444089209850062616169452667236328125, 52⟩ : Dec).toRat ∧
      (1 : ℚ) / 10 * 3
        < (⟨3000000000000000444089209850062616169452667236328125, 52⟩ : Dec).toRat ∧
      (⟨31500000000000005773159728050814010202884674072265625, 53⟩ : Dec).toRat
        ≠ (3 : ℚ) / 100 * (5 / 10) + 1 / 10 * 3 := by
  refine ⟨by rfl, ?_, by rfl, by rfl, by rfl, ?_, by rfl, ?_, ?_, ?_⟩
  · exact List.Forall₂.cons ⟨by rfl, by rfl, by rfl⟩
      (List.Forall₂.cons ⟨by rfl, by rfl, by rfl⟩ List.Forall₂.nil)
  · norm_num [Dec.toRat]
  · norm_num [Dec.toRat]
  · norm_num [Dec.toRat]
  · norm_num [Dec.toRat]

theorem multipliesAs_of_readsAmounts {p : JVal} {row : Dec × Dec × Dec} (h : ReadsAmounts p row) :
    MultipliesAs p row := ⟨h.1, h.2.2.1, h.2.2.2.2⟩

theorem JNum.add_eq_fin {x y : JNum} {t : Dec} (h : JNum.add x y = .fin t) :
    ∃ a b, x = .fin a ∧ y = .fin b ∧ numberValue (Dec.add a b) = .fin t := by
  cases x <;> cases y <;> simp [JNum.add] at h
  exact ⟨_, _, rfl, rfl, h⟩

theorem foldl_add_eq_fin (xs : List JNum) :
    ∀ (x : JNum) (t : Dec), xs.foldl JNum.add x = .fin t → ∃ a, x = .fin a := by
  induction xs with
  | nil => intro x t h; exact ⟨t, h⟩
  | cons y rest ih =>
    intro x t h
    obtain ⟨a1, h1⟩ := ih _ _ h
    obtain ⟨a, _, ha, _, _⟩ := JNum.add_eq_fin h1
    exact ⟨a, ha⟩

/-- The order of two running sums: when each term of the first is at most the matching term
of the second before rounding, and both sums end finite, the first sum is at most the
second. -/
theorem runningSums_le :
    ∀ (rows : List (Dec × Dec × Dec)) (a m tA tM : Dec), a.toRat ≤ m.toRat →
      (∀ row ∈ rows, row.1.toRat ≤ row.2.1.toRat ∧ 0 ≤ row.2.2.toRat) →
      (rows.map itemTotalOf).foldl JNum.add (.fin a) = .fin tA →
      (rows.map mrpTotalOf).foldl JNum.add (.fin m) = .fin tM →
      tA.toRat ≤ tM.toRat := by
  intro rows
  induction rows with
  | nil =>
    intro a m tA tM h _ hA hM
    simp only [List.map_nil, List.foldl_nil, JNum.fin.injEq] at hA hM
    rw [← hA, ← hM]; exact h
  | cons row rest ih =>
    intro a m tA tM h hrows hA hM
    simp only [List.map_cons, List.foldl_cons] at hA hM
    obtain ⟨a1, ha1⟩ := foldl_add_eq_fin _ _ _ hA
    obtain ⟨m1, hm1⟩ := foldl_add_eq_fin _ _ _ hM
    obtain ⟨a0, iA, e1, e2, e3⟩ := JNum.add_eq_fin ha1
    obtain ⟨m0, iM, f1, f2, f3⟩ := JNum.add_eq_fin hm1
    simp only [JNum.fin.injEq] at e1 f1
    subst e1 f1
    obtain ⟨hle, hq⟩ := hrows row (List.mem_cons_self _ _)
    have hitem : iA.toRat ≤ iM.toRat := by
      have e2' : numberValue (Dec.mul row.1 row.2.2) = .fin iA := e2
      have f2' : numberValue (Dec.mul row.2.1 row.2.2) = .fin iM := f2
      refine numberValue_mono ?_ e2' f2'
      rw [Dec.toRat_mul, Dec.toRat_mul]
      exact mul_le_mul_of_nonneg_right hle hq
    have hacc : a1.toRat ≤ m1.toRat := by
      refine numberValue_mono ?_ e3 f3
      rw [Dec.toRat_add, Dec.toRat_add]
      linarith
    rw [ha1] at hA
    rw [hm1] at hM
    exact ih a1 m1 tA tM hacc (fun r hr => hrows r (List.mem_cons_of_mem _ hr)) hA hM

theorem numberValue_nonneg {d : Dec} (h : 0 ≤ d.toRat) :
    JNum.le (.fin (Dec.ofInt 0)) (numberValue d) = true := by
  by_cases hz : d.m = 0
  · rw [numberValue_zero hz]; rfl
  · have hpos : 0 < d.m := by
      rcases lt_or_gt_of_ne hz with hn | hp
      · have := (Dec.m_neg_iff d).1 hn; linarith
      · exact hp
    cases hv : numberValue d with
    | nan =>
      simp only [numberValue, hz, if_false] at hv
      split at hv
      · split at hv <;> simp at hv
      · simp at hv
    | posInf => rfl
    | negInf =>
      simp only [numberValue, hz, if_false] at hv
      split at hv
      · rw [if_neg (by omega)] at hv; simp at hv
      · simp at hv
    | fin v =>
      have hval := numberValue_fin hz hv
      rw [Int.sign_eq_one_of_pos hpos] at hval
      have := nearestAbs_nonneg d
      have hv0 : 0 ≤ v.toRat := by rw [hval]; push_cast; linarith
      have hlt : Dec.lt v (Dec.ofInt 0) = false := by
        by_contra hc
        rw [Bool.not_eq_false] at hc
        have := (Dec.lt_iff _ _).1 hc
        rw [Dec.toRat_ofInt] at this
        push_cast at this
        linarith
      simp [JNum.le, JNum.gt, hlt]

/-- C20 (as the code has it). For every request that the validator accepts and whose products
have a numeric price and mrp and a non-negative quantity, every run of `generateInvoice`
that returns with a finite Total MRP and a finite Net Amount (`totalAmount`) has the Net
Amount at most the Total MRP and a Total Discount `totalMRP - totalAmount` that is not
negative. -/
theorem discount_nonneg (formatDate : JVal → Except JSError String) (nowMs : ℕ)
    (generatedOn : String) (data : JVal) (logoPath : String) (ps : List JVal)
    (rows : List (Dec × Dec × Dec)) (r : Render) (tM tA : Dec)
    (hv : validateInvoiceData data = .ok []) (hps : field data "products" = .arr ps)
    (hrows : List.Forall₂ ReadsAmounts ps rows)
    (hq : ∀ row ∈ rows, 0 ≤ row.2.2.toRat)
    (hr : generateInvoice formatDate nowMs generatedOn data logoPath = .ok r)
    (hM : r.totalMRP = .fin tM) (hA : r.totalAmount = .fin tA) :
    tA.toRat ≤ tM.toRat ∧ r.totalDiscount = JNum.sub (.fin tM) (.fin tA) ∧
      JNum.le (.fin (Dec.ofInt 0)) r.totalDiscount = true := by
  -- what the validator has checked
  have hok : ∀ p ∈ ps,
      JNum.gt (parsed (field p "price")) (parsed (field p "mrp")) = false := by
    rw [validateInvoiceData_eq] at hv
    split at hv
    · simp at hv
    · have hv1 : requiredErrors data required ++ productSection (field data "products")
          = [] := by simpa using hv
      obtain ⟨_, hprod⟩ := List.append_eq_nil.1 hv1
      rw [hps] at hprod
      cases ps with
      | nil => intro p hp; simp at hp
      | cons q0 rest =>
        simp only [productSection] at hprod
        intro p hp
        exact (productsErrors_nil hprod p hp).2.2.2.2
  have hle := rows_bounded hrows hok
  -- what the layout has computed
  obtain ⟨_, t1, t2, t3⟩ :=
    generateInvoice_totals hps (hrows.imp (fun _ _ h => multipliesAs_of_readsAmounts h)) hr
  rw [hA] at t1
  rw [hM] at t2
  have hAM : tA.toRat ≤ tM.toRat :=
    runningSums_le rows (Dec.ofInt 0) (Dec.ofInt 0) tA tM (le_refl _)
      (fun row hrow => ⟨hle row hrow, hq row hrow⟩) t1.symm t2.symm
  rw [hM, hA] at t3
  refine ⟨hAM, t3, ?_⟩
  rw [t3]
  have : JNum.sub (.fin tM) (.fin tA) = numberValue (Dec.add tM (Dec.neg tA)) := rfl
  rw [this]
  apply numberValue_nonneg
  rw [Dec.toRat_add, Dec.toRat_neg]
  linarith

/-- The scenario: the discount is 10, the net amount 90, the total MRP 100. -/
theorem discount_nonneg_witness :
    (Dec.ofInt 90).toRat ≤ (Dec.ofInt 100).toRat ∧
      sampleRender.totalDiscount = JNum.sub (.fin (Dec.ofInt 100)) (.fin (Dec.ofInt 90)) ∧
      JNum.le (.fin (Dec.ofInt 0)) sampleRender.totalDiscount = true :=
  discount_nonneg sampleFormatDate 1730793600000 "05/11/2026 08:00"
    (sampleRequest [paracetamol]) "uploads/logo.png" [paracetamol]
    [(Dec.ofInt 45, Dec.ofInt 50, Dec.ofInt 2)] sampleRender (Dec.ofInt 100) (Dec.ofInt 90)
    (by rfl) (by rfl)
    (List.Forall₂.cons ⟨rfl, rfl, rfl, rfl, rfl⟩ List.Forall₂.nil)
    (by intro row hrow; simp at hrow; subst hrow; norm_num [Dec.toRat, Dec.ofInt])
    (by rfl) (by rfl) (by rfl)

set_option exponentiation.threshold 400 in
set_option maxRecDepth 4000 in
/-- C20 (as stated) fails: ten units of a product whose price and mrp are the number `1e308`
are accepted by the validator; the layout returns with Total MRP and Net Amount both
`Infinity`, and the Total Discount `Infinity - Infinity` is `NaN`, which is not
non-negative. -/
theorem discount_not_a_number :
    validateInvoiceData (sampleRequest [costlyProduct]) = .ok [] ∧
      (∃ d : Dec, ReadsAmounts costlyProduct (d, d, Dec.ofInt 10) ∧
        0 ≤ (Dec.ofInt 10).toRat) ∧
      returns (generateInvoice sampleFormatDate 1730793600000 "05/11/2026 08:00"
        (sampleRequest [costlyProduct]) "uploads/logo.png") = true ∧
      (renderOf (generateInvoice sampleFormatDate 1730793600000 "05/11/2026 08:00"
        (sampleRequest [costlyProduct]) "uploads/logo.png")).totalMRP = .posInf ∧
      (renderOf (generateInvoice sampleFormatDate 1730793600000 "05/11/2026 08:00"
        (sampleRequest [costlyProduct]) "uploads/logo.png")).totalAmount = .posInf ∧
      (renderOf (generateInvoice sampleFormatDate 1730793600000 "05/11/2026 08:00"
        (sampleRequest [costlyProduct]) "uploads/logo.png")).totalDiscount = .nan ∧
      JNum.le (.fin (Dec.ofInt 0)) .nan = false := by
  refine ⟨by rfl, ⟨_, ⟨by rfl, by rfl, by rfl, by rfl, by rfl⟩, ?_⟩, by rfl, by rfl, by rfl,
    by rfl, by rfl⟩
  norm_num [Dec.toRat, Dec.ofInt]

/-! ## Claims about the browser-side check -/

theorem numberValue_isNaN (d : Dec) : (numberValue d).isNaN = false := by
  unfold numberValue
  split
  · rfl
  · split
    · split <;> rfl
    · rfl

theorem head_of_validUnsigned {c : Char} {rest : List Char}
    (h : validUnsigned (c :: rest) = true) : isDigit c = true ∨ c = '.' := by
  by_cases hd : isDigit c = true
  · exact Or.inl hd
  · right
    have e1 : (c :: rest).dropWhile isDigit = c :: rest := by
      simp [List.dropWhile, hd]
    have e2 : (c :: rest).takeWhile isDigit = [] := by
      simp [List.takeWhile, hd]
    unfold validUnsigned at h
    rw [e1, e2] at h
    by_contra hc
    split at h
    · rename_i r2 heq
      simp only [List.cons.injEq] at heq
      exact hc heq.1
    · simp at h

theorem validUnsigned_nil : validUnsigned [] = false := by rfl

theorem parseUnsigned_of_valid (neg : Bool) (r : List Char) (h : validUnsigned r = true) :
    (parseUnsigned neg r).1.isNaN = false := by
  have hinf : "Infinity".data.isPrefixOf r = false := by
    cases r with
    | nil => rfl
    | cons c rest =>
      rcases head_of_validUnsigned h with hd | hd
      · have : c ≠ 'I' := by
          intro hc; subst hc; revert hd; decide
        simp [List.isPrefixOf, this.symm]
      · subst hd; rfl
  unfold parseUnsigned
  rw [hinf]
  simp only [Bool.false_eq_true, if_false]
  unfold validUnsigned at h
  split at h
  · rename_i r2 heq
    simp only [Bool.and_eq_true, Bool.not_eq_true', List.isEmpty_eq_false] at h
    have hf : (r2.takeWhile isDigit).isEmpty = false := by
      cases hh : r2.takeWhile isDigit with
      | nil => exact absurd hh h.1
      | cons _ _ => rfl
    simp only [hf, Bool.and_false, Bool.false_eq_true, if_false]
    exact numberValue_isNaN _
  · simp only [Bool.and_eq_true, Bool.not_eq_true', List.isEmpty_eq_false] at h
    have hf : (r.takeWhile isDigit).isEmpty = false := by
      cases hh : r.takeWhile isDigit with
      | nil => exact absurd hh h.1
      | cons _ _ => rfl
    simp only [hf, Bool.false_eq_true, if_false]
    exact numberValue_isNaN _


theorem head_of_validFloat {c : Char} {rest : List Char}
    (h : validFloat (c :: rest) = true) : c = '-' ∨ isDigit c = true ∨ c = '.' := by
  by_cases hm : c = '-'
  · exact Or.inl hm
  · right
    unfold validFloat at h
    split at h
    · rename_i r heq
      simp only [List.cons.injEq] at heq
      exact absurd heq.1.symm (fun e => hm e.symm)
    · exact head_of_validUnsigned h

theorem not_whiteSpace_of_digit {c : Char} (h : isDigit c = true) :
    isStrWhiteSpace c = false := by
  simp only [isDigit, Bool.and_eq_true, decide_eq_true_eq] at h
  simp only [isStrWhiteSpace, Bool.or_eq_false_iff, Bool.and_eq_false_iff,
    decide_eq_false_iff_not]
  omega

theorem parseSigned_of_valid (cs : List Char) (h : validFloat cs = true) :
    (parseSigned (cs.dropWhile isStrWhiteSpace)).1.isNaN = false := by
  cases cs with
  | nil => simp [validFloat, validUnsigned_nil] at h
  | cons c rest =>
    have hw : isStrWhiteSpace c = false := by
      rcases head_of_validFloat h with hc | hc | hc
      · subst hc; decide
      · exact not_whiteSpace_of_digit hc
      · subst hc; decide
    have hdrop : (c :: rest).dropWhile isStrWhiteSpace = c :: rest := by
      simp [List.dropWhile, hw]
    rw [hdrop]
    by_cases hm : c = '-'
    · subst hm
      exact parseUnsigned_of_valid true rest h
    · have hv : validUnsigned (c :: rest) = true := by
        unfold validFloat at h
        split at h
        · rename_i r heq
          simp only [List.cons.injEq] at heq
          exact absurd heq.1 hm
        · exact h
      have hp : c ≠ '+' := by
        rcases head_of_validUnsigned hv with hd | hd
        · intro hc; subst hc; revert hd; decide
        · intro hc; rw [hc] at hd; revert hd; decide
      unfold parseSigned
      split
      · rename_i r heq
        simp only [List.cons.injEq] at heq
        exact absurd heq.1 hp
      · rename_i r heq
        simp only [List.cons.injEq] at heq
        exact absurd heq.1 hm
      · exact parseUnsigned_of_valid false _ hv

/-- What a number input holds and the presence test lets through reads as a number. -/
theorem parsed_of_numberInput {v : JVal} (h : numberInputValue v = true)
    (ht : truthy v = true) : (parsed v).isNaN = false := by
  cases v with
  | str s =>
    simp only [numberInputValue, Bool.or_eq_true] at h
    rcases h with h | h
    · simp only [truthy, decide_eq_true_eq] at ht
      simp only [List.isEmpty_iff] at h
      exact absurd h ht
    · simp only [parsed, parseFloat, toStringJS, parseFloatString]
      exact parseSigned_of_valid _ h
  | _ => simp [numberInputValue] at h

theorem readsAsNumbers_of_numberInputs {ps : List JVal} (hn : NumberInputs ps)
    (ht : ∀ q ∈ ps, truthy (field q "price") = true ∧ truthy (field q "mrp") = true) :
    ps.all readsAsNumbers = true := by
  rw [List.all_eq_true]
  intro p hp
  obtain ⟨h1, h2⟩ := hn p hp
  obtain ⟨t1, t2⟩ := ht p hp
  simp [readsAsNumbers, parsed_of_numberInput h1 t1, parsed_of_numberInput h2 t2]

theorem accepted_products {data : JVal} {ps : List JVal}
    (hps : field data "products" = .arr ps) (hok : validateInvoiceData data = .ok []) :
    ps.any productThrows = false ∧
      ∀ q ∈ ps, truthy (field q "name") = true ∧ truthy (field q "quantity") = true ∧
        truthy (field q "mrp") = true ∧ truthy (field q "price") = true ∧
        JNum.gt (parsed (field q "price")) (parsed (field q "mrp")) = false := by
  rw [validateInvoiceData_eq] at hok
  split at hok
  · simp at hok
  · rename_i hthrow
    have h1 : requiredErrors data required ++ productSection (field data "products")
        = [] := by simpa using hok
    obtain ⟨_, hprod⟩ := List.append_eq_nil.1 h1
    refine ⟨by rw [← validatorThrows_products hps]; simpa using hthrow, ?_⟩
    rw [hps] at hprod
    cases ps with
    | nil => simp [productSection] at hprod
    | cons p rest =>
      simp only [productSection] at hprod
      exact productsErrors_nil hprod

/-- On a form state with a logo selected that the server-side check accepts, the
browser-side check returns, and its answer is whether the price and the mrp of every product
read as numbers. -/
theorem validateForm_eq_of_accepted (formData : JVal) (ps : List JVal)
    (hlogo : truthy (field formData "logo") = true)
    (hps : field formData "products" = .arr ps)
    (hok : validateInvoiceData formData = .ok []) :
    validateForm formData = .ok (ps.all readsAsNumbers) := by
  obtain ⟨hany, hall⟩ := accepted_products hps hok
  rw [validateInvoiceData_eq] at hok
  split at hok
  · simp at hok
  · have h1 : requiredErrors formData required ++ productSection (field formData "products")
        = [] := by simpa using hok
    obtain ⟨hreq, _⟩ := List.append_eq_nil.1 h1
    simp only [required, requiredErrors, List.append_eq_nil] at hreq
    obtain ⟨h1, h2, _, h4, _, h6, h7, _, _⟩ := hreq
    have s2 := entry_fields_nil h2
    have s4 := entry_fields_nil h4
    have hname := entry_label_nil h1
    have hpay := entry_label_nil h6
    have hterms := entry_label_nil h7
    have haddr := s2 ("address", "Store address") (by simp)
    have hphone := s2 ("phone", "Store phone") (by simp)
    have hcname := s4 ("name", "Customer name") (by simp)
    have hcphone := s4 ("phone", "Customer phone") (by simp)
    have hd : isNullish formData = false :=
      not_nullish_of_truthy (truthy_of_field_truthy hname)
    have hsd : isNullish (field formData "storeDetails") = false :=
      not_nullish_of_truthy (truthy_of_field_truthy haddr)
    have hcu : isNullish (field formData "customer") = false :=
      not_nullish_of_truthy (truthy_of_field_truthy hcname)
    have hevery : every validateFormProduct ps = .ok (ps.all readsAsNumbers) :=
      every_validateFormProduct ps hall (by simpa using hany)
    simp [validateForm, getProp_of_not_nullish hd, getProp_of_not_nullish hsd,
      getProp_of_not_nullish hcu, ok_bind, hname, hlogo, haddr, hphone, hcname, hcphone,
      hpay, hterms, hps, hevery]

/-- C22. The browser-side check is no stricter than the server-side one: on every form
state with a logo selected whose products have their price and mrp from the number inputs
of the form, if `validateInvoiceData` returns no errors then `validateForm` returns true. -/
theorem validateForm_of_accepted (formData : JVal) (ps : List JVal)
    (hlogo : truthy (field formData "logo") = true)
    (hps : field formData "products" = .arr ps) (hnum : NumberInputs ps)
    (hok : validateInvoiceData formData = .ok []) :
    validateForm formData = .ok true := by
  rw [validateForm_eq_of_accepted formData ps hlogo hps hok,
    readsAsNumbers_of_numberInputs hnum
      (fun q hq => ⟨((accepted_products hps hok).2 q hq).2.2.2.1,
        ((accepted_products hps hok).2 q hq).2.2.1⟩)]

/-- The filled form with mrp `50` and price `45.00` passes both checks. -/
theorem validateForm_of_accepted_witness :
    validateInvoiceData (sampleForm "50" "45.00") = .ok [] ∧
      validateForm (sampleForm "50" "45.00") = .ok true :=
  ⟨by rfl,
    validateForm_of_accepted (sampleForm "50" "45.00")
      [.obj [("name", .str "Paracetamol"), ("brand", .str "Acme"),
        ("batch", .str "B-17"), ("expiry", .str "2027-01-31"), ("quantity", .str "2"),
        ("mrp", .str "50"), ("price", .str "45.00")]]
      (by rfl) (by rfl)
      (by
        intro p hp
        simp only [List.mem_singleton] at hp
        subst hp
        exact ⟨by rfl, by rfl⟩)
      (by rfl)⟩

/-- The placeholder that the notice on the form suggests is not one the number inputs hold:
on a state with price `NaN` the server-side check returns no errors and the browser-side
check returns false. -/
theorem placeholder_price_rejected_by_form :
    numberInputValue (.str "NaN") = false ∧
      validateInvoiceData (sampleForm "50" "NaN") = .ok [] ∧
      validateForm (sampleForm "50" "NaN") = .ok false := by
  refine ⟨by rfl, by rfl, by rfl⟩

end InvoiceGenius
